import Mathlib

/-!
# ud3tn: node / contact graph (`components/ud3tn/node.c`), EID validation
(`components/ud3tn/eid.c`), agent manager (`components/ud3tn/agent_manager.c`),
management agent (`components/agents/management_agent.c`) and BIBE convergence
layer (`components/cla/posix/cla_bibe.c`)

A shallow embedding of the contact and endpoint list operations of `node.c`,
of the EID validators of `eid.c`, of the registry of `agent_manager.c`, of the
callback of `management_agent.c`, and of the link management task and the
queue lookup of `cla_bibe.c`.

Conventions of the embedding

* A C linked list is a Lean `List`; the `NULL` list is `[]`.
* Machine integers are `Nat` / `Int`; every place where the C arithmetic can
  wrap carries an explicit reduction modulo `2^w`.
* A `char *eid` is an address together with the string stored there, because
  `endpoint_list_add` and the sort in `endpoint_list_strip_and_sort` look at
  the address while `strcmp` looks at the string.
* `contact->node` is `none` for `NULL` and `some eid` for a node whose `eid`
  string is `eid` (the only thing the list operations read through it).
* An out-parameter `struct contact_list **modf` is `Option (List Contact)`:
  `none` is a `NULL` out-parameter, `some l` the list it points to.  An entry
  of such a list stands for the contact its `data` pointer leads to, as that
  contact is when the function returns: `contact_list_union` keeps changing
  the contact of a slot after it has appended it, so the entries it appends
  while it works on a slot are kept as references to that slot
  (`ContactPtr.cur_slot`) and read when the slot is left.  The entries behind
  `modf` at the call lead to contacts outside the two lists.
* `malloc` in `node.c` can return `NULL`: the functions that allocate take
  the outcomes of the coming allocations as `heap` and return what is left
  of it (see `malloc`).  `ASSERT` is the release no-op of `common.h`.
-/

namespace Ud3tn

/-! ## Data model -/

/-- The `char *eid` of an endpoint list entry: buffer address and contents. -/
structure Eid where
  ptr : Nat
  str : String
deriving DecidableEq, Repr

/-- The `struct contact` of `node.c` (fields `from`, `to`, `bitrate`,
`total_capacity`, the three residual counters, the endpoint list and
`active`).  The list of routed bundles is not read by the operations
embedded here and is left out. -/
structure Contact where
  node : Option String
  from_ : Nat
  to_ : Nat
  bitrate : Nat
  total_capacity : Nat
  remaining_capacity_p0 : Int
  remaining_capacity_p1 : Int
  remaining_capacity_p2 : Int
  contact_endpoints : List Eid
  active : Int
deriving DecidableEq, Repr

/-- The `struct node`: `eid` (`none` for `NULL`), endpoints and contacts. -/
structure Node where
  eid : Option String
  cla_addr : Option String
  flags : Nat
  endpoints : List Eid
  contacts : List Contact
deriving DecidableEq, Repr

/-! ## Machine arithmetic -/

/-- `INT32_MAX`. -/
def INT32_MAX : Nat := 2147483647

/-- Subtraction of two `uint64_t` values. -/
def u64_sub (a b : Nat) : Nat := (a % 2 ^ 64 + 2 ^ 64 - b % 2 ^ 64) % 2 ^ 64

/-- Conversion of an integer value to `int32_t` (two's complement). -/
def to_int32 (x : Int) : Int := (x + 2 ^ 31) % 2 ^ 32 - 2 ^ 31

/-- Conversion of an integer value to `uint64_t`. -/
def to_uint64 (x : Int) : Nat := (x % 2 ^ 64).toNat

/-- The macro `MIN(a, b)` of `common.h`: `_b < _a ? _b : _a`. -/
def MIN (a b : Nat) : Nat := if b < a then b else a

/-- The macro `MAX(a, b)` of `common.h`: `_b > _a ? _b : _a`. -/
def MAX (a b : Nat) : Nat := if b > a then b else a

/-! ## Allocation -/

/-- `malloc`, as far as its callers in `node.c` look at it: `heap` holds the
outcomes of the calls to come, in order, `true` for a block and `false` for
`NULL`; when it is used up every further call returns a block.  The value is
the outcome of this call and the outcomes left for the later ones. -/
def malloc (heap : List Bool) : Bool × List Bool :=
  match heap with
  | [] => (true, [])
  | ok :: rest => (ok, rest)

/-! ## Contacts -/

/-- `contacts_overlap`: `a->from < b->to && a->to > b->from`. -/
def contacts_overlap (a b : Contact) : Bool :=
  decide (a.from_ < b.to_) && decide (a.to_ > b.from_)

/-- `recalculate_contact_capacity`.  The additions to the `int32_t` residual
counters wrap in two's complement. -/
def recalculate_contact_capacity (contact : Contact) : Contact :=
  let duration := u64_sub contact.to_ contact.from_
  let new_capacity := (duration * contact.bitrate) % 2 ^ 64
  if (duration ≠ 0 ∧ new_capacity / duration ≠ contact.bitrate) ∨
      new_capacity ≥ INT32_MAX then
    { contact with
      total_capacity := INT32_MAX
      remaining_capacity_p0 := INT32_MAX
      remaining_capacity_p1 := INT32_MAX
      remaining_capacity_p2 := INT32_MAX }
  else
    let capacity_difference : Int :=
      to_int32 (to_uint64 ((new_capacity : Int) - to_int32 contact.total_capacity))
    { contact with
      total_capacity := new_capacity % 2 ^ 32
      remaining_capacity_p0 := to_int32 (contact.remaining_capacity_p0 + capacity_difference)
      remaining_capacity_p1 := to_int32 (contact.remaining_capacity_p1 + capacity_difference)
      remaining_capacity_p2 := to_int32 (contact.remaining_capacity_p2 + capacity_difference) }

/-! ## Endpoint lists -/

/-- The loop of `endpoint_list_add`.  `found` says that `target_pos` is set;
`none` is the `return UD3TN_FAIL` inside the loop (the list is then
unchanged), `some l` the list with the new entry linked in at `target_pos`,
which is what the function leaves when the allocation behind the loop
succeeds. -/
def endpoint_list_add_loop (eid : Eid) : List Eid → Bool → Option (List Eid)
  | [], found => some (if found then [] else [eid])
  | x :: rest, found =>
    if x.ptr = eid.ptr then none
    else if x.str = eid.str then none
    else if x.ptr > eid.ptr ∧ found = false then
      (endpoint_list_add_loop eid rest true).map (fun r => eid :: x :: r)
    else
      (endpoint_list_add_loop eid rest found).map (fun r => x :: r)

/-- `endpoint_list_add`: the list afterwards, whether `UD3TN_OK` was
returned, and the allocation outcomes left.  The entry is allocated once the
loop has found neither the pointer nor the string; when `malloc` returns
`NULL` the `eid` is freed and the list stays as it is. -/
def endpoint_list_add (list : List Eid) (eid : Eid) (heap : List Bool) :
    List Eid × Bool × List Bool :=
  match endpoint_list_add_loop eid list false with
  | none => (list, false, heap)
  | some l =>
    if (malloc heap).1 = true then (l, true, (malloc heap).2)
    else (list, false, (malloc heap).2)

/-- `endpoint_list_remove`: unlinks the first entry whose string equals
`eid`; the list afterwards and whether `UD3TN_OK` was returned. -/
def endpoint_list_remove : List Eid → Eid → List Eid × Bool
  | [], _ => ([], false)
  | x :: rest, eid =>
    if x.str = eid.str then (rest, true)
    else
      let r := endpoint_list_remove rest eid
      (x :: r.1, r.2)

/-- `endpoint_list_sorted`: ascending by address. -/
def endpoint_list_sorted_from (last : Nat) : List Eid → Bool
  | [] => true
  | x :: rest => if x.ptr < last then false else endpoint_list_sorted_from x.ptr rest

/-- `endpoint_list_sorted` (the `NULL` pointer `last` is address `0`). -/
def endpoint_list_sorted (list : List Eid) : Bool := endpoint_list_sorted_from 0 list

/-- `endpoint_list_union`: every entry of `b` is offered to
`endpoint_list_add`; `b` itself is consumed.  The value is the returned list
and the allocation outcomes left. -/
def endpoint_list_union (a : List Eid) : List Eid → List Bool → List Eid × List Bool
  | [], heap => (a, heap)
  | cur_can :: rest, heap =>
    let r := endpoint_list_add a cur_can heap
    endpoint_list_union r.1 rest r.2.2

/-- `endpoint_list_difference`: the returned list `a` and the list `b` after
the call (`[]` when `free_b` made the function free it). -/
def endpoint_list_difference_loop (a : List Eid) : List Eid → List Eid
  | [] => a
  | cur_can :: rest => endpoint_list_difference_loop (endpoint_list_remove a cur_can).1 rest

/-- `endpoint_list_difference` with the state of `b` after the call. -/
def endpoint_list_difference (a b : List Eid) (free_b : Int) : List Eid × List Eid :=
  (endpoint_list_difference_loop a b, if free_b ≠ 0 then [] else b)

/-! ## Contact lists -/

/-- The loop of `contact_list_sorted` for `order_by_from != 0`. -/
def contact_list_sorted_from (last : Nat) : List Contact → Bool
  | [] => true
  | c :: cl => if c.from_ < last then false else contact_list_sorted_from c.from_ cl

/-- The loop of `contact_list_sorted` for `order_by_from == 0`. -/
def contact_list_sorted_to (last : Nat) : List Contact → Bool
  | [] => true
  | c :: cl => if c.to_ < last then false else contact_list_sorted_to c.to_ cl

/-- `contact_list_sorted`. -/
def contact_list_sorted (cl : List Contact) (order_by_from : Int) : Bool :=
  if order_by_from ≠ 0 then contact_list_sorted_from 0 cl else contact_list_sorted_to 0 cl

/-- `add_to_modified_list`: when `modified` is not `NULL` an entry is
allocated and, unless `malloc` returned `NULL`, prepended.  `c` is the
`data` pointer of the entry. -/
def add_to_modified_list {α : Type} (c : α) (modified : Option (List α)) (heap : List Bool) :
    Option (List α) × List Bool :=
  match modified with
  | none => (none, heap)
  | some l =>
    if (malloc heap).1 = true then (some (c :: l), (malloc heap).2)
    else (some l, (malloc heap).2)

/-- `merge_contacts`: `old` after the merge, the returned flag and the
allocation outcomes left. -/
def merge_contacts (old new : Contact) (heap : List Bool) : Contact × Bool × List Bool :=
  let old_duration := u64_sub old.to_ old.from_
  let u := endpoint_list_union old.contact_endpoints new.contact_endpoints heap
  let old1 : Contact :=
    { old with
      from_ := MIN old.from_ new.from_
      to_ := MAX old.to_ new.to_
      contact_endpoints := u.1 }
  if old1.bitrate ≠ new.bitrate ∨ u64_sub old1.to_ old1.from_ ≠ old_duration then
    (recalculate_contact_capacity { old1 with bitrate := new.bitrate }, true, u.2)
  else
    (old1, false, u.2)

/-- The test `x->node && y->node && strcmp(x->node->eid, y->node->eid) == 0`. -/
def same_node (x y : Contact) : Bool :=
  match x.node, y.node with
  | some n, some m => decide (n = m)
  | _, _ => false

/-- The `data` pointer of an entry of the modified list while
`contact_list_union` works on a slot: the contact of that slot, which the
merges to come still change, or another contact. -/
inductive ContactPtr where
  | cur_slot
  | other (c : Contact)
deriving DecidableEq, Repr

/-- The contact behind a pointer when the slot contact is `slot`. -/
def ContactPtr.contact (slot : Contact) : ContactPtr → Contact
  | ContactPtr.cur_slot => slot
  | ContactPtr.other c => c

/-- The merge branch of both loops of `contact_list_union`:
`modified = merge_contacts(slot, can); if (modified) add_to_modified_list(slot, modf);`. -/
def merge_into_slot (slot can : Contact) (modf : Option (List ContactPtr)) (heap : List Bool) :
    Contact × Option (List ContactPtr) × List Bool :=
  let r := merge_contacts slot can heap
  if r.2.1 = true then
    let m := add_to_modified_list ContactPtr.cur_slot modf r.2.2
    (r.1, m.1, m.2)
  else (r.1, modf, r.2.2)

/-- State of the first inner loop of `contact_list_union`: the candidates
spliced in before the slot, the slot contact, the remaining candidates, the
modified list and the allocation outcomes left.  `merged` is a ghost record
of the candidates passed to `merge_contacts` so far, in order. -/
structure UnionFirst where
  inserted : List Contact
  slot : Contact
  cur_can : List Contact
  modf : Option (List ContactPtr)
  merged : List Contact
  heap : List Bool
deriving DecidableEq, Repr

/-- First inner loop of `contact_list_union`
(`while (cur_can != NULL && cur_can->data->from <= cur_from)`). -/
def union_first_loop (cur_from : Nat) :
    Contact → List Contact → Option (List ContactPtr) → List Bool → UnionFirst
  | slot, [], modf, heap => ⟨[], slot, [], modf, [], heap⟩
  | slot, can :: next_can, modf, heap =>
    if can.from_ ≤ cur_from then
      if same_node can slot then
        if ¬ contacts_overlap can slot then
          -- no overlap -> insert before
          let r := union_first_loop cur_from slot next_can modf heap
          { r with inserted := can :: r.inserted }
        else
          -- overlap -> merge
          let m := merge_into_slot slot can modf heap
          let r := union_first_loop cur_from m.1 next_can m.2.1 m.2.2
          { r with merged := can :: r.merged }
      else
        -- other node, insert before
        let r := union_first_loop cur_from slot next_can modf heap
        { r with inserted := can :: r.inserted }
    else ⟨[], slot, can :: next_can, modf, [], heap⟩

/-- State of the second inner loop of `contact_list_union` (`merged` as in
`UnionFirst`). -/
structure UnionSecond where
  slot : Contact
  cur_can : List Contact
  modf : Option (List ContactPtr)
  merged : List Contact
  heap : List Bool
deriving DecidableEq, Repr

/-- Second inner loop of `contact_list_union` (`while (*cur_can_p != NULL)`):
every remaining candidate of the slot's node that starts before `cur_to` is
merged into the slot and unlinked. -/
def union_second_loop (cur_to : Nat) :
    Contact → List Contact → Option (List ContactPtr) → List Bool → UnionSecond
  | slot, [], modf, heap => ⟨slot, [], modf, [], heap⟩
  | slot, can :: rest, modf, heap =>
    if can.from_ < cur_to ∧ same_node can slot = true then
      let m := merge_into_slot slot can modf heap
      let r := union_second_loop cur_to m.1 rest m.2.1 m.2.2
      { r with merged := can :: r.merged }
    else
      let r := union_second_loop cur_to slot rest modf heap
      { r with cur_can := can :: r.cur_can }

/-- Ghost record of one pass of the outer loop of `contact_list_union`: the
candidates spliced in before the slot, the slot contact as the pass found it,
and the candidates passed to `merge_contacts` with it, in order. -/
structure UnionSlot where
  inserted : List Contact
  old : Contact
  merged : List Contact
deriving DecidableEq, Repr

/-- Result of `contact_list_union`: the returned list, the modified list and
the allocation outcomes left.  `slots` is the ghost record of the passes of
the outer loop and `cur_can` that of the candidates left over when the slots
ran out, which `*cur_slot = cur_can` appends. -/
structure UnionResult where
  list : List Contact
  modf : Option (List Contact)
  slots : List UnionSlot
  cur_can : List Contact
  heap : List Bool
deriving DecidableEq, Repr

/-- Outer loop of `contact_list_union` (`while (*cur_slot != NULL)`) followed
by `*cur_slot = cur_can`.  The entries appended to the modified list during a
pass lead to the slot contact, and are read when the pass is over. -/
def union_outer_loop :
    List Contact → List Contact → Option (List Contact) → List Bool → UnionResult
  | [], cur_can, modf, heap => ⟨cur_can, modf, [], cur_can, heap⟩
  | slot :: rest, cur_can, modf, heap =>
    let cur_from := slot.from_
    let cur_to := slot.to_
    let r1 := union_first_loop cur_from slot cur_can
      (modf.map (List.map ContactPtr.other)) heap
    let r2 := union_second_loop cur_to r1.slot r1.cur_can r1.modf r1.heap
    let r := union_outer_loop rest r2.cur_can
      (r2.modf.map (List.map (ContactPtr.contact r2.slot))) r2.heap
    ⟨r1.inserted ++ r2.slot :: r.list, r.modf,
      ⟨r1.inserted, slot, r1.merged ++ r2.merged⟩ :: r.slots, r.cur_can, r.heap⟩

/-- `contact_list_union` with the ghost record of its passes. -/
def contact_list_union_run (a b : List Contact) (modf : Option (List Contact))
    (heap : List Bool) : UnionResult :=
  if a = [] then ⟨b, modf, [], b, heap⟩
  else if b = [] then ⟨a, modf, a.map (fun slot => ⟨[], slot, []⟩), [], heap⟩
  else union_outer_loop a b modf heap

/-- `contact_list_union`: the returned list, the modified list and the
allocation outcomes left. -/
def contact_list_union (a b : List Contact) (modf : Option (List Contact))
    (heap : List Bool) : List Contact × Option (List Contact) × List Bool :=
  ((contact_list_union_run a b modf heap).list, (contact_list_union_run a b modf heap).modf,
    (contact_list_union_run a b modf heap).heap)

/-- State of `contact_list_difference`: the list `a` (as returned), the list
`b` after the call, the lists behind the two out-parameters and the
allocation outcomes left. -/
structure Difference where
  a : List Contact
  b : List Contact
  modf : Option (List Contact)
  deleted : Option (List Contact)
  heap : List Bool
deriving DecidableEq, Repr

/-- The loops of `contact_list_difference`, from `*cur_slot` and `cur_can` on.
The first two equations are the outer loop running out of slots, and the
outer loop walking to the end of `a` once `cur_can` is `NULL`; the last
`else` is the inner loop ending at a slot that starts before the candidate,
after which the outer loop steps over that slot and enters the inner loop
again. -/
def difference_loop :
    List Contact → List Contact → Option (List Contact) → Option (List Contact) →
      List Bool → Difference
  | [], cur_can, modf, deleted, heap => ⟨[], cur_can, modf, deleted, heap⟩
  | slot :: rest, [], modf, deleted, heap => ⟨slot :: rest, [], modf, deleted, heap⟩
  | slot :: rest, can :: next, modf, deleted, heap =>
    if can.from_ ≤ slot.from_ then
      if can.from_ = slot.from_ ∧ can.to_ = slot.to_ then
        if can.contact_endpoints = [] then
          match deleted with
          | some d =>
            -- moved to the head of the "deleted" list
            let r := difference_loop rest next modf (some (slot :: d)) heap
            { r with b := can :: r.b }
          | none =>
            if slot.active ≠ 0 then
              -- unlinked, the contact itself is kept alive
              let r := difference_loop rest next modf none heap
              { r with b := can :: r.b }
            else
              -- unlinked and freed
              let r := difference_loop rest next modf none heap
              { r with b := can :: r.b }
        else
          let d := endpoint_list_difference slot.contact_endpoints can.contact_endpoints 0
          let slot1 : Contact := { slot with contact_endpoints := d.1 }
          let can1 : Contact := { can with contact_endpoints := d.2 }
          let m := add_to_modified_list slot1 modf heap
          let r := difference_loop rest next m.1 deleted m.2
          { r with a := slot1 :: r.a, b := can1 :: r.b }
      else
        let r := difference_loop (slot :: rest) next modf deleted heap
        { r with b := can :: r.b }
    else
      let r := difference_loop rest (can :: next) modf deleted heap
      { r with a := slot :: r.a }
termination_by a b => a.length + b.length

/-- `contact_list_difference`. -/
def contact_list_difference (a b : List Contact)
    (modf deleted : Option (List Contact)) (heap : List Bool) : Difference :=
  if a = [] ∨ b = [] then ⟨a, b, modf, deleted, heap⟩
  else difference_loop a b modf deleted heap

/-! ## Preparing a node -/

/-- Modelled from the spec: the macro `LLSORT(type, member, list)` of
`util/llsort.h`, a file that is not among the sources.  The spec has it sort
the list by the given member (contacts "by `from`", endpoints after the
deduplication); it is modelled as a stable sort into ascending order of the
member. -/
def LLSORT {α : Type} (member : α → Nat) (list : List α) : List α :=
  List.insertionSort (fun x y => member x ≤ member y) list

/-- Inner loop of `endpoint_list_strip_and_sort`: frees every entry behind
`cur` whose string equals the string of `cur` and keeps the others in order. -/
def strip_inner (cur : Eid) (rest : List Eid) : List Eid :=
  rest.filter (fun i => decide (¬ i.str = cur.str))

/-- Outer loop of `endpoint_list_strip_and_sort`. -/
def strip_loop : List Eid → List Eid
  | [] => []
  | cur :: rest => cur :: strip_loop (strip_inner cur rest)
termination_by l => l.length
decreasing_by
  simp only [List.length_cons, strip_inner]
  exact Nat.lt_succ_of_le (List.length_filter_le _ _)

/-- `endpoint_list_strip_and_sort`: deduplication, then the sort by address
("Sorted by ptr value"). -/
def endpoint_list_strip_and_sort (el : List Eid) : List Eid :=
  LLSORT (fun e => e.ptr) (strip_loop el)

/-- The loop over `i` in `node_prepare_and_verify`: does `cl` overlap one of
the contacts behind it. -/
def overlaps_following (cl : Contact) : List Contact → Bool
  | [] => false
  | i :: rest => if contacts_overlap cl i then true else overlaps_following cl rest

/-- The loop over `cl` in `node_prepare_and_verify`: the contact list
afterwards and whether the loop ran to its end (`false`: `return 0`). -/
def verify_loop : List Contact → List Contact × Bool
  | [] => ([], true)
  | cl :: rest =>
    if cl.from_ ≥ cl.to_ then (cl :: rest, false)
    else
      let cl1 : Contact :=
        { cl with contact_endpoints := endpoint_list_strip_and_sort cl.contact_endpoints }
      if overlaps_following cl1 rest then (cl1 :: rest, false)
      else
        let r := verify_loop rest
        (cl1 :: r.1, r.2)

/-- `node_prepare_and_verify` for a non-`NULL` node: the node afterwards and
the returned value. -/
def node_prepare_and_verify (node : Node) : Node × Int :=
  if node.eid = none then (node, 0)
  else
    let sorted := LLSORT (fun c => c.from_) node.contacts
    let endpoints := endpoint_list_strip_and_sort node.endpoints
    let r := verify_loop sorted
    ({ node with contacts := r.1, endpoints := endpoints }, if r.2 then 1 else 0)

/-! ## Predicates used in the statements -/

/-- Field-for-field copy of a contact: equal scalar fields and an endpoint
list with the same strings in the same order (the buffers may differ). -/
def Contact.copy_of (c' c : Contact) : Prop :=
  c'.node = c.node ∧ c'.from_ = c.from_ ∧ c'.to_ = c.to_ ∧ c'.bitrate = c.bitrate ∧
  c'.total_capacity = c.total_capacity ∧
  c'.remaining_capacity_p0 = c.remaining_capacity_p0 ∧
  c'.remaining_capacity_p1 = c.remaining_capacity_p1 ∧
  c'.remaining_capacity_p2 = c.remaining_capacity_p2 ∧
  c'.active = c.active ∧
  c'.contact_endpoints.map Eid.str = c.contact_endpoints.map Eid.str

/-- Every allocation to come succeeds. -/
def all_succeed (heap : List Bool) : Prop := ∀ ok ∈ heap, ok = true

instance (heap : List Bool) : Decidable (all_succeed heap) := by
  unfold all_succeed; infer_instance

/-- The contact `old` after `merge_contacts(old, new)` when the allocations
succeed. -/
def merged (e : Contact × Contact) : Contact := (merge_contacts e.1 e.2 []).1

/-- A merge changed the bitrate or the duration `to - from` (as `uint64_t`)
of the contact merged into. -/
def merge_changed_duration (e : Contact × Contact) : Bool :=
  decide ((merged e).bitrate ≠ e.1.bitrate) ||
    decide (u64_sub (merged e).to_ (merged e).from_ ≠ u64_sub e.1.to_ e.1.from_)

/-- A merge changed the bitrate or the interval (`from` or `to`) of the
contact merged into. -/
def merge_changed_interval (e : Contact × Contact) : Bool :=
  decide ((merged e).bitrate ≠ e.1.bitrate) ||
    (decide ((merged e).from_ ≠ e.1.from_) || decide ((merged e).to_ ≠ e.1.to_))

/-- The contact `slot` after the candidates `cands` have been merged into it
one after the other, the allocations succeeding. -/
def merge_all (slot : Contact) (cands : List Contact) : Contact :=
  cands.foldl (fun s can => merged (s, can)) slot

/-- How many of the merges of `cands` into `slot`, one after the other,
changed the contact merged into, under the criterion `changed`. -/
def changing_merges (changed : Contact × Contact → Bool) : Contact → List Contact → Nat
  | _, [] => 0
  | slot, can :: rest =>
    (if changed (slot, can) = true then 1 else 0) +
      changing_merges changed (merged (slot, can)) rest

/-- The entries `contact_list_union` has to prepend to the modified list for
the passes `slots` of its outer loop, under the criterion `changed`: for every
merge that changed the contact of a slot one entry, which leads to that
contact as the pass leaves it; the entries of a later pass come first. -/
def modified_entries (changed : Contact × Contact → Bool) (slots : List UnionSlot) :
    List Contact :=
  slots.reverse.flatMap (fun e =>
    List.replicate (changing_merges changed e.old e.merged) (merge_all e.old e.merged))

/-- The list `contact_list_union` has to return for the passes `slots` of its
outer loop and the candidates `cur_can` left over: for every pass the
candidates spliced in and then the contact of the slot with its candidates
merged into it, and the candidates left over at the end. -/
def union_list (slots : List UnionSlot) (cur_can : List Contact) : List Contact :=
  slots.flatMap (fun e => e.inserted ++ [merge_all e.old e.merged]) ++ cur_can

/-- The candidates the passes `slots` have taken from the list `b`. -/
def union_taken (slots : List UnionSlot) : List Contact :=
  slots.flatMap (fun e => e.inserted ++ e.merged)

/-- The scenario contacts: a contact made by `contact_create`, given its node,
interval and bitrate, with capacities computed by
`recalculate_contact_capacity`. -/
def contact_at (node : String) (from_ to_ bitrate : Nat) : Contact :=
  recalculate_contact_capacity ⟨some node, from_, to_, bitrate, 0, 0, 0, 0, [], 0⟩

/-- The entry of `b` with the interval of `x`, if there is one. -/
def difference_match (b : List Contact) (x : Contact) : Option Contact :=
  b.find? (fun y => decide (y.from_ = x.from_ ∧ y.to_ = x.to_))

/-- The contact `x` with the endpoints of `y` subtracted from its own. -/
def difference_subtract (x y : Contact) : Contact :=
  { x with contact_endpoints :=
      (endpoint_list_difference x.contact_endpoints y.contact_endpoints 0).1 }

/-- What the difference with `b` leaves of the entry `x` of `a`. -/
def difference_kept (b : List Contact) (x : Contact) : Option Contact :=
  match difference_match b x with
  | none => some x
  | some y => if y.contact_endpoints = [] then none else some (difference_subtract x y)

/-- The entry the difference with `b` records as modified for `x`. -/
def difference_modified (b : List Contact) (x : Contact) : Option Contact :=
  match difference_match b x with
  | none => none
  | some y => if y.contact_endpoints = [] then none else some (difference_subtract x y)

/-- The entry the difference with `b` records as deleted for `x`. -/
def difference_deleted (b : List Contact) (x : Contact) : Option Contact :=
  match difference_match b x with
  | none => none
  | some y => if y.contact_endpoints = [] then some x else none

/-- The entries of `l` that get a list entry when one is allocated for each
of them in turn. -/
def allocated {α : Type} : List α → List Bool → List α
  | [], _ => []
  | x :: rest, heap =>
    if (malloc heap).1 = true then x :: allocated rest (malloc heap).2
    else allocated rest (malloc heap).2

/-- The difference of `a` and `b` in closed form, entry by entry. -/
def difference_spec (a b : List Contact) (modf deleted : Option (List Contact))
    (heap : List Bool) : Difference :=
  ⟨a.filterMap (difference_kept b), b,
   modf.map (fun l => (allocated (a.filterMap (difference_modified b)) heap).reverse ++ l),
   deleted.map (fun l => (a.filterMap (difference_deleted b)).reverse ++ l),
   if modf = none then heap else heap.drop (a.filterMap (difference_modified b)).length⟩

/-- Some entry of `b` without endpoints has the interval of `x`. -/
def difference_removes (b : List Contact) (x : Contact) : Bool :=
  b.any (fun y => decide (y.from_ = x.from_ ∧ y.to_ = x.to_ ∧ y.contact_endpoints = []))

/-- A contact without its endpoint list: node, interval, bitrate, capacities
and `active`. -/
def Contact.without_endpoints (c : Contact) : Contact :=
  { c with contact_endpoints := [] }

/-- The contact with its endpoint list stripped and sorted, as
`node_prepare_and_verify` leaves it. -/
def Contact.stripped (c : Contact) : Contact :=
  { c with contact_endpoints := endpoint_list_strip_and_sort c.contact_endpoints }

/-- A contact of the scenarios with a given endpoint list. -/
def contact_with (node : String) (from_ to_ bitrate : Nat) (endpoints : List Eid) : Contact :=
  { contact_at node from_ to_ bitrate with contact_endpoints := endpoints }

instance (c' c : Contact) : Decidable (c'.copy_of c) := by
  unfold Contact.copy_of; infer_instance

/-- The macro `CONTACT_CAPACITY(contact, p)` of `node.h`. -/
def CONTACT_CAPACITY (contact : Contact) (p : Int) : Int :=
  if p = 1 then contact.remaining_capacity_p1
  else if p = 2 then contact.remaining_capacity_p2
  else contact.remaining_capacity_p0

/-- The macro `MIN(a, b)` at type `int32_t`. -/
def MIN_int32 (a b : Int) : Int := if b < a then b else a

/-- `contact_get_cur_remaining_capacity`; `time` is the value that
`hal_time_get_timestamp_s()` returns. -/
def contact_get_cur_remaining_capacity (time : Nat) (contact : Contact) (prio : Int) : Int :=
  if time ≥ contact.to_ then 0
  else if time ≤ contact.from_ then CONTACT_CAPACITY contact prio
  else if contact.total_capacity ≥ INT32_MAX then INT32_MAX
  else
    let cap_left : Nat :=
      (contact.total_capacity * u64_sub contact.to_ time) % 2 ^ 64 /
        u64_sub contact.to_ contact.from_
    let cap_result : Int := to_int32 (cap_left : Int)
    MIN_int32 cap_result (CONTACT_CAPACITY contact prio)

/-- An address holds one string: entries with the same `eid` pointer have the
same string. -/
def buffers_consistent (l : List Eid) : Prop :=
  ∀ x ∈ l, ∀ y ∈ l, x.ptr = y.ptr → x.str = y.str

instance (l : List Eid) : Decidable (buffers_consistent l) := by
  unfold buffers_consistent; infer_instance

/-- No entry of `l` has the pointer or the string of `eid`: the case in which
`endpoint_list_add` inserts. -/
def endpoint_absent (eid : Eid) (l : List Eid) : Prop :=
  ∀ x ∈ l, x.ptr ≠ eid.ptr ∧ x.str ≠ eid.str

/-- The list `l` with `eid` linked in at `target_pos`: before the first entry
with a greater pointer, or at the end. -/
def endpoint_inserted (eid : Eid) (l : List Eid) : List Eid :=
  l.takeWhile (fun x => decide (x.ptr ≤ eid.ptr)) ++
    eid :: l.dropWhile (fun x => decide (x.ptr ≤ eid.ptr))

instance (eid : Eid) (l : List Eid) : Decidable (endpoint_absent eid l) := by
  unfold endpoint_absent; infer_instance

/-- `strcmp(s, t) <= 0`: the strings compared character by character. -/
def strcmp_le (s t : String) : Prop := s.data ≤ t.data

instance (s t : String) : Decidable (strcmp_le s t) := by
  unfold strcmp_le; infer_instance

/-! ## EIDs (`components/ud3tn/eid.c`)

A C string is the list of its characters before the terminating NUL, so a
list that stands for a C string holds no NUL; a pointer into the string is the
list of the characters from that position on, and reading through it at the
end of the list yields NUL. -/

/-- Modelled from the spec: `enum ud3tn_result` of `ud3tn/result.h`, a header
that is not among the sources; every operation "returns ok/fail". -/
inductive ud3tn_result where
  | UD3TN_OK
  | UD3TN_FAIL
deriving DecidableEq, Repr

/-- Modelled from the spec: `enum eid_scheme` of `ud3tn/eid.h`, a header that is
not among the sources; the two schemes of the spec and the unknown one. -/
inductive eid_scheme where
  | EID_SCHEME_UNKNOWN
  | EID_SCHEME_DTN
  | EID_SCHEME_IPN
deriving DecidableEq, Repr

open ud3tn_result eid_scheme

/-- The terminating NUL character. -/
def NUL : Char := Char.ofNat 0

/-- Reading `*p` for a pointer `p` into a C string. -/
def deref (p : List Char) : Char := p.headD NUL

/-- `ULLONG_MAX` of a 64-bit `unsigned long long`. -/
def ULLONG_MAX : Nat := 2 ^ 64 - 1

/-- The test `c >= '0' && c <= '9'`. -/
def is_digit (c : Char) : Bool := decide (48 ≤ c.toNat) && decide (c.toNat ≤ 57)

/-- `isspace` in the C locale: space, `\t`, `\n`, `\v`, `\f`, `\r`. -/
def is_space (c : Char) : Bool :=
  decide (c.toNat = 32) || (decide (9 ≤ c.toNat) && decide (c.toNat ≤ 13))

/-- The value of a string of decimal digits, over the unbounded naturals. -/
def decimal_value (digits : List Char) : Nat :=
  digits.foldl (fun acc c => acc * 10 + (c.toNat - 48)) 0

/-- What a call of `strtoull` leaves: the returned value, `*endptr`, and
whether `errno` is `ERANGE` afterwards (it is 0 before the call). -/
structure Strtoull where
  value : Nat
  endptr : List Char
  erange : Bool
deriving DecidableEq, Repr

/-- The C library function `strtoull(nptr, &endptr, 10)` as ISO C describes it
(C locale): white space is skipped, an optional sign is taken, then the
longest run of decimal digits; without a digit nothing is converted, 0 is
returned and `endptr` is `nptr`; a value above `ULLONG_MAX` yields
`ULLONG_MAX` with `errno = ERANGE`; a minus sign negates the value in the
unsigned type. -/
def strtoull (nptr : List Char) : Strtoull :=
  let s := nptr.dropWhile is_space
  let negative : Bool := decide (deref s = '-')
  let s1 := if deref s = '-' ∨ deref s = '+' then s.drop 1 else s
  let digits := s1.takeWhile is_digit
  if digits = [] then ⟨0, nptr, false⟩
  else if decimal_value digits > ULLONG_MAX then ⟨ULLONG_MAX, s1.dropWhile is_digit, true⟩
  else
    ⟨if negative then (2 ^ 64 - decimal_value digits) % 2 ^ 64 else decimal_value digits,
      s1.dropWhile is_digit, false⟩

/-- `get_eid_scheme` for a non-`NULL` string. -/
def get_eid_scheme (eid : List Char) : eid_scheme :=
  let len := eid.length
  if len ≥ 4 ∧ eid.take 4 = ['d', 't', 'n', ':'] then EID_SCHEME_DTN
  else if len ≥ 4 ∧ eid.take 4 = ['i', 'p', 'n', ':'] then EID_SCHEME_IPN
  else EID_SCHEME_UNKNOWN

/-- `validate_ipn_ull`: the returned pointer (`none` for `NULL`) and the cell
behind `out` after the call (`none` when `out` is `NULL`).  Two pointers into
the string are equal when as many characters follow them. -/
def validate_ipn_ull (cur : List Char) (out : Option Nat) :
    Option (List Char) × Option Nat :=
  let next := cur.dropWhile is_digit
  if deref next ≠ '.' ∧ deref next ≠ NUL then (none, out)
  else
    let r := strtoull cur
    if next.length ≠ r.endptr.length then (none, out)
    else if r.value = 0 ∧ (cur.length - next.length ≠ 1 ∨ deref cur ≠ '0') then (none, out)
    else if r.value = ULLONG_MAX ∧ r.erange = true then (none, out)
    else (some next, out.map (fun _ => r.value % 2 ^ 64))

/-- What `validate_ipn_eid` leaves: the result and the cells behind the two
out-parameters (`none` for a `NULL` out-parameter). -/
structure IpnEid where
  result : ud3tn_result
  node_out : Option Nat
  service_out : Option Nat
deriving DecidableEq, Repr

/-- `validate_ipn_eid`. -/
def validate_ipn_eid (eid : List Char) (node_out service_out : Option Nat) : IpnEid :=
  if get_eid_scheme eid ≠ EID_SCHEME_IPN then ⟨UD3TN_FAIL, node_out, service_out⟩
  else
    let r1 := validate_ipn_ull (eid.drop 4) node_out
    match r1.1 with
    | none => ⟨UD3TN_FAIL, r1.2, service_out⟩
    | some cur =>
      if deref cur ≠ '.' then ⟨UD3TN_FAIL, r1.2, service_out⟩
      else
        let r2 := validate_ipn_ull (cur.drop 1) service_out
        match r2.1 with
        | none => ⟨UD3TN_FAIL, r1.2, r2.2⟩
        | some cur2 =>
          if deref cur2 ≠ NUL then ⟨UD3TN_FAIL, r1.2, r2.2⟩
          else ⟨UD3TN_OK, r1.2, r2.2⟩

/-- `isalnum` in the C locale. -/
def is_alnum (c : Char) : Bool :=
  is_digit c || (decide (65 ≤ c.toNat) && decide (c.toNat ≤ 90)) ||
    (decide (97 ≤ c.toNat) && decide (c.toNat ≤ 122))

/-- The demux loop of `validate_eid`: every character up to the terminating
NUL is a VCHAR (`0x21 .. 0x7E`). -/
def demux_loop : List Char → ud3tn_result
  | [] => UD3TN_OK
  | c :: cur =>
    if c = NUL then UD3TN_OK
    else if c.toNat < 0x21 ∨ c.toNat > 0x7E then UD3TN_FAIL
    else demux_loop cur

/-- `validate_eid` for a non-`NULL` string. -/
def validate_eid (eid : List Char) : ud3tn_result :=
  match get_eid_scheme eid with
  | EID_SCHEME_DTN =>
    let len := eid.length
    if len < 8 then UD3TN_FAIL
    else if len = 8 ∧ eid.take 8 = ['d', 't', 'n', ':', 'n', 'o', 'n', 'e'] then UD3TN_OK
    else if eid.take 6 ≠ ['d', 't', 'n', ':', '/', '/'] then UD3TN_FAIL
    else
      let cur := (eid.drop 6).dropWhile
        (fun c => is_alnum c || decide (c = '-') || decide (c = '.') || decide (c = '_'))
      if cur.length = (eid.drop 6).length ∨ deref cur ≠ '/' then UD3TN_FAIL
      else demux_loop cur
  | EID_SCHEME_IPN =>
    if (validate_ipn_eid eid none none).result = UD3TN_OK then UD3TN_OK else UD3TN_FAIL
  | EID_SCHEME_UNKNOWN => UD3TN_FAIL

/-- The canonical decimal rendering of a natural number (the characters of
`Nat.repr`). -/
def dec (n : Nat) : List Char := Nat.toDigits 10 n

/-- The string `"ipn:" ++ node ++ "." ++ service`. -/
def ipn_string (node service : List Char) : List Char :=
  ['i', 'p', 'n', ':'] ++ node ++ '.' :: service

/-- A number that `validate_ipn_ull` accepts: a non-empty string of decimal
digits whose value is at most `2^64 - 1` and which is `"0"` when that value is
zero. -/
def ipn_number (digits : List Char) : Prop :=
  digits ≠ [] ∧ (∀ c ∈ digits, is_digit c = true) ∧ decimal_value digits ≤ 2 ^ 64 - 1 ∧
  (decimal_value digits = 0 → digits = ['0'])

instance (digits : List Char) : Decidable (ipn_number digits) := by
  unfold ipn_number; infer_instance

/-- `strchr(s, c)` for a character `c` other than NUL: the pointer to the first
`c` of the string, `none` for `NULL` when there is none. -/
def strchr (s : List Char) (c : Char) : Option (List Char) :=
  match s.dropWhile (fun x => decide (x ≠ c)) with
  | [] => none
  | x :: r => some (x :: r)

/-- `validate_local_eid` for a non-`NULL` string.  `service` is the indeterminate
content of the uninitialised local `uint64_t service` before the call of
`validate_ipn_eid`.  The comparison `strchr(..) - strlen(eid) + 1 == eid` holds
when exactly one character is left from the slash on; a `NULL` from `strchr`
does not compare equal to `eid`. -/
def validate_local_eid (eid : List Char) (service : Nat) : ud3tn_result :=
  if validate_eid eid ≠ UD3TN_OK then UD3TN_FAIL
  else
    match get_eid_scheme eid with
    | EID_SCHEME_DTN =>
      if eid.length < 7 ∨ eid.take 6 ≠ ['d', 't', 'n', ':', '/', '/'] then UD3TN_FAIL
      else
        match strchr (eid.drop 6) '/' with
        | none => UD3TN_FAIL
        | some slash => if slash.length = 1 then UD3TN_OK else UD3TN_FAIL
    | EID_SCHEME_IPN =>
      let r := validate_ipn_eid eid none (some service)
      if r.result = UD3TN_OK ∧ r.service_out = some 0 then UD3TN_OK else UD3TN_FAIL
    | EID_SCHEME_UNKNOWN => UD3TN_FAIL

/-- The test of the node-name loop of `validate_eid`:
`isalnum(c) || c == '-' || c == '.' || c == '_'`. -/
def name_char (c : Char) : Bool :=
  is_alnum c || decide (c = '-') || decide (c = '.') || decide (c = '_')

/-- A character of the class `[A-Za-z0-9._-]`. -/
def node_name_char (c : Char) : Prop :=
  ('A' ≤ c ∧ c ≤ 'Z') ∨ ('a' ≤ c ∧ c ≤ 'z') ∨ ('0' ≤ c ∧ c ≤ '9') ∨
    c = '.' ∨ c = '_' ∨ c = '-'

/-- A VCHAR: a character in the range `0x21 .. 0x7E`. -/
def vchar (c : Char) : Prop := 0x21 ≤ c.toNat ∧ c.toNat ≤ 0x7E

instance (c : Char) : Decidable (node_name_char c) := by
  unfold node_name_char; infer_instance

instance (c : Char) : Decidable (vchar c) := by
  unfold vchar; infer_instance



/-! ## Agents (`components/ud3tn/agent_manager.c`)

A function pointer is `none` for `NULL` and `some f` for the function at
address `f`; a `void *` is its address.  Calls that leave the module (the
callback of an agent, `bundle_adu_free_members`, `hal_time_init`) and reads of
the payload buffer are recorded, in order, in a list of effects.  `LOG` /
`LOGF` and the `free` of a temporary are not recorded. -/

/-- Modelled from the spec: `struct bundle_adu` of `ud3tn/bundle.h`, a header
that is not among the sources; the fields are the ones the sources read:
`source`, `payload` (the bytes of the buffer) and `length`. -/
structure bundle_adu where
  source : List Char
  payload : List Nat
  length : Nat
deriving DecidableEq, Repr

/-- `struct agent`. -/
structure agent where
  sink_identifier : List Char
  callback : Option Nat
  param : Nat
deriving DecidableEq, Repr

/-- A call that leaves the module, or a read of `data.payload[i]`. -/
inductive Effect where
  | callback (f : Nat) (data : bundle_adu) (param : Nat) (bp_context : Nat)
  | bundle_adu_free_members (data : bundle_adu)
  | read_payload (i : Nat)
  | hal_time_init (initial_timestamp : Nat)
deriving DecidableEq, Repr

/-- The two file-scope variables of `agent_manager.c`: the list behind
`agent_entry_node` and `local_eid` (`none` for `NULL`). -/
structure agent_manager where
  agent_entry_node : List agent
  local_eid : Option (List Char)
deriving DecidableEq, Repr

/-- The functions of `ud3tn/eid.h` that `agent_register` calls and that are not
among the sources: `parse_ipn_ull(cur, NULL)`, which returns a pointer into the
string or `NULL`, and `validate_dtn_eid_demux`. -/
structure SinkChecks where
  parse_ipn_ull : List Char → Option (List Char)
  validate_dtn_eid_demux : List Char → ud3tn_result

/-- `get_eid_scheme` with its `NULL` test. -/
def get_eid_scheme_ptr : Option (List Char) → eid_scheme
  | none => EID_SCHEME_UNKNOWN
  | some eid => get_eid_scheme eid

/-- `agent_search_ptr`: the position of the first link whose agent has the
sink identifier (`strcmp` returns 0), `none` for `NULL`. -/
def agent_search_ptr : List agent → List Char → Option Nat
  | [], _ => none
  | a :: next, sink_identifier =>
    if a.sink_identifier = sink_identifier then some 0
    else (agent_search_ptr next sink_identifier).map (fun i => i + 1)

/-- `agent_search`. -/
def agent_search (l : List agent) (sink_identifier : List Char) : Option agent :=
  match agent_search_ptr l sink_identifier with
  | some i => l[i]?
  | none => none

/-- The loop of `agent_list_add_entry`: walk to the link whose `next` is `NULL`
and hang the new link there. -/
def add_entry_loop (ag_ptr : agent) : List agent → List agent
  | [] => [ag_ptr]
  | it :: next => it :: add_entry_loop ag_ptr next

/-- `agent_list_add_entry`: the return value and the list afterwards. -/
def agent_list_add_entry (l : List agent) (obj : agent) : Int × List agent :=
  if (agent_search l obj.sink_identifier).isSome then (-1, l)
  else
    match l with
    | [] => (0, [obj])
    | it :: next => (0, add_entry_loop obj (it :: next))

/-- `agent_list_remove_entry`: the return value and the list afterwards.  The
function dereferences what `agent_search_ptr` returns; its only caller passes
an agent that `agent_search` has just found, so the pointer is not `NULL`
there. -/
def agent_list_remove_entry (l : List agent) (obj : agent) : Int × List agent :=
  match agent_search_ptr l obj.sink_identifier with
  | none => (-1, l)
  | some i =>
    if i ≥ l.length then (-1, l)
    else (0, l.eraseIdx i)

/-- The first test of `agent_register`: the sink identifier is checked against
the scheme of the local EID. -/
def sink_identifier_valid (ext : SinkChecks) (local_eid : Option (List Char))
    (sink_identifier : List Char) : Bool :=
  if get_eid_scheme_ptr local_eid = EID_SCHEME_IPN then
    match ext.parse_ipn_ull sink_identifier with
    | none => false
    | some end_ => decide (deref end_ = NUL)
  else decide (ext.validate_dtn_eid_demux sink_identifier = UD3TN_OK)

/-- `agent_register`: the return value and the state afterwards.  `malloc_ok`
tells whether `malloc(sizeof(struct agent))` returns a block. -/
def agent_register (ext : SinkChecks) (st : agent_manager) (sink_identifier : List Char)
    (callback : Option Nat) (param : Nat) (malloc_ok : Bool) : Int × agent_manager :=
  if sink_identifier_valid ext st.local_eid sink_identifier = false then (-1, st)
  else if (agent_search st.agent_entry_node sink_identifier).isSome then (-1, st)
  else if malloc_ok = false then (-1, st)
  else
    let r := agent_list_add_entry st.agent_entry_node ⟨sink_identifier, callback, param⟩
    if r.1 ≠ 0 then (-1, { st with agent_entry_node := r.2 })
    else (0, { st with agent_entry_node := r.2 })

/-- `agent_deregister`: the return value and the state afterwards. -/
def agent_deregister (st : agent_manager) (sink_identifier : List Char) :
    Int × agent_manager :=
  match agent_search st.agent_entry_node sink_identifier with
  | none => (-1, st)
  | some ag_ptr =>
    let r := agent_list_remove_entry st.agent_entry_node ag_ptr
    if r.1 ≠ 0 then (-1, { st with agent_entry_node := r.2 })
    else (0, { st with agent_entry_node := r.2 })

/-- What `agent_forward` leaves: the return value, the state afterwards and the
calls it has made. -/
structure Forwarded where
  ret : Int
  state : agent_manager
  effects : List Effect
deriving DecidableEq, Repr

/-- `agent_forward`. -/
def agent_forward (st : agent_manager) (sink_identifier : List Char) (data : bundle_adu)
    (bp_context : Nat) : Forwarded :=
  match agent_search st.agent_entry_node sink_identifier with
  | none => ⟨-1, st, [Effect.bundle_adu_free_members data]⟩
  | some ag_ptr =>
    match ag_ptr.callback with
    | none => ⟨-1, st, [Effect.bundle_adu_free_members data]⟩
    | some f => ⟨0, st, [Effect.callback f data ag_ptr.param bp_context]⟩

/-- A call of the interface of the agent manager. -/
inductive AgentCall where
  | init (ud3tn_local_eid : Option (List Char))
  | register (sink_identifier : List Char) (callback : Option Nat) (param : Nat)
      (malloc_ok : Bool)
  | deregister (sink_identifier : List Char)
  | forward (sink_identifier : List Char) (data : bundle_adu) (bp_context : Nat)
deriving DecidableEq, Repr

/-- The state after one call. -/
def agent_manager_step (ext : SinkChecks) (st : agent_manager) : AgentCall → agent_manager
  | .init ud3tn_local_eid => { st with local_eid := ud3tn_local_eid }
  | .register sink_identifier callback param malloc_ok =>
    (agent_register ext st sink_identifier callback param malloc_ok).2
  | .deregister sink_identifier => (agent_deregister st sink_identifier).2
  | .forward sink_identifier data bp_context =>
    (agent_forward st sink_identifier data bp_context).state

/-- The state at program start: both file-scope variables are `NULL`. -/
def agent_manager_start : agent_manager := ⟨[], none⟩

/-- The state after a sequence of calls from program start. -/
def agent_manager_run (ext : SinkChecks) (calls : List AgentCall) : agent_manager :=
  calls.foldl (agent_manager_step ext) agent_manager_start

/-- Modelled from the spec: the sink checks of `ud3tn/eid.h`, which are not
among the sources.  "IPN: must parse as a bare `u64`": the number parser of
`eid.c`; "DTN: must be a valid demux": the characters are VCHARs. -/
def sink_checks : SinkChecks :=
  ⟨fun cur => (validate_ipn_ull cur none).1, demux_loop⟩

/-! ## Management agent (`components/agents/management_agent.c`) -/

/-- `struct management_agent_params`; `local_eid` is not `NULL`. -/
structure management_agent_params where
  local_eid : List Char
  allow_remote_configuration : Bool
deriving DecidableEq, Repr

/-- Modelled from the spec: `MGMT_CMD_SET_TIME` of `agents/management_agent.h`, a
header that is not among the sources: "Command `SET_TIME` (code 1)". -/
def MGMT_CMD_SET_TIME : Nat := 1

/-- `strncmp(s, t, n)`: the characters are compared as `unsigned char` up to the
first difference, the end of a string, or `n` characters. -/
def strncmp : List Char → List Char → Nat → Int
  | _, _, 0 => 0
  | s, t, n + 1 =>
    if deref s ≠ deref t then ((deref s).toNat : Int) - ((deref t).toNat : Int)
    else if deref s = NUL then 0
    else strncmp (s.drop 1) (t.drop 1) n

/-- The value read as `data.payload[i]`, a `uint8_t`. -/
def payload_at (data : bundle_adu) (i : Nat) : Nat := data.payload.getD i 0 % 2 ^ 8

/-- `(uint64_t)b << k`. -/
def u64_shl (b k : Nat) : Nat := (b <<< k) % 2 ^ 64

/-- The timestamp that the `MGMT_CMD_SET_TIME` branch of `callback` assembles
from `data.payload[1]` .. `data.payload[8]`. -/
def set_time_value (data : bundle_adu) : Nat :=
  u64_shl (payload_at data 1) 56 ||| u64_shl (payload_at data 2) 48 |||
  u64_shl (payload_at data 3) 40 ||| u64_shl (payload_at data 4) 32 |||
  u64_shl (payload_at data 5) 24 ||| u64_shl (payload_at data 6) 16 |||
  u64_shl (payload_at data 7) 8 ||| payload_at data 8

/-- The origin check at the start of `callback`: `true` when the function goes
on, `false` when it returns early.  `get_node_id` is the function of
`ud3tn/eid.h`, which is not among the sources; it returns `NULL` (`none`) or a
fresh string. -/
def origin_check (get_node_id : List Char → Option (List Char)) (data : bundle_adu)
    (ma_param : management_agent_params) : Bool :=
  if ma_param.allow_remote_configuration = false then
    match get_node_id data.source with
    | none => false
    | some node_id =>
      if strncmp ma_param.local_eid node_id ma_param.local_eid.length ≠ 0 then false
      else true
  else true

/-- The static function `callback` of the management agent: the calls that
leave it and the reads of the payload buffer, in order. -/
def callback (get_node_id : List Char → Option (List Char)) (data : bundle_adu)
    (ma_param : management_agent_params) (_bp_context : Nat) : List Effect :=
  if origin_check get_node_id data ma_param = false then []
  else if data.length < 1 then [Effect.bundle_adu_free_members data]
  else if payload_at data 0 = MGMT_CMD_SET_TIME then
    if data.length = 9 then
      [Effect.read_payload 0, Effect.read_payload 1, Effect.read_payload 2,
        Effect.read_payload 3, Effect.read_payload 4, Effect.read_payload 5,
        Effect.read_payload 6, Effect.read_payload 7, Effect.read_payload 8,
        Effect.hal_time_init (set_time_value data), Effect.bundle_adu_free_members data]
    else [Effect.read_payload 0, Effect.bundle_adu_free_members data]
  else [Effect.read_payload 0, Effect.bundle_adu_free_members data]

/-- The arguments of the calls of `hal_time_init` among the effects, in
order. -/
def hal_time_init_calls (effects : List Effect) : List Nat :=
  effects.filterMap (fun e =>
    match e with
    | Effect.hal_time_init t => some t
    | _ => none)

/-- Modelled from the spec: `get_node_id` of `ud3tn/eid.h`, which is not among
the sources: the "source node-id" of a valid EID, that is "dtn://" N "/" for
"dtn://" N D and "ipn:" n ".0" for "ipn:" n "." s, and `NULL` for a string that
is not a valid EID. -/
def get_node_id_spec (eid : List Char) : Option (List Char) :=
  if validate_eid eid ≠ UD3TN_OK then none
  else
    match get_eid_scheme eid with
    | EID_SCHEME_DTN =>
      if eid = "dtn:none".toList then some eid
      else some (eid.take 6 ++ (eid.drop 6).takeWhile (fun c => decide (c ≠ '/')) ++ ['/'])
    | EID_SCHEME_IPN => some (eid.take 4 ++ (eid.drop 4).takeWhile is_digit ++ ['.', '0'])
    | EID_SCHEME_UNKNOWN => none





/-- The time `x` lies in the interval `[from, to)` of the contact. -/
def Contact.covers (c : Contact) (x : Nat) : Prop := c.from_ ≤ x ∧ x < c.to_

instance (c : Contact) (x : Nat) : Decidable (c.covers x) := by
  unfold Contact.covers; infer_instance

/-- The time `x` lies in the interval of some contact of the list. -/
def covered (l : List Contact) (x : Nat) : Prop := ∃ c ∈ l, c.covers x

instance (l : List Contact) (x : Nat) : Decidable (covered l x) := by
  unfold covered; infer_instance

/-! ## BIBE convergence layer (`components/cla/posix/cla_bibe.c`)

The management task of a peer runs next to other tasks.  What the world outside
the task does during one pass of its loop is given to the model as a record of
events: the value that `cla_tcp_connect_to_cla_addr` returns, `wsp.errno_` after
the `REGISTER` message was written, the result of
`handle_established_connection`, and the value of `param->in_contact`, which
other tasks write, when the loop condition reads it.  The calls that leave the
task are recorded, in order, in a list of effects; an `ASSERT` is recorded with
the value of its condition.  `LOG` / `LOGF`, the semaphore calls,
`aap_parser_reset`, `free` and `hal_task_delete` are not recorded. -/

/-- The two fields of `struct cla_link` that `bibe_get_tx_queue` reads; the same
fields make up `struct cla_tx_queue`.  Both are pointers, `none` for `NULL`. -/
structure cla_tx_queue where
  tx_queue_handle : Option Nat
  tx_queue_sem : Option Nat
deriving DecidableEq, Repr

/-- `struct bibe_contact_parameters`; `link` stands for `link.base.base`, and
`partner_eid` is `none` for `NULL`. -/
structure bibe_contact_parameters where
  link : cla_tx_queue
  cla_sock_addr : List Char
  partner_eid : Option (List Char)
  in_contact : Bool
  connected : Bool
  connect_attempt : Int
  socket : Int
deriving DecidableEq, Repr

/-- `struct bibe_config`, of which only `param_htab` is read here.  Modelled from
the spec: the table of `ud3tn/simplehtab.h`, a header that is not among the
sources, is "a hash table keyed by socket address": the keys with the
parameters their entries point to. -/
structure bibe_config where
  param_htab : List (List Char × bibe_contact_parameters)
deriving DecidableEq, Repr

/-- Modelled from the spec: `htab_get` of `ud3tn/simplehtab.h`: the value stored
under the key, `NULL` when there is none. -/
def htab_get (htab : List (List Char × bibe_contact_parameters)) (key : List Char) :
    Option bibe_contact_parameters :=
  (htab.find? (fun e => decide (e.1 = key))).map (fun e => e.2)

/-- Modelled from the spec: `htab_remove` of `ud3tn/simplehtab.h`: the table
without the entry of the key. -/
def htab_remove (htab : List (List Char × bibe_contact_parameters)) (key : List Char) :
    List (List Char × bibe_contact_parameters) :=
  htab.filter (fun e => decide (e.1 ≠ key))

/-- A call that leaves the management task, or an `ASSERT` with the value of its
condition. -/
inductive LinkEffect where
  | ASSERT (value : Bool)
  | handle_established_connection (socket : Int) (result : ud3tn_result)
  | cla_tcp_connect_to_cla_addr (cla_sock_addr : List Char)
  | aap_serialize (eid : List Char) (socket_fd : Int)
  | close (fd : Int)
  | hal_task_delay (ms : Nat)
  | htab_remove (key : List Char)
deriving DecidableEq, Repr

/-- What the world outside the task does during one pass of the loop. -/
structure LinkEvents where
  connect : Int
  send_errno : Int
  established : ud3tn_result
  in_contact : Bool
deriving DecidableEq, Repr

/-- One pass of the body of the `do ... while` loop of
`bibe_link_management_task`: the parameters afterwards, the effects, and whether
the body was left through `break`. -/
structure LinkPass where
  param : bibe_contact_parameters
  effects : List LinkEffect
  left_by_break : Bool
deriving DecidableEq, Repr

/-- The failed attempt of both retry paths: `++param->connect_attempt`, then
`break` after the last attempt, else `hal_task_delay` and `continue`. -/
def retry_or_give_up (CLA_TCP_MAX_RETRY_ATTEMPTS : Int) (CLA_TCP_RETRY_INTERVAL_MS : Nat)
    (param : bibe_contact_parameters) (effects : List LinkEffect) : LinkPass :=
  let attempt := to_int32 (param.connect_attempt + 1)
  if attempt > CLA_TCP_MAX_RETRY_ATTEMPTS then
    ⟨{ param with connect_attempt := attempt }, effects, true⟩
  else
    ⟨{ param with connect_attempt := attempt },
      effects ++ [LinkEffect.hal_task_delay CLA_TCP_RETRY_INTERVAL_MS], false⟩

/-- The body of the loop of `bibe_link_management_task`. -/
def bibe_link_management_body (CLA_TCP_MAX_RETRY_ATTEMPTS : Int)
    (CLA_TCP_RETRY_INTERVAL_MS : Nat) (ev : LinkEvents) (param : bibe_contact_parameters) :
    LinkPass :=
  if param.connected = true then
    ⟨{ param with connected := false, connect_attempt := 0, socket := -1 },
      [LinkEffect.ASSERT (decide (param.socket > 0)),
        LinkEffect.handle_established_connection param.socket ev.established], false⟩
  else if deref param.cla_sock_addr = NUL then ⟨param, [], true⟩
  else
    let param1 := { param with socket := ev.connect }
    let effects1 := [LinkEffect.ASSERT (decide (param.socket < 0)),
      LinkEffect.cla_tcp_connect_to_cla_addr param.cla_sock_addr]
    if param1.socket < 0 then
      retry_or_give_up CLA_TCP_MAX_RETRY_ATTEMPTS CLA_TCP_RETRY_INTERVAL_MS param1 effects1
    else
      let eid := if get_eid_scheme_ptr param1.partner_eid = EID_SCHEME_IPN
        then "2925".toList else "bibe".toList
      let effects2 := effects1 ++ [LinkEffect.aap_serialize eid param1.socket]
      if ev.send_errno ≠ 0 then
        retry_or_give_up CLA_TCP_MAX_RETRY_ATTEMPTS CLA_TCP_RETRY_INTERVAL_MS param1
          (effects2 ++ [LinkEffect.close param1.socket])
      else ⟨{ param1 with connected := true }, effects2, false⟩

/-- What the loop of `bibe_link_management_task` leaves: the parameters, the
effects, and the parameters at the start of each pass. -/
structure LinkLoop where
  param : bibe_contact_parameters
  effects : List LinkEffect
  starts : List bibe_contact_parameters
deriving DecidableEq, Repr

/-- The `do ... while (param->in_contact)` loop of `bibe_link_management_task`,
one record of events per pass; `none` when the records run out before the loop
is left. -/
def bibe_link_management_loop (CLA_TCP_MAX_RETRY_ATTEMPTS : Int)
    (CLA_TCP_RETRY_INTERVAL_MS : Nat) :
    List LinkEvents → bibe_contact_parameters → Option LinkLoop
  | [], _ => none
  | ev :: rest, param =>
    let pass := bibe_link_management_body CLA_TCP_MAX_RETRY_ATTEMPTS
      CLA_TCP_RETRY_INTERVAL_MS ev param
    if pass.left_by_break = true then some ⟨pass.param, pass.effects, [param]⟩
    else
      let param1 := { pass.param with in_contact := ev.in_contact }
      if param1.in_contact = true then
        (bibe_link_management_loop CLA_TCP_MAX_RETRY_ATTEMPTS CLA_TCP_RETRY_INTERVAL_MS
          rest param1).map
          (fun r => ⟨r.param, pass.effects ++ r.effects, param :: r.starts⟩)
      else some ⟨param1, pass.effects, [param]⟩

/-- What `bibe_link_management_task` leaves: the configuration with its table,
and the run of the loop. -/
structure LinkTask where
  config : bibe_config
  effects : List LinkEffect
  starts : List bibe_contact_parameters
deriving DecidableEq, Repr

/-- `bibe_link_management_task`: the loop, then the removal of the entry of
`param->cla_sock_addr` from the table. -/
def bibe_link_management_task (CLA_TCP_MAX_RETRY_ATTEMPTS : Int)
    (CLA_TCP_RETRY_INTERVAL_MS : Nat) (events : List LinkEvents) (config : bibe_config)
    (param : bibe_contact_parameters) : Option LinkTask :=
  (bibe_link_management_loop CLA_TCP_MAX_RETRY_ATTEMPTS CLA_TCP_RETRY_INTERVAL_MS
    events param).map
    (fun r =>
      ⟨{ config with param_htab := htab_remove config.param_htab r.param.cla_sock_addr },
        r.effects ++ [LinkEffect.htab_remove r.param.cla_sock_addr], r.starts⟩)

/-- The number of calls of `cla_tcp_connect_to_cla_addr` among the effects. -/
def connect_calls (effects : List LinkEffect) : Nat :=
  effects.countP (fun e =>
    match e with
    | LinkEffect.cla_tcp_connect_to_cla_addr _ => true
    | _ => false)

/-- The number of calls of `hal_task_delay` among the effects. -/
def delay_calls (effects : List LinkEffect) : Nat :=
  effects.countP (fun e =>
    match e with
    | LinkEffect.hal_task_delay _ => true
    | _ => false)

/-- `get_contact_parameters`: `cla_get_connect_addr` is the function of `cla.c`,
which is not among the sources, called with the name "bibe"; it returns a fresh
string or `NULL`.  The string is cut at its first '#' and looked up in the
table.  The result is `none` when `cla_get_connect_addr` returns `NULL`, which
the function passes to `strchr`. -/
def get_contact_parameters (cla_get_connect_addr : List Char → Option (List Char))
    (config : bibe_config) (cla_addr : List Char) : Option (Option bibe_contact_parameters) :=
  match cla_get_connect_addr cla_addr with
  | none => none
  | some cla_sock_addr =>
    some (htab_get config.param_htab (cla_sock_addr.takeWhile (fun c => decide (c ≠ '#'))))

/-- `bibe_get_tx_queue`; `none` as for `get_contact_parameters`. -/
def bibe_get_tx_queue (cla_get_connect_addr : List Char → Option (List Char))
    (config : bibe_config) (_eid : List Char) (cla_addr : List Char) : Option cla_tx_queue :=
  match get_contact_parameters cla_get_connect_addr config cla_addr with
  | none => none
  | some param =>
    let dest_eid_delimiter := strchr cla_addr '#'
    let dest_eid_is_valid : Bool :=
      match dest_eid_delimiter with
      | none => false
      | some d => decide (deref d ≠ NUL) && decide (validate_eid (d.drop 1) = UD3TN_OK)
    match param with
    | none => some ⟨none, none⟩
    | some p =>
      if p.connected = true ∧ dest_eid_is_valid = true then
        if p.link.tx_queue_handle = none then some ⟨none, none⟩
        else some ⟨p.link.tx_queue_handle, p.link.tx_queue_sem⟩
      else some ⟨none, none⟩

/-- Modelled from the spec: `cla_get_connect_addr` of `cla.c`, which is not among
the sources.  "CLA address syntax: `<cla-name>:<transport-addr>[#<lower-eid>]`":
the string after the first ':', `NULL` when there is no ':'. -/
def cla_get_connect_addr_spec (cla_addr : List Char) : Option (List Char) :=
  (strchr cla_addr ':').map (fun p => p.drop 1)

/-! ## Theorems: machine arithmetic -/

theorem u64_sub_of_le {a b : Nat} (hab : b ≤ a) (ha : a < 2 ^ 64) : u64_sub a b = a - b := by
  unfold u64_sub
  omega

theorem mul_mod_div_ne_of_overflow {d b : Nat} (hd : d ≠ 0) (h : 2 ^ 64 ≤ d * b) :
    (d * b) % 2 ^ 64 / d ≠ b := by
  intro heq
  have hlt : (d * b) % 2 ^ 64 < d * b := lt_of_lt_of_le (Nat.mod_lt _ (by norm_num)) h
  have hdpos : 0 < d := Nat.pos_of_ne_zero hd
  have : (d * b) % 2 ^ 64 / d < b := by
    rw [Nat.div_lt_iff_lt_mul hdpos]
    calc (d * b) % 2 ^ 64 < d * b := hlt
      _ = b * d := Nat.mul_comm d b
  omega

theorem to_int32_delta (p t r : Int) :
    to_int32 (r + to_int32 (to_uint64 (p - to_int32 t))) = to_int32 (r + (p - t)) := by
  unfold to_int32 to_uint64
  omega

theorem to_int32_booked (p t r : Int) :
    to_int32 (p - to_int32 (r + (p - t))) = to_int32 (t - r) := by
  unfold to_int32
  omega

theorem to_int32_of_range {x : Int} (h1 : -(2 : Int) ^ 31 ≤ x) (h2 : x < 2 ^ 31) :
    to_int32 x = x := by
  unfold to_int32
  omega

/-! ## Theorems: `recalculate_contact_capacity` -/

/-- The non-saturating branch of `recalculate_contact_capacity` in closed form. -/
theorem recalculate_small (c : Contact)
    (hcap : u64_sub c.to_ c.from_ * c.bitrate < 2 ^ 31 - 1) :
    recalculate_contact_capacity c =
      { c with
        total_capacity := u64_sub c.to_ c.from_ * c.bitrate
        remaining_capacity_p0 := to_int32 (c.remaining_capacity_p0 +
          (((u64_sub c.to_ c.from_ * c.bitrate : Nat) : Int) - (c.total_capacity : Int)))
        remaining_capacity_p1 := to_int32 (c.remaining_capacity_p1 +
          (((u64_sub c.to_ c.from_ * c.bitrate : Nat) : Int) - (c.total_capacity : Int)))
        remaining_capacity_p2 := to_int32 (c.remaining_capacity_p2 +
          (((u64_sub c.to_ c.from_ * c.bitrate : Nat) : Int) - (c.total_capacity : Int))) } := by
  generalize hP : u64_sub c.to_ c.from_ * c.bitrate = P at hcap ⊢
  have hmod : P % 2 ^ 64 = P := Nat.mod_eq_of_lt (by omega)
  have hmod32 : P % 2 ^ 32 = P := Nat.mod_eq_of_lt (by omega)
  have hcond : ¬ ((u64_sub c.to_ c.from_ ≠ 0 ∧ P / u64_sub c.to_ c.from_ ≠ c.bitrate) ∨
      P ≥ 2147483647) := by
    rintro (⟨hne, hdiv⟩ | hge)
    · apply hdiv
      rw [← hP]
      exact Nat.mul_div_cancel_left _ (Nat.pos_of_ne_zero hne)
    · omega
  unfold recalculate_contact_capacity
  simp only [hP, hmod, hmod32, INT32_MAX, if_neg hcond, to_int32_delta]

/-- The saturating branch of `recalculate_contact_capacity` in closed form. -/
theorem recalculate_saturated (c : Contact) (hle : c.from_ ≤ c.to_) (hto : c.to_ < 2 ^ 64)
    (hcap : 2 ^ 31 - 1 ≤ (c.to_ - c.from_) * c.bitrate) :
    recalculate_contact_capacity c =
      { c with
        total_capacity := 2 ^ 31 - 1
        remaining_capacity_p0 := 2 ^ 31 - 1
        remaining_capacity_p1 := 2 ^ 31 - 1
        remaining_capacity_p2 := 2 ^ 31 - 1 } := by
  have hd : u64_sub c.to_ c.from_ = c.to_ - c.from_ := u64_sub_of_le hle hto
  have hcond : ((c.to_ - c.from_ ≠ 0 ∧
        (c.to_ - c.from_) * c.bitrate % 2 ^ 64 / (c.to_ - c.from_) ≠ c.bitrate) ∨
      (c.to_ - c.from_) * c.bitrate % 2 ^ 64 ≥ 2147483647) := by
    by_cases hov : 2 ^ 64 ≤ (c.to_ - c.from_) * c.bitrate
    · left
      have hne : c.to_ - c.from_ ≠ 0 := by
        intro h0; rw [h0] at hov; simp at hov
      exact ⟨hne, mul_mod_div_ne_of_overflow hne hov⟩
    · right
      rw [Nat.mod_eq_of_lt (Nat.lt_of_not_le hov)]
      omega
  unfold recalculate_contact_capacity
  simp only [hd, INT32_MAX, if_pos hcond]
  rfl

/-- C9: for a contact with `from <= to`, `recalculate_contact_capacity` sets
`total_capacity` to `min((to - from) * bitrate, 2^31 - 1)`, the product taken
over the unbounded naturals, and when that product is at least `2^31 - 1` the
three residual counters are set to `2^31 - 1` as well. -/
theorem recalculate_contact_capacity_total (c : Contact)
    (hle : c.from_ ≤ c.to_) (hto : c.to_ < 2 ^ 64) :
    (recalculate_contact_capacity c).total_capacity
        = min ((c.to_ - c.from_) * c.bitrate) (2 ^ 31 - 1) ∧
    (2 ^ 31 - 1 ≤ (c.to_ - c.from_) * c.bitrate →
      (recalculate_contact_capacity c).remaining_capacity_p0 = 2 ^ 31 - 1 ∧
      (recalculate_contact_capacity c).remaining_capacity_p1 = 2 ^ 31 - 1 ∧
      (recalculate_contact_capacity c).remaining_capacity_p2 = 2 ^ 31 - 1) := by
  by_cases hbig : 2 ^ 31 - 1 ≤ (c.to_ - c.from_) * c.bitrate
  · rw [recalculate_saturated c hle hto hbig]
    exact ⟨(Nat.min_eq_right hbig).symm, fun _ => ⟨rfl, rfl, rfl⟩⟩
  · have hd : u64_sub c.to_ c.from_ = c.to_ - c.from_ := u64_sub_of_le hle hto
    rw [recalculate_small c (by rw [hd]; exact Nat.lt_of_not_le hbig), hd]
    exact ⟨(Nat.min_eq_left (Nat.le_of_lt (Nat.lt_of_not_le hbig))).symm,
      fun h => absurd h hbig⟩

/-- C10: when `(to - from) * bitrate < 2^31 - 1` (`to - from` being the
`uint64_t` duration the function computes, which is the plain difference when
`from <= to`), `recalculate_contact_capacity` stores that product as the new
total and adds `new_total - old_total` to each of the three residual counters in
`int32_t` arithmetic; the booked amount `total_capacity - remaining_capacity_pX`,
taken in `int32_t` arithmetic, is the same before and after, and it is the same
as an integer whenever the new residual counter did not wrap. -/
theorem recalculate_contact_capacity_delta (c : Contact)
    (hcap : u64_sub c.to_ c.from_ * c.bitrate < 2 ^ 31 - 1) :
    (recalculate_contact_capacity c).total_capacity = u64_sub c.to_ c.from_ * c.bitrate ∧
    ((recalculate_contact_capacity c).remaining_capacity_p0 =
        to_int32 (c.remaining_capacity_p0 +
          (((recalculate_contact_capacity c).total_capacity : Int) - c.total_capacity)) ∧
      (recalculate_contact_capacity c).remaining_capacity_p1 =
        to_int32 (c.remaining_capacity_p1 +
          (((recalculate_contact_capacity c).total_capacity : Int) - c.total_capacity)) ∧
      (recalculate_contact_capacity c).remaining_capacity_p2 =
        to_int32 (c.remaining_capacity_p2 +
          (((recalculate_contact_capacity c).total_capacity : Int) - c.total_capacity))) ∧
    (to_int32 ((recalculate_contact_capacity c).total_capacity -
          (recalculate_contact_capacity c).remaining_capacity_p0) =
        to_int32 (c.total_capacity - c.remaining_capacity_p0) ∧
      to_int32 ((recalculate_contact_capacity c).total_capacity -
          (recalculate_contact_capacity c).remaining_capacity_p1) =
        to_int32 (c.total_capacity - c.remaining_capacity_p1) ∧
      to_int32 ((recalculate_contact_capacity c).total_capacity -
          (recalculate_contact_capacity c).remaining_capacity_p2) =
        to_int32 (c.total_capacity - c.remaining_capacity_p2)) ∧
    ((-(2 : Int) ^ 31 ≤ c.remaining_capacity_p0 +
          (((recalculate_contact_capacity c).total_capacity : Int) - c.total_capacity) ∧
        c.remaining_capacity_p0 +
          (((recalculate_contact_capacity c).total_capacity : Int) - c.total_capacity) < 2 ^ 31 →
        ((recalculate_contact_capacity c).total_capacity : Int) -
            (recalculate_contact_capacity c).remaining_capacity_p0 =
          c.total_capacity - c.remaining_capacity_p0) ∧
      (-(2 : Int) ^ 31 ≤ c.remaining_capacity_p1 +
          (((recalculate_contact_capacity c).total_capacity : Int) - c.total_capacity) ∧
        c.remaining_capacity_p1 +
          (((recalculate_contact_capacity c).total_capacity : Int) - c.total_capacity) < 2 ^ 31 →
        ((recalculate_contact_capacity c).total_capacity : Int) -
            (recalculate_contact_capacity c).remaining_capacity_p1 =
          c.total_capacity - c.remaining_capacity_p1) ∧
      (-(2 : Int) ^ 31 ≤ c.remaining_capacity_p2 +
          (((recalculate_contact_capacity c).total_capacity : Int) - c.total_capacity) ∧
        c.remaining_capacity_p2 +
          (((recalculate_contact_capacity c).total_capacity : Int) - c.total_capacity) < 2 ^ 31 →
        ((recalculate_contact_capacity c).total_capacity : Int) -
            (recalculate_contact_capacity c).remaining_capacity_p2 =
          c.total_capacity - c.remaining_capacity_p2)) := by
  rw [recalculate_small c hcap]
  refine ⟨rfl, ⟨rfl, rfl, rfl⟩,
    ⟨to_int32_booked _ _ _, to_int32_booked _ _ _, to_int32_booked _ _ _⟩, ?_, ?_, ?_⟩
  · rintro ⟨h1, h2⟩
    show _ - to_int32 _ = _
    rw [to_int32_of_range h1 h2]; ring
  · rintro ⟨h1, h2⟩
    show _ - to_int32 _ = _
    rw [to_int32_of_range h1 h2]; ring
  · rintro ⟨h1, h2⟩
    show _ - to_int32 _ = _
    rw [to_int32_of_range h1 h2]; ring

/-! ## Theorems: allocation -/

theorem malloc_nil : malloc [] = (true, []) := rfl

theorem all_succeed_nil : all_succeed [] := by simp [all_succeed]

theorem malloc_all_succeed {heap : List Bool} (h : all_succeed heap) :
    (malloc heap).1 = true ∧ all_succeed (malloc heap).2 := by
  cases heap with
  | nil => exact ⟨rfl, h⟩
  | cons ok rest =>
    exact ⟨h ok (List.mem_cons_self _ _), fun x hx => h x (List.mem_cons_of_mem _ hx)⟩

theorem malloc_snd (heap : List Bool) : (malloc heap).2 = heap.drop 1 := by
  cases heap <;> rfl

/-! ## Theorems: `contact_list_union` -/

theorem endpoint_list_add_loop_present (eid : Eid) (l : List Eid)
    (h : ∃ x ∈ l, x.str = eid.str) (found : Bool) :
    endpoint_list_add_loop eid l found = none := by
  induction l generalizing found with
  | nil => simp at h
  | cons x rest ih =>
    unfold endpoint_list_add_loop
    by_cases hp : x.ptr = eid.ptr
    · simp [hp]
    · by_cases hs : x.str = eid.str
      · simp [hp, hs]
      · have hrest : ∃ y ∈ rest, y.str = eid.str := by
          obtain ⟨y, hy, hys⟩ := h
          rcases List.mem_cons.mp hy with rfl | hy'
          · exact absurd hys hs
          · exact ⟨y, hy', hys⟩
        simp only [if_neg hp, if_neg hs]
        split
        · rw [ih hrest]; rfl
        · rw [ih hrest]; rfl

theorem endpoint_list_add_present (l : List Eid) (eid : Eid) (heap : List Bool)
    (h : ∃ x ∈ l, x.str = eid.str) : endpoint_list_add l eid heap = (l, false, heap) := by
  unfold endpoint_list_add
  rw [endpoint_list_add_loop_present eid l h]

theorem endpoint_list_union_present (a b : List Eid) (heap : List Bool)
    (h : ∀ e ∈ b, ∃ x ∈ a, x.str = e.str) : endpoint_list_union a b heap = (a, heap) := by
  induction b with
  | nil => rfl
  | cons e rest ih =>
    unfold endpoint_list_union
    dsimp only
    rw [endpoint_list_add_present a e heap (h e (List.mem_cons_self _ _))]
    exact ih (fun e' he' => h e' (List.mem_cons_of_mem _ he'))

theorem endpoint_list_union_of_map_str_eq (a b : List Eid) (heap : List Bool)
    (h : b.map Eid.str = a.map Eid.str) : endpoint_list_union a b heap = (a, heap) := by
  apply endpoint_list_union_present
  intro e he
  have : e.str ∈ a.map Eid.str := by
    rw [← h]; exact List.mem_map_of_mem _ he
  obtain ⟨x, hx, hxs⟩ := List.mem_map.mp this
  exact ⟨x, hx, hxs⟩

/-- When the allocations succeed `endpoint_list_add` does what it does on
a heap that never fails. -/
theorem endpoint_list_add_all_succeed (l : List Eid) (eid : Eid) {heap : List Bool}
    (h : all_succeed heap) :
    (endpoint_list_add l eid heap).1 = (endpoint_list_add l eid []).1 ∧
    (endpoint_list_add l eid heap).2.1 = (endpoint_list_add l eid []).2.1 ∧
    all_succeed (endpoint_list_add l eid heap).2.2 := by
  unfold endpoint_list_add
  cases endpoint_list_add_loop eid l false with
  | none => exact ⟨rfl, rfl, h⟩
  | some r =>
    simp only [(malloc_all_succeed h).1, malloc_nil, if_true]
    exact ⟨trivial, trivial, (malloc_all_succeed h).2⟩

theorem endpoint_list_union_all_succeed (a b : List Eid) {heap : List Bool}
    (h : all_succeed heap) :
    (endpoint_list_union a b heap).1 = (endpoint_list_union a b []).1 ∧
    all_succeed (endpoint_list_union a b heap).2 := by
  induction b generalizing a heap with
  | nil => exact ⟨rfl, h⟩
  | cons e rest ih =>
    unfold endpoint_list_union
    dsimp only
    obtain ⟨h1, _, h3⟩ := endpoint_list_add_all_succeed a e h
    obtain ⟨_, _, g3⟩ := endpoint_list_add_all_succeed a e all_succeed_nil
    rw [h1, (ih _ h3).1, (ih _ g3).1]
    exact ⟨rfl, (ih _ h3).2⟩

theorem MIN_self (a : Nat) : MIN a a = a := by simp [MIN]
theorem MAX_self (a : Nat) : MAX a a = a := by simp [MAX]

theorem merge_contacts_copy (c c' : Contact) (heap : List Bool) (h : c'.copy_of c) :
    merge_contacts c c' heap = (c, false, heap) := by
  obtain ⟨_, hf, ht, hb, _, _, _, _, _, he⟩ := h
  unfold merge_contacts
  simp only [hf, ht, hb, MIN_self, MAX_self, endpoint_list_union_of_map_str_eq _ _ heap he]
  simp

theorem merge_into_slot_copy (c c' : Contact) (h : c'.copy_of c)
    (m : Option (List ContactPtr)) (heap : List Bool) :
    merge_into_slot c c' m heap = (c, m, heap) := by
  unfold merge_into_slot
  rw [merge_contacts_copy c c' heap h]
  rfl

/-- `contact_list_sorted_from last cl` says that `cl` ascends by `from` and
starts at or after `last`. -/
theorem contact_list_sorted_from_iff (last : Nat) (cl : List Contact) :
    contact_list_sorted_from last cl = true ↔
      (∀ c ∈ cl, last ≤ c.from_) ∧ cl.Pairwise (fun x y => x.from_ ≤ y.from_) := by
  induction cl generalizing last with
  | nil => simp [contact_list_sorted_from]
  | cons c rest ih =>
    unfold contact_list_sorted_from
    by_cases h : c.from_ < last
    · simp only [if_pos h, Bool.false_eq_true, false_iff]
      rintro ⟨hall, _⟩
      have := hall c (List.mem_cons_self _ _)
      omega
    · simp only [if_neg h, ih, List.pairwise_cons, List.mem_cons, forall_eq_or_imp]
      constructor
      · rintro ⟨h1, h2⟩
        exact ⟨⟨by omega, fun x hx => le_trans (by omega) (h1 x hx)⟩, h1, h2⟩
      · rintro ⟨⟨_, _⟩, h3, h4⟩
        exact ⟨h3, h4⟩

theorem contact_list_sorted_iff (cl : List Contact) :
    contact_list_sorted cl 1 = true ↔ cl.Pairwise (fun x y => x.from_ ≤ y.from_) := by
  unfold contact_list_sorted
  simp [contact_list_sorted_from_iff]

theorem union_first_loop_stop (cur_from : Nat) (slot : Contact) (cans : List Contact)
    (modf : Option (List ContactPtr)) (heap : List Bool) (h : ∀ c ∈ cans, cur_from < c.from_) :
    union_first_loop cur_from slot cans modf heap = ⟨[], slot, cans, modf, [], heap⟩ := by
  cases cans with
  | nil => rfl
  | cons can rest =>
    have := h can (List.mem_cons_self _ _)
    unfold union_first_loop
    rw [if_neg (by omega)]

theorem union_second_loop_keep (cur_to : Nat) (slot : Contact) (cans : List Contact)
    (modf : Option (List ContactPtr)) (heap : List Bool) (h : ∀ c ∈ cans, cur_to ≤ c.from_) :
    union_second_loop cur_to slot cans modf heap = ⟨slot, cans, modf, [], heap⟩ := by
  induction cans with
  | nil => rfl
  | cons can rest ih =>
    have h1 := h can (List.mem_cons_self _ _)
    unfold union_second_loop
    rw [if_neg (by intro hc; omega), ih (fun c hc => h c (List.mem_cons_of_mem _ hc))]

theorem same_node_of_eq {x y : Contact} {n : String} (hx : x.node = some n)
    (hy : y.node = some n) : same_node x y = true := by
  simp [same_node, hx, hy]

theorem forall₂_exists_of_mem {α β : Type} {R : α → β → Prop} {l1 : List α} {l2 : List β}
    (h : List.Forall₂ R l1 l2) : ∀ x ∈ l1, ∃ y ∈ l2, R x y := by
  induction h with
  | nil => intro x hx; simp at hx
  | cons hab _ ih =>
    intro x hx
    rcases List.mem_cons.mp hx with rfl | hx'
    · exact ⟨_, List.mem_cons_self _ _, hab⟩
    · obtain ⟨y, hy, hxy⟩ := ih x hx'
      exact ⟨y, List.mem_cons_of_mem _ hy, hxy⟩

/-- Reading the entries of a list that leads to other contacts only gives the
list back. -/
theorem contact_of_other (slot : Contact) (modf : Option (List Contact)) :
    (modf.map (List.map ContactPtr.other)).map (List.map (ContactPtr.contact slot)) = modf := by
  cases modf with
  | none => rfl
  | some l =>
    simp only [Option.map_some', List.map_map, Option.some.injEq]
    exact List.map_id _

theorem union_outer_loop_copy (n : String) (a a' : List Contact) (m : Option (List Contact))
    (heap : List Bool)
    (hnode : ∀ c ∈ a, c.node = some n)
    (hsorted : a.Pairwise (fun x y => x.from_ ≤ y.from_))
    (hlt : ∀ c ∈ a, c.from_ < c.to_)
    (hno : a.Pairwise (fun x y => contacts_overlap x y = false))
    (hcopy : List.Forall₂ Contact.copy_of a' a) :
    (union_outer_loop a a' m heap).list = a ∧ (union_outer_loop a a' m heap).modf = m ∧
    (union_outer_loop a a' m heap).heap = heap := by
  induction hcopy with
  | nil => exact ⟨rfl, rfl, rfl⟩
  | @cons s' s rest' rest hs hrest ih =>
    have hsn := hnode s (List.mem_cons_self _ _)
    have hslt := hlt s (List.mem_cons_self _ _)
    rw [List.pairwise_cons] at hsorted hno
    -- every later contact starts at or after the end of `s`
    have hafter : ∀ c ∈ rest, s.to_ ≤ c.from_ := by
      intro c hc
      have h1 := hsorted.1 c hc
      have h2 := hno.1 c hc
      have h3 := hlt c (List.mem_cons_of_mem _ hc)
      simp only [contacts_overlap, Bool.and_eq_false_imp, decide_eq_true_eq,
        decide_eq_false_iff_not] at h2
      have := h2 (by omega)
      omega
    have hafter' : ∀ c ∈ rest', s.to_ ≤ c.from_ := by
      intro c hc
      obtain ⟨d, hd, hcd⟩ := forall₂_exists_of_mem hrest c hc
      rw [hcd.2.1]
      exact hafter d hd
    obtain ⟨hn', hf', ht', _⟩ := hs
    have hov : contacts_overlap s' s = true := by
      simp only [contacts_overlap, hf', ht', Bool.and_eq_true, decide_eq_true_eq]
      omega
    have hsame : same_node s' s = true := same_node_of_eq (hn'.trans hsn) hsn
    have hfirst : ∀ mp : Option (List ContactPtr), union_first_loop s.from_ s (s' :: rest') mp heap
        = ⟨[], s, rest', mp, [s'], heap⟩ := by
      intro mp
      rw [union_first_loop]
      rw [if_pos (by omega), if_pos hsame, if_neg (by simp [hov])]
      simp only [merge_into_slot_copy s s' ⟨hn', hf', ht', ‹_›⟩]
      rw [union_first_loop_stop _ _ _ _ _ (fun c hc => by have := hafter' c hc; omega)]
    have ih' := ih (fun c hc => hnode c (List.mem_cons_of_mem _ hc)) hsorted.2
      (fun c hc => hlt c (List.mem_cons_of_mem _ hc)) hno.2
    rw [union_outer_loop]
    simp only [hfirst, union_second_loop_keep _ _ _ _ _ hafter', List.nil_append,
      contact_of_other, ih'.1, ih'.2.1, ih'.2.2, and_self]

/-- C4: `contact_list_union(x, NULL, m)` is `x` and `contact_list_union(NULL, x, m)`
is `x`, with `m` untouched; and for a list `a` of one node that is sorted by
`from`, has `from < to` everywhere and no two overlapping contacts, the union
of `a` with a field-for-field copy `a'` returns exactly the contacts of `a`
(all fields, endpoint lists included) and leaves `m` untouched.  None of the
three calls allocates, so this holds whatever `malloc` would return. -/
theorem contact_list_union_identity_idempotent (x : List Contact) (n : String)
    (a a' : List Contact) (m : Option (List Contact)) (heap : List Bool)
    (hnode : ∀ c ∈ a, c.node = some n)
    (hsorted : contact_list_sorted a 1 = true)
    (hlt : ∀ c ∈ a, c.from_ < c.to_)
    (hno : a.Pairwise (fun c d => contacts_overlap c d = false))
    (hcopy : List.Forall₂ Contact.copy_of a' a) :
    contact_list_union x [] m heap = (x, m, heap) ∧
    contact_list_union [] x m heap = (x, m, heap) ∧
    contact_list_union a a' m heap = (a, m, heap) := by
  refine ⟨?_, ?_, ?_⟩
  · unfold contact_list_union contact_list_union_run
    by_cases hx : x = []
    · simp [hx]
    · simp [hx]
  · unfold contact_list_union contact_list_union_run
    simp
  · have h := union_outer_loop_copy n a a' m heap hnode
      ((contact_list_sorted_iff a).mp hsorted) hlt hno hcopy
    unfold contact_list_union contact_list_union_run
    cases hcopy with
    | nil => simp
    | cons h1 h2 =>
      simp only [List.cons_ne_nil, if_false, reduceCtorEq]
      rw [h.1, h.2.1, h.2.2]

theorem recalculate_from (c : Contact) : (recalculate_contact_capacity c).from_ = c.from_ := by
  unfold recalculate_contact_capacity
  dsimp only
  split <;> rfl

theorem recalculate_to (c : Contact) : (recalculate_contact_capacity c).to_ = c.to_ := by
  unfold recalculate_contact_capacity
  dsimp only
  split <;> rfl

theorem recalculate_bitrate (c : Contact) :
    (recalculate_contact_capacity c).bitrate = c.bitrate := by
  unfold recalculate_contact_capacity
  dsimp only
  split <;> rfl

theorem recalculate_node (c : Contact) : (recalculate_contact_capacity c).node = c.node := by
  unfold recalculate_contact_capacity
  dsimp only
  split <;> rfl

theorem recalculate_endpoints (c : Contact) :
    (recalculate_contact_capacity c).contact_endpoints = c.contact_endpoints := by
  unfold recalculate_contact_capacity
  dsimp only
  split <;> rfl

theorem merge_contacts_from (old new : Contact) (heap : List Bool) :
    (merge_contacts old new heap).1.from_ = MIN old.from_ new.from_ := by
  unfold merge_contacts
  simp only []
  split
  · rw [recalculate_from]
  · rfl

theorem merge_contacts_to (old new : Contact) (heap : List Bool) :
    (merge_contacts old new heap).1.to_ = MAX old.to_ new.to_ := by
  unfold merge_contacts
  simp only []
  split
  · rw [recalculate_to]
  · rfl

theorem merge_contacts_node (old new : Contact) (heap : List Bool) :
    (merge_contacts old new heap).1.node = old.node := by
  unfold merge_contacts
  simp only []
  split
  · rw [recalculate_node]
  · rfl

theorem merge_contacts_flag (old new : Contact) (heap : List Bool) :
    (merge_contacts old new heap).2.1 = true ↔
      (old.bitrate ≠ new.bitrate ∨
        u64_sub (MAX old.to_ new.to_) (MIN old.from_ new.from_) ≠ u64_sub old.to_ old.from_) := by
  unfold merge_contacts
  dsimp only
  split
  · rename_i h
    simpa using h
  · rename_i h
    simp only [Bool.false_eq_true, false_iff]
    exact h

theorem merge_contacts_bitrate (old new : Contact) (heap : List Bool) :
    (merge_contacts old new heap).1.bitrate =
      if (merge_contacts old new heap).2.1 = true then new.bitrate else old.bitrate := by
  unfold merge_contacts
  dsimp only
  split
  · simp [recalculate_bitrate]
  · simp

/-- The flag `merge_contacts` returns says whether the bitrate or the duration
changed, whatever the allocations do. -/
theorem merge_contacts_flag_eq_changed (old new : Contact) (heap : List Bool) :
    (merge_contacts old new heap).2.1 = merge_changed_duration (old, new) := by
  rw [Bool.eq_iff_iff]
  unfold merge_changed_duration merged
  simp only [merge_contacts_from, merge_contacts_to, merge_contacts_bitrate, Bool.or_eq_true,
    decide_eq_true_eq]
  have hiff : (merge_contacts old new heap).2.1 = true ↔ (merge_contacts old new []).2.1 = true :=
    (merge_contacts_flag old new heap).trans (merge_contacts_flag old new []).symm
  by_cases hflag : (merge_contacts old new heap).2.1 = true
  · simp only [hflag, hiff.mp hflag, if_true, true_iff]
    rcases (merge_contacts_flag old new heap).mp hflag with h | h
    · exact Or.inl (fun h' => h h'.symm)
    · exact Or.inr h
  · simp only [hflag, mt hiff.mpr hflag, if_false, false_iff, Bool.false_eq_true]
    have h := mt (merge_contacts_flag old new heap).mpr hflag
    rw [not_or] at h
    rintro (h' | h')
    · exact h' rfl
    · exact h.2 h'

/-- When the allocations succeed `merge_contacts` leaves the contact `merged`
stands for. -/
theorem merge_contacts_all_succeed (old new : Contact) {heap : List Bool}
    (h : all_succeed heap) :
    (merge_contacts old new heap).1 = merged (old, new) ∧
    all_succeed (merge_contacts old new heap).2.2 := by
  obtain ⟨h1, h2⟩ := endpoint_list_union_all_succeed old.contact_endpoints
    new.contact_endpoints h
  unfold merged merge_contacts
  dsimp only
  rw [h1]
  split
  · exact ⟨rfl, h2⟩
  · exact ⟨rfl, h2⟩

theorem merge_into_slot_fst (slot can : Contact) (modf : Option (List ContactPtr))
    (heap : List Bool) :
    (merge_into_slot slot can modf heap).1 = (merge_contacts slot can heap).1 := by
  unfold merge_into_slot
  dsimp only
  split <;> rfl

theorem merge_into_slot_all_succeed (slot can : Contact) (modf : Option (List ContactPtr))
    {heap : List Bool} (h : all_succeed heap) :
    (merge_into_slot slot can modf heap).1 = merged (slot, can) ∧
    (merge_into_slot slot can modf heap).2.1 = modf.map (fun l =>
      List.replicate (if merge_changed_duration (slot, can) = true then 1 else 0)
        ContactPtr.cur_slot ++ l) ∧
    all_succeed (merge_into_slot slot can modf heap).2.2 := by
  obtain ⟨h1, h2⟩ := merge_contacts_all_succeed slot can h
  unfold merge_into_slot
  dsimp only
  rw [merge_contacts_flag_eq_changed]
  cases hch : merge_changed_duration (slot, can)
  · simp only [Bool.false_eq_true, if_false, List.replicate_zero, List.nil_append]
    refine ⟨h1, ?_, h2⟩
    cases modf <;> simp
  · simp only [if_true]
    unfold add_to_modified_list
    cases modf with
    | none => exact ⟨h1, rfl, h2⟩
    | some l =>
      simp only [(malloc_all_succeed h2).1, if_true, Option.map_some']
      exact ⟨h1, rfl, (malloc_all_succeed h2).2⟩

theorem merge_all_append (slot : Contact) (l1 l2 : List Contact) :
    merge_all slot (l1 ++ l2) = merge_all (merge_all slot l1) l2 := by
  unfold merge_all
  rw [List.foldl_append]

theorem changing_merges_append (ch : Contact × Contact → Bool) (slot : Contact)
    (l1 l2 : List Contact) :
    changing_merges ch slot (l1 ++ l2) =
      changing_merges ch slot l1 + changing_merges ch (merge_all slot l1) l2 := by
  induction l1 generalizing slot with
  | nil => simp [changing_merges, merge_all]
  | cons c rest ih =>
    show (if ch (slot, c) = true then 1 else 0) +
        changing_merges ch (merged (slot, c)) (rest ++ l2) =
      ((if ch (slot, c) = true then 1 else 0) + changing_merges ch (merged (slot, c)) rest) +
        changing_merges ch (merge_all (merged (slot, c)) rest) l2
    rw [ih]
    omega

/-- The first inner loop takes every candidate it passes either into the list
before the slot or into the slot. -/
theorem union_first_loop_perm (cur_from : Nat) (slot : Contact) (cans : List Contact)
    (modf : Option (List ContactPtr)) (heap : List Bool) :
    List.Perm cans ((union_first_loop cur_from slot cans modf heap).inserted ++
      ((union_first_loop cur_from slot cans modf heap).merged ++
        (union_first_loop cur_from slot cans modf heap).cur_can)) := by
  induction cans generalizing slot modf heap with
  | nil => simp [union_first_loop]
  | cons can rest ih =>
    rw [union_first_loop]
    split
    · split
      · split
        · exact (ih slot modf heap).cons can
        · exact ((ih _ _ _).cons can).trans List.perm_middle.symm
      · exact (ih slot modf heap).cons can
    · simp

theorem union_second_loop_perm (cur_to : Nat) (slot : Contact) (cans : List Contact)
    (modf : Option (List ContactPtr)) (heap : List Bool) :
    List.Perm cans ((union_second_loop cur_to slot cans modf heap).merged ++
      (union_second_loop cur_to slot cans modf heap).cur_can) := by
  induction cans generalizing slot modf heap with
  | nil => simp [union_second_loop]
  | cons can rest ih =>
    rw [union_second_loop]
    split
    · exact (ih _ _ _).cons can
    · exact ((ih _ _ _).cons can).trans List.perm_middle.symm

/-- The first inner loop when the allocations succeed: the slot contact is the
old one with the recorded candidates merged into it, and the modified list has
one more entry for every merge that returned `true`. -/
theorem union_first_loop_all_succeed (cur_from : Nat) (slot : Contact) (cans : List Contact)
    (modf : Option (List ContactPtr)) {heap : List Bool} (h : all_succeed heap) :
    (union_first_loop cur_from slot cans modf heap).slot =
      merge_all slot (union_first_loop cur_from slot cans modf heap).merged ∧
    (union_first_loop cur_from slot cans modf heap).modf = modf.map (fun l =>
      List.replicate (changing_merges merge_changed_duration slot
        (union_first_loop cur_from slot cans modf heap).merged) ContactPtr.cur_slot ++ l) ∧
    all_succeed (union_first_loop cur_from slot cans modf heap).heap := by
  induction cans generalizing slot modf heap with
  | nil => cases modf <;> simp [union_first_loop, merge_all, changing_merges, h]
  | cons can rest ih =>
    rw [union_first_loop]
    split
    · split
      · split
        · exact ih slot modf h
        · obtain ⟨m1, m2, m3⟩ := merge_into_slot_all_succeed slot can modf h
          obtain ⟨i1, i2, i3⟩ := ih (merge_into_slot slot can modf heap).1
            (merge_into_slot slot can modf heap).2.1 m3
          dsimp only
          refine ⟨?_, ?_, i3⟩
          · rw [i1, m1]; rfl
          · rw [i2, m2, m1]
            cases modf with
            | none => rfl
            | some l =>
              simp only [Option.map_some', Option.some.injEq, changing_merges]
              rw [← List.append_assoc, ← List.replicate_add, Nat.add_comm]
      · exact ih slot modf h
    · cases modf <;> simp [merge_all, changing_merges, h]

theorem union_second_loop_all_succeed (cur_to : Nat) (slot : Contact) (cans : List Contact)
    (modf : Option (List ContactPtr)) {heap : List Bool} (h : all_succeed heap) :
    (union_second_loop cur_to slot cans modf heap).slot =
      merge_all slot (union_second_loop cur_to slot cans modf heap).merged ∧
    (union_second_loop cur_to slot cans modf heap).modf = modf.map (fun l =>
      List.replicate (changing_merges merge_changed_duration slot
        (union_second_loop cur_to slot cans modf heap).merged) ContactPtr.cur_slot ++ l) ∧
    all_succeed (union_second_loop cur_to slot cans modf heap).heap := by
  induction cans generalizing slot modf heap with
  | nil => cases modf <;> simp [union_second_loop, merge_all, changing_merges, h]
  | cons can rest ih =>
    rw [union_second_loop]
    split
    · obtain ⟨m1, m2, m3⟩ := merge_into_slot_all_succeed slot can modf h
      obtain ⟨i1, i2, i3⟩ := ih (merge_into_slot slot can modf heap).1
        (merge_into_slot slot can modf heap).2.1 m3
      dsimp only
      refine ⟨?_, ?_, i3⟩
      · rw [i1, m1]; rfl
      · rw [i2, m2, m1]
        cases modf with
        | none => rfl
        | some l =>
          simp only [Option.map_some', Option.some.injEq, changing_merges]
          rw [← List.append_assoc, ← List.replicate_add, Nat.add_comm]
    · exact ih slot modf h

theorem union_taken_cons (e : UnionSlot) (slots : List UnionSlot) :
    union_taken (e :: slots) = (e.inserted ++ e.merged) ++ union_taken slots := by
  simp [union_taken]

theorem union_list_cons (e : UnionSlot) (slots : List UnionSlot) (cur_can : List Contact) :
    union_list (e :: slots) cur_can =
      e.inserted ++ merge_all e.old e.merged :: union_list slots cur_can := by
  simp [union_list]

theorem modified_entries_cons (ch : Contact × Contact → Bool) (e : UnionSlot)
    (slots : List UnionSlot) :
    modified_entries ch (e :: slots) = modified_entries ch slots ++
      List.replicate (changing_merges ch e.old e.merged) (merge_all e.old e.merged) := by
  simp [modified_entries]

/-- The record of the passes: the slots are the contacts of `a`, in order, and
every candidate is spliced in, merged, or left over, once. -/
theorem union_outer_loop_slots (a cans : List Contact) (modf : Option (List Contact))
    (heap : List Bool) :
    (union_outer_loop a cans modf heap).slots.map UnionSlot.old = a ∧
    List.Perm cans (union_taken (union_outer_loop a cans modf heap).slots ++
      (union_outer_loop a cans modf heap).cur_can) := by
  induction a generalizing cans modf heap with
  | nil => simp [union_outer_loop, union_taken]
  | cons slot rest ih =>
    rw [union_outer_loop]
    dsimp only
    have f := union_first_loop_perm slot.from_ slot cans
      (modf.map (List.map ContactPtr.other)) heap
    generalize union_first_loop slot.from_ slot cans
      (modf.map (List.map ContactPtr.other)) heap = r1 at f ⊢
    have s := union_second_loop_perm slot.to_ r1.slot r1.cur_can r1.modf r1.heap
    generalize union_second_loop slot.to_ r1.slot r1.cur_can r1.modf r1.heap = r2 at s ⊢
    have o := ih r2.cur_can (r2.modf.map (List.map (ContactPtr.contact r2.slot))) r2.heap
    generalize union_outer_loop rest r2.cur_can
      (r2.modf.map (List.map (ContactPtr.contact r2.slot))) r2.heap = r at o ⊢
    refine ⟨by rw [List.map_cons, o.1], ?_⟩
    rw [union_taken_cons]
    dsimp only
    have h1 := f.trans ((((s.trans (o.2.append_left _)).append_left _)).append_left _)
    simpa only [List.append_assoc] using h1

/-- The outer loop when the allocations succeed: the returned list and the
modified list in terms of the record of the passes. -/
theorem union_outer_loop_all_succeed (a cans : List Contact) (modf : Option (List Contact))
    {heap : List Bool} (h : all_succeed heap) :
    (union_outer_loop a cans modf heap).list =
      union_list (union_outer_loop a cans modf heap).slots
        (union_outer_loop a cans modf heap).cur_can ∧
    (union_outer_loop a cans modf heap).modf = modf.map (fun l =>
      modified_entries merge_changed_duration (union_outer_loop a cans modf heap).slots ++ l) ∧
    all_succeed (union_outer_loop a cans modf heap).heap := by
  induction a generalizing cans modf heap with
  | nil => cases modf <;> simp [union_outer_loop, union_list, modified_entries, h]
  | cons slot rest ih =>
    rw [union_outer_loop]
    dsimp only
    have f := union_first_loop_all_succeed slot.from_ slot cans
      (modf.map (List.map ContactPtr.other)) h
    generalize union_first_loop slot.from_ slot cans
      (modf.map (List.map ContactPtr.other)) heap = r1 at f ⊢
    obtain ⟨f1, f2, f3⟩ := f
    have s := union_second_loop_all_succeed slot.to_ r1.slot r1.cur_can r1.modf f3
    generalize union_second_loop slot.to_ r1.slot r1.cur_can r1.modf r1.heap = r2 at s ⊢
    obtain ⟨s1, s2, s3⟩ := s
    have o := ih r2.cur_can (r2.modf.map (List.map (ContactPtr.contact r2.slot))) s3
    generalize union_outer_loop rest r2.cur_can
      (r2.modf.map (List.map (ContactPtr.contact r2.slot))) r2.heap = r at o ⊢
    obtain ⟨o1, o2, o3⟩ := o
    have hfinal : r2.slot = merge_all slot (r1.merged ++ r2.merged) := by
      rw [merge_all_append, ← f1, s1]
    refine ⟨?_, ?_, o3⟩
    · rw [union_list_cons, ← o1, ← hfinal]
    · rw [o2, s2, f2, modified_entries_cons]
      dsimp only
      rw [changing_merges_append, ← hfinal, ← f1]
      cases modf with
      | none => rfl
      | some l =>
        simp only [Option.map_some', Option.some.injEq, List.map_append, List.map_replicate,
          ContactPtr.contact, List.map_map, List.append_assoc, List.append_cancel_left_eq]
        rw [← List.append_assoc, ← List.replicate_add, Nat.add_comm]
        congr 1
        exact List.map_id _

theorem union_list_idle (a : List Contact) :
    union_list (a.map (fun slot => (⟨[], slot, []⟩ : UnionSlot))) [] = a := by
  induction a with
  | nil => rfl
  | cons c rest ih => rw [List.map_cons, union_list_cons, ih]; rfl

theorem modified_entries_idle (ch : Contact × Contact → Bool) (a : List Contact) :
    modified_entries ch (a.map (fun slot => (⟨[], slot, []⟩ : UnionSlot))) = [] := by
  induction a with
  | nil => rfl
  | cons c rest ih => rw [List.map_cons, modified_entries_cons, ih]; rfl

theorem contact_list_union_run_slots (a b : List Contact) (modf : Option (List Contact))
    (heap : List Bool) :
    (contact_list_union_run a b modf heap).slots.map UnionSlot.old = a ∧
    List.Perm b (union_taken (contact_list_union_run a b modf heap).slots ++
      (contact_list_union_run a b modf heap).cur_can) := by
  unfold contact_list_union_run
  split
  · rename_i ha
    simp [ha, union_taken]
  · split
    · rename_i hb
      simp [hb, union_taken, Function.comp_def]
    · exact union_outer_loop_slots a b modf heap

theorem contact_list_union_run_all_succeed (a b : List Contact) (modf : Option (List Contact))
    {heap : List Bool} (h : all_succeed heap) :
    (contact_list_union_run a b modf heap).list =
      union_list (contact_list_union_run a b modf heap).slots
        (contact_list_union_run a b modf heap).cur_can ∧
    (contact_list_union_run a b modf heap).modf = modf.map (fun l =>
      modified_entries merge_changed_duration (contact_list_union_run a b modf heap).slots
        ++ l) := by
  unfold contact_list_union_run
  split
  · cases modf <;> simp [union_list, modified_entries]
  · split
    · dsimp only
      rw [union_list_idle, modified_entries_idle]
      cases modf <;> simp
    · exact ⟨(union_outer_loop_all_succeed a b modf h).1,
        (union_outer_loop_all_succeed a b modf h).2.1⟩

theorem contact_list_union_run_modf_none (a b : List Contact) (heap : List Bool) :
    (contact_list_union_run a b none heap).modf = none := by
  have key : ∀ (a cans : List Contact) (heap : List Bool),
      (union_outer_loop a cans none heap).modf = none := by
    intro a
    induction a with
    | nil => intro cans heap; rfl
    | cons slot rest ih =>
      intro cans heap
      rw [union_outer_loop]
      dsimp only
      have hf : ∀ (cf : Nat) (s : Contact) (cs : List Contact) (hp : List Bool),
          (union_first_loop cf s cs none hp).modf = none := by
        intro cf s cs
        induction cs generalizing s with
        | nil => intro hp; rfl
        | cons c cr ihc =>
          intro hp
          rw [union_first_loop]
          split
          · split
            · split
              · exact ihc s hp
              · have : (merge_into_slot s c none hp).2.1 = none := by
                  unfold merge_into_slot add_to_modified_list
                  dsimp only
                  split <;> rfl
                dsimp only
                rw [this]
                exact ihc _ _
            · exact ihc s hp
          · rfl
      have hs : ∀ (ct : Nat) (s : Contact) (cs : List Contact) (hp : List Bool),
          (union_second_loop ct s cs none hp).modf = none := by
        intro ct s cs
        induction cs generalizing s with
        | nil => intro hp; rfl
        | cons c cr ihc =>
          intro hp
          rw [union_second_loop]
          split
          · have : (merge_into_slot s c none hp).2.1 = none := by
              unfold merge_into_slot add_to_modified_list
              dsimp only
              split <;> rfl
            dsimp only
            rw [this]
            exact ihc _ _
          · exact ihc s hp
      rw [Option.map_none', hf, hs, Option.map_none']
      exact ih _ _
  unfold contact_list_union_run
  split
  · rfl
  · split
    · rfl
    · exact key a b heap

theorem MIN_le_left (a b : Nat) : MIN a b ≤ a := by unfold MIN; split <;> omega
theorem MIN_le_right (a b : Nat) : MIN a b ≤ b := by unfold MIN; split <;> omega
theorem le_MAX_left (a b : Nat) : a ≤ MAX a b := by unfold MAX; split <;> omega
theorem le_MAX_right (a b : Nat) : b ≤ MAX a b := by unfold MAX; split <;> omega
theorem MIN_eq (a b : Nat) : MIN a b = min a b := by unfold MIN; split <;> omega
theorem MAX_eq (a b : Nat) : MAX a b = max a b := by unfold MAX; split <;> omega

/-- For a contact with `from <= to` a merge changes the duration exactly when
it changes the interval. -/
theorem merge_changed_duration_eq_interval (e : Contact × Contact)
    (h1 : e.1.from_ ≤ e.1.to_) (h2 : e.1.to_ < 2 ^ 64) (h3 : e.2.to_ < 2 ^ 64) :
    merge_changed_duration e = merge_changed_interval e := by
  unfold merge_changed_duration merge_changed_interval merged
  simp only [merge_contacts_from, merge_contacts_to, MIN_eq, MAX_eq]
  have hd : u64_sub e.1.to_ e.1.from_ = e.1.to_ - e.1.from_ := u64_sub_of_le h1 h2
  have hd' : u64_sub (max e.1.to_ e.2.to_) (min e.1.from_ e.2.from_)
      = max e.1.to_ e.2.to_ - min e.1.from_ e.2.from_ :=
    u64_sub_of_le (by omega) (by omega)
  rw [hd, hd']
  congr 1
  rw [Bool.eq_iff_iff]
  simp only [Bool.or_eq_true, decide_eq_true_eq]
  omega

/-- For a slot contact with `from <= to` the two criteria count the same
merges. -/
theorem changing_merges_duration_eq_interval (slot : Contact) (cands : List Contact)
    (h1 : slot.from_ ≤ slot.to_) (h2 : slot.to_ < 2 ^ 64) (h3 : ∀ c ∈ cands, c.to_ < 2 ^ 64) :
    changing_merges merge_changed_duration slot cands =
      changing_merges merge_changed_interval slot cands := by
  induction cands generalizing slot with
  | nil => rfl
  | cons can rest ih =>
    have hcan := h3 can (List.mem_cons_self _ _)
    unfold changing_merges
    rw [merge_changed_duration_eq_interval (slot, can) h1 h2 hcan]
    rw [ih (merged (slot, can))
      (by unfold merged; simp only [merge_contacts_from, merge_contacts_to, MIN_eq, MAX_eq]; omega)
      (by unfold merged; simp only [merge_contacts_to, MAX_eq]; omega)
      (fun c hc => h3 c (List.mem_cons_of_mem _ hc))]

theorem modified_entries_duration_eq_interval (slots : List UnionSlot)
    (h : ∀ e ∈ slots, e.old.from_ ≤ e.old.to_ ∧ e.old.to_ < 2 ^ 64 ∧
      ∀ c ∈ e.merged, c.to_ < 2 ^ 64) :
    modified_entries merge_changed_duration slots =
      modified_entries merge_changed_interval slots := by
  induction slots with
  | nil => rfl
  | cons e rest ih =>
    obtain ⟨h1, h2, h3⟩ := h e (List.mem_cons_self _ _)
    rw [modified_entries_cons, modified_entries_cons,
      ih (fun e' he' => h e' (List.mem_cons_of_mem _ he')),
      changing_merges_duration_eq_interval e.old e.merged h1 h2 h3]

theorem mem_union_taken {slots : List UnionSlot} {e : UnionSlot} (he : e ∈ slots)
    {c : Contact} (hc : c ∈ e.merged) : c ∈ union_taken slots := by
  unfold union_taken
  rw [List.mem_flatMap]
  exact ⟨e, he, List.mem_append_right _ hc⟩

/-- C5: when the allocations succeed, `contact_list_union` returns, pass by
pass of its outer loop over the contacts of `a`, the candidates of `b` it
spliced in and the contact of `a` with the candidates merged into it, and at
the end the candidates left over; every candidate of `b` is spliced in,
merged or left over, once.  The modified list is the old one with, in front,
one entry for every merge that changed the bitrate or the duration of the
contact merged into (what `merge_contacts` reports), each leading to that
contact of `a` as the function leaves it: a merge that changes neither adds
nothing and a spliced candidate is never added.  For contacts with
`from <= to` these are the merges that changed the bitrate or the interval.
A `NULL` out-parameter stays `NULL`. -/
theorem contact_list_union_modified (a b m : List Contact) (heap : List Bool)
    (hheap : all_succeed heap) :
    ((contact_list_union_run a b (some m) heap).slots.map UnionSlot.old = a ∧
      List.Perm b (union_taken (contact_list_union_run a b (some m) heap).slots ++
        (contact_list_union_run a b (some m) heap).cur_can) ∧
      (contact_list_union a b (some m) heap).1 =
        union_list (contact_list_union_run a b (some m) heap).slots
          (contact_list_union_run a b (some m) heap).cur_can) ∧
    (contact_list_union a b (some m) heap).2.1 =
      some (modified_entries merge_changed_duration
        (contact_list_union_run a b (some m) heap).slots ++ m) ∧
    ((∀ c ∈ a, c.from_ ≤ c.to_ ∧ c.to_ < 2 ^ 64) → (∀ c ∈ b, c.to_ < 2 ^ 64) →
      (contact_list_union a b (some m) heap).2.1 =
        some (modified_entries merge_changed_interval
          (contact_list_union_run a b (some m) heap).slots ++ m)) ∧
    (contact_list_union a b none heap).2.1 = none := by
  obtain ⟨hs1, hs2⟩ := contact_list_union_run_slots a b (some m) heap
  obtain ⟨hl, hm⟩ := contact_list_union_run_all_succeed a b (some m) hheap
  have hmodf : (contact_list_union a b (some m) heap).2.1 =
      some (modified_entries merge_changed_duration
        (contact_list_union_run a b (some m) heap).slots ++ m) := hm
  refine ⟨⟨hs1, hs2, hl⟩, hmodf, ?_, contact_list_union_run_modf_none a b heap⟩
  intro ha hb
  rw [hmodf, modified_entries_duration_eq_interval]
  intro e he
  have hold : e.old ∈ a := by
    rw [← hs1]
    exact List.mem_map_of_mem _ he
  refine ⟨(ha _ hold).1, (ha _ hold).2, fun c hc => hb c ?_⟩
  have hmem : c ∈ union_taken (contact_list_union_run a b (some m) heap).slots ++
      (contact_list_union_run a b (some m) heap).cur_can :=
    List.mem_append_left _ (mem_union_taken he hc)
  exact hs2.mem_iff.mpr hmem

/-- C1 (the code at the failing input): the lists `[10,20), [30,40)` and
`[18,35)` of node `A` meet every precondition, and the union returns the two
contacts `[10,35)` and `[30,40)` of node `A`, which overlap (the allocations
succeed). -/
theorem contact_list_union_S3_overlap :
    contact_list_sorted [contact_at "A" 10 20 1000, contact_at "A" 30 40 1000] 1 = true ∧
    contact_list_sorted [contact_at "A" 18 35 1000] 1 = true ∧
    (∀ c ∈ [contact_at "A" 10 20 1000, contact_at "A" 30 40 1000, contact_at "A" 18 35 1000],
      c.node = some "A" ∧ c.from_ < c.to_) ∧
    contacts_overlap (contact_at "A" 10 20 1000) (contact_at "A" 30 40 1000) = false ∧
    (∃ x y, (contact_list_union [contact_at "A" 10 20 1000, contact_at "A" 30 40 1000]
        [contact_at "A" 18 35 1000] (some []) []).1 = [x, y] ∧
      x.node = some "A" ∧ y.node = some "A" ∧
      (x.from_, x.to_) = (10, 35) ∧ (y.from_, y.to_) = (30, 40) ∧
      contacts_overlap x y = true) := by
  refine ⟨by decide, by decide, by decide, by decide, _, _, rfl, ?_⟩
  decide

/-- C2 (the code at scenario S3): the union returns two contacts, `[10,35)` with
total capacity 25000 and `[30,40)` with total capacity 10000, and the modified
list receives the one entry `[10,35)` (the allocations succeed). -/
theorem contact_list_union_S3_result :
    contact_list_union [contact_at "A" 10 20 1000, contact_at "A" 30 40 1000]
        [contact_at "A" 18 35 1000] (some []) [] =
      ([⟨some "A", 10, 35, 1000, 25000, 25000, 25000, 25000, [], 0⟩,
        ⟨some "A", 30, 40, 1000, 10000, 10000, 10000, 10000, [], 0⟩],
       some [⟨some "A", 10, 35, 1000, 25000, 25000, 25000, 25000, [], 0⟩], []) := by
  decide

/-- C3 (the code at the failing input): `a = [A:[10,20)]` and
`b = [A:[5,12), B:[7,8)]` are sorted by `from` with `from < to` everywhere, and
the union returns `B:[7,8), A:[5,20)`, which `contact_list_sorted` rejects (the
allocations succeed). -/
theorem contact_list_union_two_nodes_unsorted :
    contact_list_sorted [contact_at "A" 10 20 1000] 1 = true ∧
    contact_list_sorted [contact_at "A" 5 12 1000, contact_at "B" 7 8 1000] 1 = true ∧
    (∀ c ∈ [contact_at "A" 10 20 1000, contact_at "A" 5 12 1000, contact_at "B" 7 8 1000],
      c.from_ < c.to_) ∧
    (contact_list_union [contact_at "A" 10 20 1000]
        [contact_at "A" 5 12 1000, contact_at "B" 7 8 1000] (some []) []).1.map
          (fun c => (c.node, c.from_, c.to_)) = [(some "B", 7, 8), (some "A", 5, 20)] ∧
    contact_list_sorted (contact_list_union [contact_at "A" 10 20 1000]
        [contact_at "A" 5 12 1000, contact_at "B" 7 8 1000] (some []) []).1 1 = false := by
  decide

/-! ## Theorems: `contact_list_difference` -/

theorem difference_match_cons_of_not (can : Contact) (next : List Contact) (x : Contact)
    (h : ¬ (can.from_ = x.from_ ∧ can.to_ = x.to_)) :
    difference_match (can :: next) x = difference_match next x := by
  unfold difference_match
  rw [List.find?_cons]
  simp [h]

theorem difference_match_cons_of_eq (can : Contact) (next : List Contact) (x : Contact)
    (h : can.from_ = x.from_ ∧ can.to_ = x.to_) :
    difference_match (can :: next) x = some can := by
  unfold difference_match
  rw [List.find?_cons]
  simp [h]

theorem difference_match_none_of_lt (b : List Contact) (x : Contact)
    (h : ∀ y ∈ b, x.from_ < y.from_) : difference_match b x = none := by
  unfold difference_match
  rw [List.find?_eq_none]
  intro y hy
  have := h y hy
  simp only [decide_eq_true_eq, not_and]
  omega

/-- An entry of `b` whose interval is that of no entry of `a` does not change
the closed form. -/
theorem difference_filterMap_drop (a : List Contact) (can : Contact) (next : List Contact)
    (h : ∀ x ∈ a, ¬ (can.from_ = x.from_ ∧ can.to_ = x.to_)) :
    a.filterMap (difference_kept (can :: next)) = a.filterMap (difference_kept next) ∧
    a.filterMap (difference_modified (can :: next)) = a.filterMap (difference_modified next) ∧
    a.filterMap (difference_deleted (can :: next)) = a.filterMap (difference_deleted next) := by
  refine ⟨?_, ?_, ?_⟩
  · exact List.filterMap_congr (fun x hx => by
      unfold difference_kept; rw [difference_match_cons_of_not can next x (h x hx)])
  · exact List.filterMap_congr (fun x hx => by
      unfold difference_modified; rw [difference_match_cons_of_not can next x (h x hx)])
  · exact List.filterMap_congr (fun x hx => by
      unfold difference_deleted; rw [difference_match_cons_of_not can next x (h x hx)])

theorem difference_filterMap_nil (l : List Contact) :
    l.filterMap (difference_kept []) = l ∧ l.filterMap (difference_modified []) = [] ∧
    l.filterMap (difference_deleted []) = [] := by
  induction l with
  | nil => exact ⟨rfl, rfl, rfl⟩
  | cons x l ih =>
    simp [List.filterMap_cons, difference_kept, difference_modified, difference_deleted,
      difference_match, ih]

theorem allocated_nil {α : Type} (heap : List Bool) : allocated ([] : List α) heap = [] := by
  unfold allocated; rfl

theorem allocated_all_succeed {α : Type} (l : List α) {heap : List Bool}
    (h : all_succeed heap) : allocated l heap = l := by
  induction l generalizing heap with
  | nil => exact allocated_nil heap
  | cons x rest ih =>
    unfold allocated
    rw [if_pos (malloc_all_succeed h).1, ih (malloc_all_succeed h).2]

theorem difference_loop_eq_spec (a b : List Contact) (modf deleted : Option (List Contact))
    (heap : List Bool)
    (ha : a.Pairwise (fun x y => x.from_ < y.from_))
    (hb : b.Pairwise (fun x y => x.from_ < y.from_)) :
    difference_loop a b modf deleted heap = difference_spec a b modf deleted heap := by
  induction a, b, modf, deleted, heap using difference_loop.induct with
  | case1 cur_can modf deleted heap =>
    cases modf <;> cases deleted <;> simp [difference_loop, difference_spec, allocated_nil]
  | case2 slot rest modf deleted heap =>
    obtain ⟨h1, h2, h3⟩ := difference_filterMap_nil (slot :: rest)
    rw [difference_loop]
    unfold difference_spec
    rw [h1, h2, h3]
    cases modf <;> cases deleted <;> simp [allocated_nil]
  | case3 slot rest can next modf heap hle heq hemp d ih =>
    rw [List.pairwise_cons] at ha hb
    obtain ⟨h1, h2, h3⟩ := difference_filterMap_drop rest can next (by
      intro x hx hc
      have := ha.1 x hx
      omega)
    rw [difference_loop, if_pos hle, if_pos heq, if_pos hemp]
    dsimp only
    rw [ih ha.2 hb.2]
    unfold difference_spec
    cases modf <;>
    simp [List.filterMap_cons, difference_kept, difference_modified, difference_deleted,
      difference_match_cons_of_eq can next slot heq, hemp, h1, h2, h3]
  | case4 slot rest can next modf heap hle heq hemp hact ih =>
    rw [List.pairwise_cons] at ha hb
    obtain ⟨h1, h2, h3⟩ := difference_filterMap_drop rest can next (by
      intro x hx hc
      have := ha.1 x hx
      omega)
    rw [difference_loop, if_pos hle, if_pos heq, if_pos hemp]
    dsimp only
    rw [if_pos hact, ih ha.2 hb.2]
    unfold difference_spec
    cases modf <;>
    simp [List.filterMap_cons, difference_kept, difference_modified, difference_deleted,
      difference_match_cons_of_eq can next slot heq, hemp, h1, h2, h3]
  | case5 slot rest can next modf heap hle heq hemp hact ih =>
    rw [List.pairwise_cons] at ha hb
    obtain ⟨h1, h2, h3⟩ := difference_filterMap_drop rest can next (by
      intro x hx hc
      have := ha.1 x hx
      omega)
    rw [difference_loop, if_pos hle, if_pos heq, if_pos hemp]
    dsimp only
    rw [if_neg hact, ih ha.2 hb.2]
    unfold difference_spec
    cases modf <;>
    simp [List.filterMap_cons, difference_kept, difference_modified, difference_deleted,
      difference_match_cons_of_eq can next slot heq, hemp, h1, h2, h3]
  | case6 slot rest can next modf deleted heap hle heq hemp d slot1 m ih =>
    rw [List.pairwise_cons] at ha hb
    obtain ⟨h1, h2, h3⟩ := difference_filterMap_drop rest can next (by
      intro x hx hc
      have := ha.1 x hx
      omega)
    rw [difference_loop.eq_def]
    dsimp only
    rw [if_pos hle, if_pos heq, if_neg hemp, ih ha.2 hb.2]
    unfold difference_spec
    cases modf <;> cases deleted <;> cases hmal : (malloc heap).1 <;>
    simp [List.filterMap_cons, difference_kept, difference_modified, difference_deleted,
      difference_match_cons_of_eq can next slot heq, hemp, slot1, d, m, difference_subtract,
      endpoint_list_difference, add_to_modified_list, allocated, malloc_snd, hmal, h1, h2, h3]
  | case7 slot rest can next modf deleted heap hle hne ih =>
    rw [List.pairwise_cons] at hb
    obtain ⟨h1, h2, h3⟩ := difference_filterMap_drop (slot :: rest) can next (by
      intro x hx hc
      rcases List.mem_cons.mp hx with rfl | hx'
      · exact hne hc
      · have := (List.pairwise_cons.mp ha).1 x hx'
        omega)
    rw [difference_loop.eq_def]
    dsimp only
    rw [if_pos hle, if_neg hne, ih ha hb.2]
    unfold difference_spec
    rw [h1, h2, h3]
  | case8 slot rest can next modf deleted heap hgt ih =>
    rw [List.pairwise_cons] at ha
    have hnone : difference_match (can :: next) slot = none := by
      apply difference_match_none_of_lt
      intro y hy
      rcases List.mem_cons.mp hy with rfl | hy'
      · omega
      · have := (List.pairwise_cons.mp hb).1 y hy'
        omega
    rw [difference_loop.eq_def]
    dsimp only
    rw [if_neg hgt, ih ha.2 hb]
    unfold difference_spec
    simp [List.filterMap_cons, difference_kept, difference_modified, difference_deleted, hnone]

theorem contact_list_difference_eq_spec (a b : List Contact)
    (modf deleted : Option (List Contact)) (heap : List Bool)
    (ha : a.Pairwise (fun x y => x.from_ < y.from_))
    (hb : b.Pairwise (fun x y => x.from_ < y.from_)) :
    contact_list_difference a b modf deleted heap = difference_spec a b modf deleted heap := by
  unfold contact_list_difference
  split
  · rename_i h
    rcases h with rfl | rfl
    · cases modf <;> cases deleted <;> simp [difference_spec, allocated_nil]
    · obtain ⟨h1, h2, h3⟩ := difference_filterMap_nil a
      unfold difference_spec
      rw [h1, h2, h3]
      cases modf <;> cases deleted <;> simp [allocated_nil]
  · exact difference_loop_eq_spec a b modf deleted heap ha hb

/-- In a list that ascends strictly by `from`, an entry is determined by its
`from`. -/
theorem eq_of_from_eq {l : List Contact} (hl : l.Pairwise (fun x y => x.from_ < y.from_))
    {x y : Contact} (hx : x ∈ l) (hy : y ∈ l) (h : x.from_ = y.from_) : x = y := by
  induction l with
  | nil => simp at hx
  | cons z rest ih =>
    rw [List.pairwise_cons] at hl
    rcases List.mem_cons.mp hx with rfl | hx'
    · rcases List.mem_cons.mp hy with rfl | hy'
      · rfl
      · have := hl.1 y hy'; omega
    · rcases List.mem_cons.mp hy with rfl | hy'
      · have := hl.1 x hx'; omega
      · exact ih hl.2 hx' hy'

theorem difference_match_eq_some {b : List Contact}
    (hb : b.Pairwise (fun x y => x.from_ < y.from_)) {x y : Contact} (hy : y ∈ b)
    (hxy : y.from_ = x.from_ ∧ y.to_ = x.to_) : difference_match b x = some y := by
  unfold difference_match
  cases hfind : b.find? (fun y => decide (y.from_ = x.from_ ∧ y.to_ = x.to_)) with
  | none =>
    rw [List.find?_eq_none] at hfind
    have := hfind y hy
    simp [hxy] at this
  | some y0 =>
    have hp := List.find?_some hfind
    have hm := List.mem_of_find?_eq_some hfind
    simp only [decide_eq_true_eq] at hp
    rw [eq_of_from_eq hb hm hy (hp.1.trans hxy.1.symm)]

theorem difference_match_some_mem {b : List Contact} {x y : Contact}
    (h : difference_match b x = some y) : y ∈ b ∧ y.from_ = x.from_ ∧ y.to_ = x.to_ := by
  unfold difference_match at h
  have hp := List.find?_some h
  simp only [decide_eq_true_eq] at hp
  exact ⟨List.mem_of_find?_eq_some h, hp⟩

theorem difference_match_none_forall {b : List Contact} {x : Contact}
    (h : difference_match b x = none) :
    ∀ y ∈ b, ¬ (y.from_ = x.from_ ∧ y.to_ = x.to_) := by
  unfold difference_match at h
  rw [List.find?_eq_none] at h
  intro y hy
  simpa using h y hy

/-- The three ways `contact_list_difference` treats an entry `x` of `a`. -/
theorem difference_kept_cases {b : List Contact}
    (hb : b.Pairwise (fun x y => x.from_ < y.from_)) (x : Contact) :
    (difference_removes b x = true ∧ difference_kept b x = none ∧
        difference_deleted b x = some x) ∨
    (difference_removes b x = false ∧ difference_deleted b x = none ∧
      ∃ x1, difference_kept b x = some x1 ∧ x1.without_endpoints = x.without_endpoints) := by
  cases hm : difference_match b x with
  | none =>
    right
    refine ⟨?_, by simp [difference_deleted, hm], x, by simp [difference_kept, hm], rfl⟩
    have := difference_match_none_forall hm
    simp only [difference_removes, List.any_eq_false, decide_eq_true_eq]
    intro y hy hc
    exact this y hy ⟨hc.1, hc.2.1⟩
  | some y =>
    obtain ⟨hy, hxy⟩ := difference_match_some_mem hm
    by_cases he : y.contact_endpoints = []
    · left
      refine ⟨?_, by simp [difference_kept, hm, he], by simp [difference_deleted, hm, he]⟩
      simp only [difference_removes, List.any_eq_true, decide_eq_true_eq]
      exact ⟨y, hy, hxy.1, hxy.2, he⟩
    · right
      refine ⟨?_, by simp [difference_deleted, hm, he], difference_subtract x y,
        by simp [difference_kept, hm, he], rfl⟩
      simp only [difference_removes, List.any_eq_false, decide_eq_true_eq]
      intro y1 hy1 hc
      have : y1 = y := eq_of_from_eq hb hy1 hy (hc.1.trans hxy.1.symm)
      exact he (this ▸ hc.2.2)

theorem difference_kept_map (a b : List Contact)
    (hb : b.Pairwise (fun x y => x.from_ < y.from_)) :
    (a.filterMap (difference_kept b)).map Contact.without_endpoints =
      (a.filter (fun x => !difference_removes b x)).map Contact.without_endpoints ∧
    a.filterMap (difference_deleted b) = a.filter (difference_removes b) := by
  induction a with
  | nil => exact ⟨rfl, rfl⟩
  | cons x rest ih =>
    rcases difference_kept_cases hb x with ⟨h1, h2, h3⟩ | ⟨h1, h2, x1, h3, h4⟩
    · simp [List.filterMap_cons, List.filter_cons, h1, h2, h3, ih.1, ih.2]
    · simp [List.filterMap_cons, List.filter_cons, h1, h2, h3, h4, ih.1, ih.2]

/-- C6: for `a` and `b` ascending strictly by `from`, `contact_list_difference`
returns `a` without exactly the entries whose interval is that of an entry of
`b` without endpoints; the other entries stay in their order with node,
interval, bitrate, capacities and `active` unchanged, and a non-`NULL`
deleted list receives exactly the removed entries (each moved to its head).
This does not depend on what `malloc` returns. -/
theorem contact_list_difference_removes (a b : List Contact)
    (modf deleted : Option (List Contact)) (heap : List Bool)
    (ha : a.Pairwise (fun x y => x.from_ < y.from_))
    (hb : b.Pairwise (fun x y => x.from_ < y.from_)) :
    (contact_list_difference a b modf deleted heap).a.map Contact.without_endpoints =
      (a.filter (fun x => !difference_removes b x)).map Contact.without_endpoints ∧
    (contact_list_difference a b modf deleted heap).deleted =
      deleted.map (fun l => (a.filter (difference_removes b)).reverse ++ l) := by
  rw [contact_list_difference_eq_spec a b modf deleted heap ha hb]
  unfold difference_spec
  exact ⟨(difference_kept_map a b hb).1, by rw [(difference_kept_map a b hb).2]⟩

/-- C7 (as amended): for `a` and `b` ascending strictly by `from`, an entry `x`
of `a` whose interval is that of an entry `y` of `b` with endpoints stays in
the result with its endpoint list replaced by `endpoint_list_difference(x, y)`,
and `b` (its endpoint lists included) is as before the call, whatever `malloc`
returns; when the allocations succeed that contact is recorded in the modified
list. -/
theorem contact_list_difference_subtracts (a b m : List Contact)
    (deleted : Option (List Contact)) (heap : List Bool)
    (ha : a.Pairwise (fun x y => x.from_ < y.from_))
    (hb : b.Pairwise (fun x y => x.from_ < y.from_))
    (x y : Contact) (hx : x ∈ a) (hy : y ∈ b)
    (hxy : y.from_ = x.from_ ∧ y.to_ = x.to_) (hne : y.contact_endpoints ≠ []) :
    (contact_list_difference a b (some m) deleted heap).a = a.filterMap (difference_kept b) ∧
    difference_kept b x = some { x with contact_endpoints :=
      (endpoint_list_difference x.contact_endpoints y.contact_endpoints 0).1 } ∧
    ({ x with contact_endpoints :=
        (endpoint_list_difference x.contact_endpoints y.contact_endpoints 0).1 } : Contact)
      ∈ (contact_list_difference a b (some m) deleted heap).a ∧
    (all_succeed heap →
      ∃ l, (contact_list_difference a b (some m) deleted heap).modf = some (l ++ m) ∧
        ({ x with contact_endpoints :=
          (endpoint_list_difference x.contact_endpoints y.contact_endpoints 0).1 } : Contact)
          ∈ l) ∧
    (contact_list_difference a b (some m) deleted heap).b = b := by
  have hm : difference_match b x = some y := difference_match_eq_some hb hy hxy
  have hk : difference_kept b x = some (difference_subtract x y) := by
    simp [difference_kept, hm, hne]
  have hmod : difference_modified b x = some (difference_subtract x y) := by
    simp [difference_modified, hm, hne]
  rw [contact_list_difference_eq_spec a b (some m) deleted heap ha hb]
  unfold difference_spec
  refine ⟨rfl, hk, ?_, fun hheap => ⟨_, rfl, ?_⟩, rfl⟩
  · exact List.mem_filterMap.mpr ⟨x, hx, hk⟩
  · rw [allocated_all_succeed _ hheap]
    exact List.mem_reverse.mpr (List.mem_filterMap.mpr ⟨x, hx, hmod⟩)

/-- C7 (counterexample to the claim as stated): the contact `[10,20)` of `a`
with the endpoints `x`, `y` meets an entry of `b` with the same interval and
the endpoint `y`; when `malloc` returns `NULL` in `add_to_modified_list` the
endpoint `y` is subtracted from the contact and yet the modified list stays
empty. -/
theorem contact_list_difference_unrecorded :
    (contact_list_difference
        [contact_with "A" 10 20 1000 [⟨100, "dtn://x/"⟩, ⟨150, "dtn://y/"⟩]]
        [contact_with "A" 10 20 1000 [⟨200, "dtn://y/"⟩]] (some []) none [false]).a =
      [contact_with "A" 10 20 1000 [⟨100, "dtn://x/"⟩]] ∧
    (contact_list_difference
        [contact_with "A" 10 20 1000 [⟨100, "dtn://x/"⟩, ⟨150, "dtn://y/"⟩]]
        [contact_with "A" 10 20 1000 [⟨200, "dtn://y/"⟩]] (some []) none [false]).modf =
      some [] := by
  rw [contact_list_difference_eq_spec _ _ _ _ _ (by decide) (by decide)]
  decide

/-! ## Theorems: `node_prepare_and_verify` -/

theorem LLSORT_perm {α : Type} (member : α → Nat) (l : List α) : (LLSORT member l).Perm l := by
  unfold LLSORT
  exact List.perm_insertionSort _ l

theorem orderedInsert_pairwise {α : Type} (member : α → Nat) (x : α) (l : List α)
    (h : l.Pairwise (fun a b => member a ≤ member b)) :
    (List.orderedInsert (fun a b => member a ≤ member b) x l).Pairwise
      (fun a b => member a ≤ member b) := by
  induction l with
  | nil => simp
  | cons y rest ih =>
    rw [List.orderedInsert]
    rw [List.pairwise_cons] at h
    split
    · rename_i hxy
      rw [List.pairwise_cons]
      refine ⟨?_, List.pairwise_cons.mpr h⟩
      intro z hz
      rcases List.mem_cons.mp hz with rfl | hz'
      · exact hxy
      · exact le_trans hxy (h.1 z hz')
    · rename_i hxy
      rw [List.pairwise_cons]
      refine ⟨?_, ih h.2⟩
      intro z hz
      rcases (List.mem_orderedInsert _).mp hz with rfl | hz'
      · omega
      · exact h.1 z hz'

theorem LLSORT_sorted {α : Type} (member : α → Nat) (l : List α) :
    (LLSORT member l).Pairwise (fun a b => member a ≤ member b) := by
  unfold LLSORT
  induction l with
  | nil => simp
  | cons x rest ih =>
    rw [List.insertionSort]
    exact orderedInsert_pairwise member x _ ih

theorem strip_loop_subset (l : List Eid) : ∀ x ∈ strip_loop l, x ∈ l := by
  induction l using strip_loop.induct with
  | case1 => simp [strip_loop]
  | case2 cur rest ih =>
    intro x hx
    rw [strip_loop] at hx
    rcases List.mem_cons.mp hx with rfl | hx'
    · exact List.mem_cons_self _ _
    · have := ih x hx'
      unfold strip_inner at this
      exact List.mem_cons_of_mem _ (List.mem_filter.mp this).1

theorem strip_loop_pairwise (l : List Eid) :
    (strip_loop l).Pairwise (fun x y => x.str ≠ y.str) := by
  induction l using strip_loop.induct with
  | case1 => simp [strip_loop]
  | case2 cur rest ih =>
    rw [strip_loop, List.pairwise_cons]
    refine ⟨?_, ih⟩
    intro y hy
    have := strip_loop_subset _ y hy
    unfold strip_inner at this
    have h2 := (List.mem_filter.mp this).2
    simp only [decide_not, Bool.not_eq_eq_eq_not, Bool.not_true, decide_eq_false_iff_not] at h2
    exact fun h => h2 h.symm

theorem endpoint_list_strip_and_sort_nodup (el : List Eid) :
    ((endpoint_list_strip_and_sort el).map Eid.str).Nodup := by
  unfold endpoint_list_strip_and_sort
  have hperm := (LLSORT_perm (fun e => e.ptr) (strip_loop el)).map Eid.str
  rw [hperm.nodup_iff]
  unfold List.Nodup
  rw [List.pairwise_map]
  exact strip_loop_pairwise el

theorem overlaps_following_false (c : Contact) (l : List Contact) :
    overlaps_following c l = false ↔ ∀ i ∈ l, contacts_overlap c i = false := by
  induction l with
  | nil => simp [overlaps_following]
  | cons i rest ih =>
    rw [overlaps_following]
    by_cases h : contacts_overlap c i = true
    · simp [h]
    · simp [h, ih]

theorem contacts_overlap_stripped (c i : Contact) :
    contacts_overlap c.stripped i = contacts_overlap c i := rfl

theorem verify_loop_true_iff (l : List Contact) :
    (verify_loop l).2 = true ↔
      (∀ c ∈ l, c.from_ < c.to_) ∧ l.Pairwise (fun x y => contacts_overlap x y = false) := by
  induction l with
  | nil => simp [verify_loop]
  | cons c rest ih =>
    rw [verify_loop]
    by_cases h1 : c.from_ ≥ c.to_
    · simp only [if_pos h1, Bool.false_eq_true, false_iff]
      rintro ⟨h, _⟩
      have := h c (List.mem_cons_self _ _)
      omega
    · rw [if_neg h1]
      dsimp only
      cases hov : overlaps_following
          { c with contact_endpoints := endpoint_list_strip_and_sort c.contact_endpoints } rest with
      | true =>
        simp only [if_true, Bool.false_eq_true, false_iff, List.pairwise_cons]
        rintro ⟨_, h, _⟩
        have h' := (overlaps_following_false c.stripped rest).mpr h
        unfold Contact.stripped at h'
        rw [hov] at h'
        exact Bool.noConfusion h'
      | false =>
        have h' := (overlaps_following_false c.stripped rest).mp hov
        simp only [Bool.false_eq_true, if_false, ih, List.pairwise_cons, List.mem_cons,
          forall_eq_or_imp]
        constructor
        · rintro ⟨h2, h3⟩
          exact ⟨⟨by omega, h2⟩, h', h3⟩
        · rintro ⟨⟨_, h2⟩, _, h3⟩
          exact ⟨h2, h3⟩

theorem verify_loop_true_list (l : List Contact) (h : (verify_loop l).2 = true) :
    (verify_loop l).1 = l.map Contact.stripped := by
  induction l with
  | nil => simp [verify_loop]
  | cons c rest ih =>
    rw [verify_loop] at h ⊢
    by_cases h1 : c.from_ ≥ c.to_
    · rw [if_pos h1] at h
      exact Bool.noConfusion h
    · rw [if_neg h1] at h ⊢
      dsimp only at h ⊢
      cases hov : overlaps_following
          { c with contact_endpoints := endpoint_list_strip_and_sort c.contact_endpoints } rest with
      | true =>
        rw [hov] at h
        exact Bool.noConfusion h
      | false =>
        rw [hov] at h
        simp only [Bool.false_eq_true, if_false] at h ⊢
        rw [ih h]
        rfl

theorem contacts_overlap_symm {x y : Contact} (h : contacts_overlap x y = false) :
    contacts_overlap y x = false := by
  simp only [contacts_overlap, Bool.and_eq_false_imp, decide_eq_true_eq,
    decide_eq_false_iff_not] at h ⊢
  intro h1 h2
  exact h h2 h1

/-- C8: `node_prepare_and_verify` returns 1 exactly when `node->eid` is not
`NULL`, every contact has `from < to` and no two contacts overlap; and when it
returns 1 the contact list is a permutation of the input contacts (each with
its endpoint list stripped and sorted), it is sorted by `from`, and neither
the endpoint list of the node nor that of any contact holds a string twice. -/
theorem node_prepare_and_verify_spec (node : Node) :
    ((node_prepare_and_verify node).2 = 1 ↔
      (node.eid ≠ none ∧ (∀ c ∈ node.contacts, c.from_ < c.to_) ∧
        node.contacts.Pairwise (fun x y => contacts_overlap x y = false))) ∧
    ((node_prepare_and_verify node).2 = 1 →
      (node_prepare_and_verify node).1.contacts.Perm (node.contacts.map Contact.stripped) ∧
      contact_list_sorted (node_prepare_and_verify node).1.contacts 1 = true ∧
      ((node_prepare_and_verify node).1.endpoints.map Eid.str).Nodup ∧
      ∀ c ∈ (node_prepare_and_verify node).1.contacts,
        (c.contact_endpoints.map Eid.str).Nodup) := by
  have hperm := LLSORT_perm (fun c : Contact => c.from_) node.contacts
  have hiff : (verify_loop (LLSORT (fun c => c.from_) node.contacts)).2 = true ↔
      ((∀ c ∈ node.contacts, c.from_ < c.to_) ∧
        node.contacts.Pairwise (fun x y => contacts_overlap x y = false)) := by
    rw [verify_loop_true_iff, hperm.pairwise_iff (fun {x y} h => contacts_overlap_symm h)]
    constructor
    · rintro ⟨h1, h2⟩
      exact ⟨fun c hc => h1 c (hperm.mem_iff.mpr hc), h2⟩
    · rintro ⟨h1, h2⟩
      exact ⟨fun c hc => h1 c (hperm.mem_iff.mp hc), h2⟩
  unfold node_prepare_and_verify
  by_cases heid : node.eid = none
  · simp [heid]
  · simp only [if_neg heid]
    constructor
    · rw [← hiff]
      cases (verify_loop (LLSORT (fun c => c.from_) node.contacts)).2 <;> simp [heid]
    · intro hret
      have hrun : (verify_loop (LLSORT (fun c => c.from_) node.contacts)).2 = true := by
        cases h : (verify_loop (LLSORT (fun c => c.from_) node.contacts)).2 with
        | true => rfl
        | false => rw [h] at hret; simp at hret
      rw [verify_loop_true_list _ hrun]
      refine ⟨hperm.map _, ?_, endpoint_list_strip_and_sort_nodup _, ?_⟩
      · rw [contact_list_sorted_iff, List.pairwise_map]
        exact LLSORT_sorted (fun c : Contact => c.from_) node.contacts
      · intro c hc
        obtain ⟨c0, _, rfl⟩ := List.mem_map.mp hc
        exact endpoint_list_strip_and_sort_nodup _

/-! ## The theorems at concrete inputs -/

/-- C9 at the contact `[10,35)` with bitrate 1000. -/
theorem recalculate_contact_capacity_total_witness :
    ((contact_at "A" 10 35 1000).from_ ≤ (contact_at "A" 10 35 1000).to_ ∧
      (contact_at "A" 10 35 1000).to_ < 2 ^ 64) ∧
    (recalculate_contact_capacity (contact_at "A" 10 35 1000)).total_capacity
      = min ((35 - 10) * 1000) (2 ^ 31 - 1) :=
  ⟨by decide,
   (recalculate_contact_capacity_total (contact_at "A" 10 35 1000) (by decide) (by decide)).1⟩

/-- C10 at the contact `[10,20)` extended to `[10,35)`, with 4000 bytes booked
on priority 0. -/
theorem recalculate_contact_capacity_delta_witness :
    u64_sub 35 10 * 1000 < 2 ^ 31 - 1 ∧
    (recalculate_contact_capacity
        ⟨some "A", 10, 35, 1000, 10000, 6000, 10000, 10000, [], 0⟩).total_capacity
      = u64_sub 35 10 * 1000 ∧
    to_int32 ((recalculate_contact_capacity
        ⟨some "A", 10, 35, 1000, 10000, 6000, 10000, 10000, [], 0⟩).total_capacity -
      (recalculate_contact_capacity
        ⟨some "A", 10, 35, 1000, 10000, 6000, 10000, 10000, [], 0⟩).remaining_capacity_p0)
      = to_int32 (10000 - 6000) :=
  ⟨by decide,
   (recalculate_contact_capacity_delta
      ⟨some "A", 10, 35, 1000, 10000, 6000, 10000, 10000, [], 0⟩ (by decide)).1,
   (recalculate_contact_capacity_delta
      ⟨some "A", 10, 35, 1000, 10000, 6000, 10000, 10000, [], 0⟩ (by decide)).2.2.1.1⟩

/-- C4 at the list `[10,20), [30,40)` of node `A` and a copy whose endpoint
strings live in other buffers, with a `malloc` that would return `NULL`. -/
theorem contact_list_union_identity_idempotent_witness :
    contact_list_union
        [contact_with "A" 10 20 1000 [⟨100, "dtn://b/"⟩], contact_at "A" 30 40 1000]
        [contact_with "A" 10 20 1000 [⟨200, "dtn://b/"⟩], contact_at "A" 30 40 1000]
        (some []) [false] =
      ([contact_with "A" 10 20 1000 [⟨100, "dtn://b/"⟩], contact_at "A" 30 40 1000],
       some [], [false]) :=
  (contact_list_union_identity_idempotent [] "A"
    [contact_with "A" 10 20 1000 [⟨100, "dtn://b/"⟩], contact_at "A" 30 40 1000]
    [contact_with "A" 10 20 1000 [⟨200, "dtn://b/"⟩], contact_at "A" 30 40 1000]
    (some []) [false] (by decide) (by decide) (by decide) (by decide)
    (List.Forall₂.cons (by decide) (List.Forall₂.cons (by decide) List.Forall₂.nil))).2.2

/-- C5 at `a = [10,20)` and `b = [5,12), [15,30)` of node `A`: both candidates
are merged into the contact of `a`, both merges change its interval, and the
modified list holds two entries that lead to that contact, `[5,30)`. -/
theorem contact_list_union_modified_witness :
    all_succeed [] ∧
    (contact_list_union [contact_at "A" 10 20 1000]
        [contact_at "A" 5 12 1000, contact_at "A" 15 30 1000] (some []) []).1 =
      [⟨some "A", 5, 30, 1000, 25000, 25000, 25000, 25000, [], 0⟩] ∧
    (contact_list_union [contact_at "A" 10 20 1000]
        [contact_at "A" 5 12 1000, contact_at "A" 15 30 1000] (some []) []).2.1 =
      some [⟨some "A", 5, 30, 1000, 25000, 25000, 25000, 25000, [], 0⟩,
        ⟨some "A", 5, 30, 1000, 25000, 25000, 25000, 25000, [], 0⟩] :=
  ⟨by decide,
   (contact_list_union_modified [contact_at "A" 10 20 1000]
      [contact_at "A" 5 12 1000, contact_at "A" 15 30 1000] [] [] (by decide)).1.2.2.trans
      (by decide),
   (contact_list_union_modified [contact_at "A" 10 20 1000]
      [contact_at "A" 5 12 1000, contact_at "A" 15 30 1000] [] [] (by decide)).2.2.1
      (by decide) (by decide) |>.trans (by decide)⟩

/-- C6 at `a = [10,20), [30,40)` and `b = [30,40)` without endpoints. -/
theorem contact_list_difference_removes_witness :
    [contact_at "A" 10 20 1000, contact_at "A" 30 40 1000].Pairwise
      (fun x y => x.from_ < y.from_) ∧
    (contact_list_difference [contact_at "A" 10 20 1000, contact_at "A" 30 40 1000]
        [contact_at "A" 30 40 2000] (some []) (some []) [false]).a.map
          Contact.without_endpoints =
      [contact_at "A" 10 20 1000] ∧
    (contact_list_difference [contact_at "A" 10 20 1000, contact_at "A" 30 40 1000]
        [contact_at "A" 30 40 2000] (some []) (some []) [false]).deleted =
      some [contact_at "A" 30 40 1000] :=
  ⟨by decide,
   contact_list_difference_removes [contact_at "A" 10 20 1000, contact_at "A" 30 40 1000]
      [contact_at "A" 30 40 2000] (some []) (some []) [false] (by decide) (by decide)⟩

/-- C7 at `a = [10,20)` with endpoints `x`, `y` and `b = [10,20)` with endpoint
`y`, the allocation succeeding. -/
theorem contact_list_difference_subtracts_witness :
    (contact_with "A" 10 20 1000 [⟨200, "dtn://y/"⟩]).contact_endpoints ≠ [] ∧
    all_succeed [true] ∧
    contact_with "A" 10 20 1000 [⟨100, "dtn://x/"⟩] ∈
      (contact_list_difference
        [contact_with "A" 10 20 1000 [⟨100, "dtn://x/"⟩, ⟨150, "dtn://y/"⟩]]
        [contact_with "A" 10 20 1000 [⟨200, "dtn://y/"⟩]] (some []) none [true]).a ∧
    (∃ l, (contact_list_difference
        [contact_with "A" 10 20 1000 [⟨100, "dtn://x/"⟩, ⟨150, "dtn://y/"⟩]]
        [contact_with "A" 10 20 1000 [⟨200, "dtn://y/"⟩]] (some []) none [true]).modf =
          some (l ++ []) ∧
      contact_with "A" 10 20 1000 [⟨100, "dtn://x/"⟩] ∈ l) ∧
    (contact_list_difference
        [contact_with "A" 10 20 1000 [⟨100, "dtn://x/"⟩, ⟨150, "dtn://y/"⟩]]
        [contact_with "A" 10 20 1000 [⟨200, "dtn://y/"⟩]] (some []) none [true]).b =
      [contact_with "A" 10 20 1000 [⟨200, "dtn://y/"⟩]] :=
  ⟨by decide, by decide,
   (contact_list_difference_subtracts
      [contact_with "A" 10 20 1000 [⟨100, "dtn://x/"⟩, ⟨150, "dtn://y/"⟩]]
      [contact_with "A" 10 20 1000 [⟨200, "dtn://y/"⟩]] [] none [true] (by decide) (by decide)
      (contact_with "A" 10 20 1000 [⟨100, "dtn://x/"⟩, ⟨150, "dtn://y/"⟩])
      (contact_with "A" 10 20 1000 [⟨200, "dtn://y/"⟩])
      (by decide) (by decide) (by decide) (by decide)).2.2.1,
   (contact_list_difference_subtracts
      [contact_with "A" 10 20 1000 [⟨100, "dtn://x/"⟩, ⟨150, "dtn://y/"⟩]]
      [contact_with "A" 10 20 1000 [⟨200, "dtn://y/"⟩]] [] none [true] (by decide) (by decide)
      (contact_with "A" 10 20 1000 [⟨100, "dtn://x/"⟩, ⟨150, "dtn://y/"⟩])
      (contact_with "A" 10 20 1000 [⟨200, "dtn://y/"⟩])
      (by decide) (by decide) (by decide) (by decide)).2.2.2.1 (by decide),
   (contact_list_difference_subtracts
      [contact_with "A" 10 20 1000 [⟨100, "dtn://x/"⟩, ⟨150, "dtn://y/"⟩]]
      [contact_with "A" 10 20 1000 [⟨200, "dtn://y/"⟩]] [] none [true] (by decide) (by decide)
      (contact_with "A" 10 20 1000 [⟨100, "dtn://x/"⟩, ⟨150, "dtn://y/"⟩])
      (contact_with "A" 10 20 1000 [⟨200, "dtn://y/"⟩])
      (by decide) (by decide) (by decide) (by decide)).2.2.2.2⟩

/-! ## Theorems: `contact_get_cur_remaining_capacity` -/

theorem MIN_int32_eq (a b : Int) : MIN_int32 a b = min a b := by
  unfold MIN_int32
  split <;> omega

theorem mul_div_le_of_le (total x d : Nat) (hx : x ≤ d) : total * x / d ≤ total := by
  rcases Nat.eq_zero_or_pos d with h0 | hpos
  · subst h0
    simp
  · calc total * x / d ≤ total * d / d := Nat.div_le_div_right (Nat.mul_le_mul_left _ hx)
      _ = total := Nat.mul_div_cancel _ hpos

/-- `contact_get_cur_remaining_capacity` strictly inside the contact, for a
finite total capacity whose product with the time left fits 64 bits. -/
theorem remaining_capacity_inside_finite (c : Contact) (p : Int) (t : Nat)
    (h1 : c.from_ < t) (h2 : t < c.to_) (hto : c.to_ < 2 ^ 64)
    (hfin : c.total_capacity < 2 ^ 31 - 1)
    (hov : c.total_capacity * (c.to_ - t) < 2 ^ 64) :
    contact_get_cur_remaining_capacity t c p =
      min (CONTACT_CAPACITY c p)
        ((c.total_capacity * (c.to_ - t) / (c.to_ - c.from_) : Nat) : Int) := by
  have hd1 : u64_sub c.to_ t = c.to_ - t := u64_sub_of_le (by omega) hto
  have hd2 : u64_sub c.to_ c.from_ = c.to_ - c.from_ := u64_sub_of_le (by omega) hto
  have hle : c.total_capacity * (c.to_ - t) / (c.to_ - c.from_) ≤ c.total_capacity :=
    mul_div_le_of_le _ _ _ (by omega)
  unfold contact_get_cur_remaining_capacity
  rw [if_neg (by omega), if_neg (by omega), if_neg (by unfold INT32_MAX; omega)]
  dsimp only
  rw [hd1, hd2, Nat.mod_eq_of_lt hov, MIN_int32_eq]
  generalize c.total_capacity * (c.to_ - t) / (c.to_ - c.from_) = q at hle ⊢
  rw [to_int32_of_range (by omega) (by omega), min_comm]

theorem remaining_capacity_inside_infinite (c : Contact) (p : Int) (t : Nat)
    (h1 : c.from_ < t) (h2 : t < c.to_) (hinf : 2 ^ 31 - 1 ≤ c.total_capacity) :
    contact_get_cur_remaining_capacity t c p = 2 ^ 31 - 1 := by
  unfold contact_get_cur_remaining_capacity
  rw [if_neg (by omega), if_neg (by omega), if_pos (by unfold INT32_MAX; omega)]
  rfl

theorem remaining_capacity_after (c : Contact) (p : Int) (t : Nat) (h : c.to_ ≤ t) :
    contact_get_cur_remaining_capacity t c p = 0 := by
  unfold contact_get_cur_remaining_capacity
  rw [if_pos h]

theorem remaining_capacity_before (c : Contact) (p : Int) (t : Nat)
    (h1 : t ≤ c.from_) (h2 : t < c.to_) :
    contact_get_cur_remaining_capacity t c p = CONTACT_CAPACITY c p := by
  unfold contact_get_cur_remaining_capacity
  rw [if_neg (by omega), if_pos h1]

/-- C11 (as amended): strictly inside a contact with a finite total capacity
(`total_capacity < 2^31 - 1`) whose product with the time left fits 64 bits,
`contact_get_cur_remaining_capacity` returns
`min(residual_p, floor(total_capacity * (to - t) / (to - from)))`; for a total
capacity of `2^31 - 1` or more it returns `2^31 - 1` whatever the residual. -/
theorem contact_get_cur_remaining_capacity_inside (c : Contact) (p : Int) (t : Nat)
    (h1 : c.from_ < t) (h2 : t < c.to_) (hto : c.to_ < 2 ^ 64) :
    (c.total_capacity < 2 ^ 31 - 1 → c.total_capacity * (c.to_ - t) < 2 ^ 64 →
      contact_get_cur_remaining_capacity t c p =
        min (CONTACT_CAPACITY c p)
          ((c.total_capacity * (c.to_ - t) / (c.to_ - c.from_) : Nat) : Int)) ∧
    (2 ^ 31 - 1 ≤ c.total_capacity →
      contact_get_cur_remaining_capacity t c p = 2 ^ 31 - 1) :=
  ⟨fun hfin hov => remaining_capacity_inside_finite c p t h1 h2 hto hfin hov,
   fun hinf => remaining_capacity_inside_infinite c p t h1 h2 hinf⟩

/-- C12 (as amended): for a contact with `from < to`, a residual counter that is
not negative and equals `2^31 - 1` when the total capacity is `2^31 - 1` or
more, and `total_capacity * (to - from)` fitting 64 bits,
`contact_get_cur_remaining_capacity` does not increase with the current
time. -/
theorem contact_get_cur_remaining_capacity_antitone (c : Contact) (p : Int) (t1 t2 : Nat)
    (h12 : t1 ≤ t2) (hft : c.from_ < c.to_) (hto : c.to_ < 2 ^ 64)
    (hres : 0 ≤ CONTACT_CAPACITY c p)
    (hinf : 2 ^ 31 - 1 ≤ c.total_capacity → CONTACT_CAPACITY c p = 2 ^ 31 - 1)
    (hov : c.total_capacity * (c.to_ - c.from_) < 2 ^ 64) :
    contact_get_cur_remaining_capacity t2 c p ≤ contact_get_cur_remaining_capacity t1 c p := by
  have hovt : ∀ t, c.from_ < t → c.total_capacity * (c.to_ - t) < 2 ^ 64 := fun t ht =>
    lt_of_le_of_lt (Nat.mul_le_mul_left _ (by omega)) hov
  have hnonneg : ∀ t, 0 ≤ contact_get_cur_remaining_capacity t c p := by
    intro t
    by_cases ha : c.to_ ≤ t
    · rw [remaining_capacity_after c p t ha]
    · by_cases hb : t ≤ c.from_
      · rw [remaining_capacity_before c p t hb (by omega)]
        exact hres
      · by_cases hfin : c.total_capacity < 2 ^ 31 - 1
        · rw [remaining_capacity_inside_finite c p t (by omega) (by omega) hto hfin
            (hovt t (by omega))]
          exact le_min hres (Int.ofNat_nonneg _)
        · rw [remaining_capacity_inside_infinite c p t (by omega) (by omega) (by omega)]
          norm_num
  by_cases ha : c.to_ ≤ t2
  · rw [remaining_capacity_after c p t2 ha]
    exact hnonneg t1
  · by_cases hb : t2 ≤ c.from_
    · rw [remaining_capacity_before c p t2 hb (by omega),
        remaining_capacity_before c p t1 (by omega) (by omega)]
    · by_cases hfin : c.total_capacity < 2 ^ 31 - 1
      · rw [remaining_capacity_inside_finite c p t2 (by omega) (by omega) hto hfin
          (hovt t2 (by omega))]
        by_cases hc : t1 ≤ c.from_
        · rw [remaining_capacity_before c p t1 hc (by omega)]
          exact min_le_left _ _
        · rw [remaining_capacity_inside_finite c p t1 (by omega) (by omega) hto hfin
            (hovt t1 (by omega))]
          apply min_le_min_left
          exact Int.ofNat_le.mpr
            (Nat.div_le_div_right (Nat.mul_le_mul_left _ (by omega)))
      · rw [remaining_capacity_inside_infinite c p t2 (by omega) (by omega) (by omega)]
        by_cases hc : t1 ≤ c.from_
        · rw [remaining_capacity_before c p t1 hc (by omega), hinf (by omega)]
        · rw [remaining_capacity_inside_infinite c p t1 (by omega) (by omega) (by omega)]

/-- C13: `contact_get_cur_remaining_capacity` returns 0 when the current time is
at or after `to`, and the residual counter of the priority (`p1` for priority
1, `p2` for priority 2, `p0` otherwise) when it is at or before `from` and
before `to`. -/
theorem contact_get_cur_remaining_capacity_outside (c : Contact) (p : Int) (t : Nat) :
    (c.to_ ≤ t → contact_get_cur_remaining_capacity t c p = 0) ∧
    (t ≤ c.from_ → t < c.to_ →
      contact_get_cur_remaining_capacity t c p =
        if p = 1 then c.remaining_capacity_p1
        else if p = 2 then c.remaining_capacity_p2
        else c.remaining_capacity_p0) :=
  ⟨remaining_capacity_after c p t, fun h1 h2 => remaining_capacity_before c p t h1 h2⟩

/-- C11 (counterexample to the claim as stated): a contact `[0, 10)` with the
"infinite" total capacity `2^31 - 1` and residual 5 yields `2^31 - 1` at time
5, not `min(5, ...) = 5`; and a contact `[0, 2^63 + 1)` with total capacity 2
and residual 1 yields 0 at time 1, the product `2 * 2^63` having wrapped, not
`min(1, 1) = 1`. -/
theorem contact_get_cur_remaining_capacity_not_min :
    contact_get_cur_remaining_capacity 5
        ⟨some "A", 0, 10, 1, 2147483647, 5, 5, 5, [], 0⟩ 0 = 2147483647 ∧
    min (5 : Int) ((2147483647 * (10 - 5) / (10 - 0) : Nat) : Int) = 5 ∧
    contact_get_cur_remaining_capacity 1
        ⟨some "A", 0, 2 ^ 63 + 1, 1, 2, 1, 1, 1, [], 0⟩ 0 = 0 ∧
    min (1 : Int) ((2 * (2 ^ 63 + 1 - 1) / (2 ^ 63 + 1 - 0) : Nat) : Int) = 1 := by
  decide

/-- C12 (counterexample to the claim as stated): the value rises with time for a
contact with "infinite" total capacity and residual 5 (5 at time 0,
`2^31 - 1` at time 5), for a contact with the negative residual -3 (-3 at time
5, 0 at time 11), and where the 64-bit product wraps (0, then 1 one second
later). -/
theorem contact_get_cur_remaining_capacity_rises :
    (contact_get_cur_remaining_capacity 0
        ⟨some "A", 0, 10, 1, 2147483647, 5, 5, 5, [], 0⟩ 0 = 5 ∧
      contact_get_cur_remaining_capacity 5
        ⟨some "A", 0, 10, 1, 2147483647, 5, 5, 5, [], 0⟩ 0 = 2147483647) ∧
    (contact_get_cur_remaining_capacity 5
        ⟨some "A", 0, 10, 1, 10, -3, 5, 5, [], 0⟩ 0 = -3 ∧
      contact_get_cur_remaining_capacity 11
        ⟨some "A", 0, 10, 1, 10, -3, 5, 5, [], 0⟩ 0 = 0) ∧
    (contact_get_cur_remaining_capacity (2 ^ 63 - 6148914691236517206)
        ⟨some "A", 0, 2 ^ 63, 1, 3, 100, 100, 100, [], 0⟩ 0 = 0 ∧
      contact_get_cur_remaining_capacity (2 ^ 63 - 6148914691236517205)
        ⟨some "A", 0, 2 ^ 63, 1, 3, 100, 100, 100, [], 0⟩ 0 = 1) := by
  decide

/-! ## Theorems: endpoint lists -/

theorem endpoint_list_add_loop_found (eid : Eid) (l : List Eid)
    (h : endpoint_absent eid l) : endpoint_list_add_loop eid l true = some l := by
  induction l with
  | nil => rfl
  | cons x rest ih =>
    have hx := h x (List.mem_cons_self _ _)
    have hrest : endpoint_absent eid rest := fun y hy => h y (List.mem_cons_of_mem _ hy)
    rw [endpoint_list_add_loop, if_neg hx.1, if_neg hx.2, if_neg (by simp), ih hrest]
    rfl

theorem endpoint_list_add_loop_absent (eid : Eid) (l : List Eid)
    (h : endpoint_absent eid l) :
    endpoint_list_add_loop eid l false = some (endpoint_inserted eid l) := by
  induction l with
  | nil => rfl
  | cons x rest ih =>
    have hx := h x (List.mem_cons_self _ _)
    have hrest : endpoint_absent eid rest := fun y hy => h y (List.mem_cons_of_mem _ hy)
    rw [endpoint_list_add_loop, if_neg hx.1, if_neg hx.2]
    by_cases hgt : x.ptr > eid.ptr
    · rw [if_pos ⟨hgt, rfl⟩, endpoint_list_add_loop_found eid rest hrest]
      have : ¬ x.ptr ≤ eid.ptr := by omega
      simp [endpoint_inserted, List.takeWhile_cons, List.dropWhile_cons, this]
    · rw [if_neg (by intro hc; exact hgt hc.1), ih hrest]
      have : x.ptr ≤ eid.ptr := by omega
      simp [endpoint_inserted, List.takeWhile_cons, List.dropWhile_cons, this]

theorem endpoint_list_add_loop_match (eid : Eid) (l : List Eid)
    (h : ¬ endpoint_absent eid l) (found : Bool) :
    endpoint_list_add_loop eid l found = none := by
  induction l generalizing found with
  | nil => exact absurd (fun x hx => absurd hx (List.not_mem_nil x)) h
  | cons x rest ih =>
    rw [endpoint_list_add_loop]
    by_cases hp : x.ptr = eid.ptr
    · rw [if_pos hp]
    · rw [if_neg hp]
      by_cases hs : x.str = eid.str
      · rw [if_pos hs]
      · rw [if_neg hs]
        have hrest : ¬ endpoint_absent eid rest := by
          intro hr
          apply h
          intro y hy
          rcases List.mem_cons.mp hy with rfl | hy'
          · exact ⟨hp, hs⟩
          · exact hr y hy'
        split
        · rw [ih hrest]; rfl
        · rw [ih hrest]; rfl

/-- `endpoint_list_add` in closed form. -/
theorem endpoint_list_add_eq (l : List Eid) (eid : Eid) (heap : List Bool) :
    endpoint_list_add l eid heap =
      if endpoint_absent eid l then
        if (malloc heap).1 = true then (endpoint_inserted eid l, true, (malloc heap).2)
        else (l, false, (malloc heap).2)
      else (l, false, heap) := by
  unfold endpoint_list_add
  by_cases h : endpoint_absent eid l
  · rw [endpoint_list_add_loop_absent eid l h, if_pos h]
  · rw [endpoint_list_add_loop_match eid l h, if_neg h]

theorem endpoint_inserted_perm (eid : Eid) (l : List Eid) :
    (endpoint_inserted eid l).Perm (eid :: l) := by
  unfold endpoint_inserted
  have h := List.takeWhile_append_dropWhile (fun x => decide (x.ptr ≤ eid.ptr)) l
  calc (l.takeWhile (fun x => decide (x.ptr ≤ eid.ptr)) ++
          eid :: l.dropWhile (fun x => decide (x.ptr ≤ eid.ptr))).Perm
        (eid :: (l.takeWhile (fun x => decide (x.ptr ≤ eid.ptr)) ++
          l.dropWhile (fun x => decide (x.ptr ≤ eid.ptr)))) := List.perm_middle
    _ = eid :: l := by rw [h]

theorem buffers_consistent_of_subset {l1 l2 : List Eid} (h : ∀ x ∈ l1, x ∈ l2)
    (hc : buffers_consistent l2) : buffers_consistent l1 :=
  fun x hx y hy hp => hc x (h x hx) y (h y hy) hp

theorem endpoint_list_add_subset (l : List Eid) (eid : Eid) (heap : List Bool) :
    ∀ x ∈ (endpoint_list_add l eid heap).1, x ∈ eid :: l := by
  intro x hx
  rw [endpoint_list_add_eq] at hx
  split at hx
  · split at hx
    · exact (endpoint_inserted_perm eid l).mem_iff.mp hx
    · exact List.mem_cons_of_mem _ hx
  · exact List.mem_cons_of_mem _ hx

/-- When the allocation succeeds, the strings of the list after
`endpoint_list_add` are those of the list before together with the string
offered. -/
theorem endpoint_list_add_strs (l : List Eid) (eid : Eid) {heap : List Bool}
    (hheap : all_succeed heap) (hc : buffers_consistent (eid :: l)) (s : String) :
    s ∈ (endpoint_list_add l eid heap).1.map Eid.str ↔ s ∈ l.map Eid.str ∨ s = eid.str := by
  rw [endpoint_list_add_eq]
  by_cases h : endpoint_absent eid l
  · rw [if_pos h, if_pos (malloc_all_succeed hheap).1]
    rw [((endpoint_inserted_perm eid l).map Eid.str).mem_iff]
    simp only [List.map_cons, List.mem_cons]
    tauto
  · rw [if_neg h]
    constructor
    · exact Or.inl
    · rintro (hs | hs)
      · exact hs
      · have hex : ∃ x ∈ l, x.str = eid.str := by
          unfold endpoint_absent at h
          push_neg at h
          obtain ⟨x, hx, hxe⟩ := h
          by_cases hp : x.ptr = eid.ptr
          · exact ⟨x, hx, hc x (List.mem_cons_of_mem _ hx) eid (List.mem_cons_self _ _) hp⟩
          · exact ⟨x, hx, hxe hp⟩
        obtain ⟨x, hx, hxs⟩ := hex
        rw [hs, ← hxs]
        exact List.mem_map_of_mem _ hx

theorem endpoint_list_add_nodup (l : List Eid) (eid : Eid) (heap : List Bool)
    (hn : (l.map Eid.str).Nodup) :
    ((endpoint_list_add l eid heap).1.map Eid.str).Nodup := by
  rw [endpoint_list_add_eq]
  by_cases h : endpoint_absent eid l
  · rw [if_pos h]
    split
    · rw [((endpoint_inserted_perm eid l).map Eid.str).nodup_iff, List.map_cons,
        List.nodup_cons]
      refine ⟨?_, hn⟩
      intro hmem
      obtain ⟨x, hx, hxs⟩ := List.mem_map.mp hmem
      exact (h x hx).2 hxs
    · exact hn
  · rw [if_neg h]
    exact hn

theorem endpoint_list_union_strs (a b : List Eid) {heap : List Bool} (hheap : all_succeed heap)
    (hc : buffers_consistent (a ++ b)) (s : String) :
    s ∈ (endpoint_list_union a b heap).1.map Eid.str ↔
      s ∈ a.map Eid.str ∨ s ∈ b.map Eid.str := by
  induction b generalizing a heap with
  | nil => simp [endpoint_list_union]
  | cons e rest ih =>
    rw [endpoint_list_union]
    have hsub : ∀ x ∈ (endpoint_list_add a e heap).1 ++ rest, x ∈ a ++ e :: rest := by
      intro x hx
      rcases List.mem_append.mp hx with h | h
      · rcases List.mem_cons.mp (endpoint_list_add_subset a e heap x h) with rfl | h'
        · simp
        · exact List.mem_append_left _ h'
      · exact List.mem_append_right _ (List.mem_cons_of_mem _ h)
    have hce : buffers_consistent (e :: a) :=
      buffers_consistent_of_subset (by
        intro x hx
        rcases List.mem_cons.mp hx with rfl | h
        · simp
        · exact List.mem_append_left _ h) hc
    rw [ih _ (endpoint_list_add_all_succeed a e hheap).2.2
      (buffers_consistent_of_subset hsub hc), endpoint_list_add_strs a e hheap hce]
    simp only [List.map_cons, List.mem_cons]
    tauto

theorem endpoint_list_union_nodup (a b : List Eid) (heap : List Bool)
    (hn : (a.map Eid.str).Nodup) :
    ((endpoint_list_union a b heap).1.map Eid.str).Nodup := by
  induction b generalizing a heap with
  | nil => exact hn
  | cons e rest ih =>
    rw [endpoint_list_union]
    exact ih _ _ (endpoint_list_add_nodup a e heap hn)

/-- C14 (as amended): when equal `eid` pointers mean equal strings and the
allocations succeed, the strings of `endpoint_list_union(a, b)` are exactly
those of `a` and of `b`, hence those of `endpoint_list_union(b, a)`; and,
whatever `malloc` returns, if no string occurs twice in `a`, none occurs twice
in the result. -/
theorem endpoint_list_union_set (a b : List Eid) (heap heap' : List Bool)
    (hc : buffers_consistent (a ++ b)) :
    (all_succeed heap → ∀ s, s ∈ (endpoint_list_union a b heap).1.map Eid.str ↔
      s ∈ a.map Eid.str ∨ s ∈ b.map Eid.str) ∧
    (all_succeed heap → all_succeed heap' →
      ∀ s, s ∈ (endpoint_list_union a b heap).1.map Eid.str ↔
        s ∈ (endpoint_list_union b a heap').1.map Eid.str) ∧
    ((a.map Eid.str).Nodup → ((endpoint_list_union a b heap).1.map Eid.str).Nodup) := by
  have hc2 : buffers_consistent (b ++ a) :=
    buffers_consistent_of_subset (by
      intro x hx
      rcases List.mem_append.mp hx with h | h
      · exact List.mem_append_right _ h
      · exact List.mem_append_left _ h) hc
  refine ⟨fun hheap => endpoint_list_union_strs a b hheap hc, ?_,
    endpoint_list_union_nodup a b heap⟩
  intro hheap hheap' s
  rw [endpoint_list_union_strs a b hheap hc, endpoint_list_union_strs b a hheap' hc2]
  exact Or.comm

/-- C14 (counterexample to the claim as stated): `a` is empty and `b` holds
the one string `"dtn://x/"`; when `malloc` returns `NULL` in
`endpoint_list_add` the entry is dropped and the union is empty, so the string
of `b` is not among its strings. -/
theorem endpoint_list_union_drops_on_null :
    buffers_consistent ([] ++ [(⟨100, "dtn://x/"⟩ : Eid)]) ∧
    endpoint_list_union [] [⟨100, "dtn://x/"⟩] [false] = ([], []) ∧
    "dtn://x/" ∈ [(⟨100, "dtn://x/"⟩ : Eid)].map Eid.str ∧
    "dtn://x/" ∉ (endpoint_list_union [] [⟨100, "dtn://x/"⟩] [false]).1.map Eid.str := by
  decide

/-! Order by pointer. -/

theorem endpoint_list_sorted_from_iff (last : Nat) (l : List Eid) :
    endpoint_list_sorted_from last l = true ↔
      (∀ x ∈ l, last ≤ x.ptr) ∧ l.Pairwise (fun x y => x.ptr ≤ y.ptr) := by
  induction l generalizing last with
  | nil => simp [endpoint_list_sorted_from]
  | cons x rest ih =>
    unfold endpoint_list_sorted_from
    by_cases h : x.ptr < last
    · simp only [if_pos h, Bool.false_eq_true, false_iff]
      rintro ⟨hall, _⟩
      have := hall x (List.mem_cons_self _ _)
      omega
    · simp only [if_neg h, ih, List.pairwise_cons, List.mem_cons, forall_eq_or_imp]
      constructor
      · rintro ⟨h1, h2⟩
        exact ⟨⟨by omega, fun y hy => le_trans (by omega) (h1 y hy)⟩, h1, h2⟩
      · rintro ⟨⟨_, _⟩, h3, h4⟩
        exact ⟨h3, h4⟩

theorem endpoint_list_sorted_iff (l : List Eid) :
    endpoint_list_sorted l = true ↔ l.Pairwise (fun x y => x.ptr ≤ y.ptr) := by
  unfold endpoint_list_sorted
  simp [endpoint_list_sorted_from_iff]

theorem endpoint_inserted_cons (eid x : Eid) (rest : List Eid) :
    endpoint_inserted eid (x :: rest) =
      if x.ptr ≤ eid.ptr then x :: endpoint_inserted eid rest else eid :: x :: rest := by
  unfold endpoint_inserted
  by_cases h : x.ptr ≤ eid.ptr
  · simp [List.takeWhile_cons, List.dropWhile_cons, h]
  · simp [List.takeWhile_cons, List.dropWhile_cons, h]

theorem endpoint_inserted_sorted (eid : Eid) (l : List Eid)
    (h : l.Pairwise (fun x y => x.ptr ≤ y.ptr)) :
    (endpoint_inserted eid l).Pairwise (fun x y => x.ptr ≤ y.ptr) := by
  induction l with
  | nil => simp [endpoint_inserted]
  | cons x rest ih =>
    rw [List.pairwise_cons] at h
    rw [endpoint_inserted_cons]
    split
    · rename_i hle
      rw [List.pairwise_cons]
      refine ⟨?_, ih h.2⟩
      intro y hy
      rcases List.mem_cons.mp ((endpoint_inserted_perm eid rest).mem_iff.mp hy) with rfl | hy'
      · exact hle
      · exact h.1 y hy'
    · rename_i hgt
      rw [List.pairwise_cons]
      refine ⟨?_, List.pairwise_cons.mpr h⟩
      intro y hy
      rcases List.mem_cons.mp hy with rfl | hy'
      · omega
      · have := h.1 y hy'
        omega

theorem endpoint_list_add_sorted (l : List Eid) (eid : Eid) (heap : List Bool)
    (h : l.Pairwise (fun x y => x.ptr ≤ y.ptr)) :
    (endpoint_list_add l eid heap).1.Pairwise (fun x y => x.ptr ≤ y.ptr) := by
  rw [endpoint_list_add_eq]
  split
  · split
    · exact endpoint_inserted_sorted eid l h
    · exact h
  · exact h

/-- C15 (as amended): if `a` is sorted ascending by `eid` pointer, as
`endpoint_list_sorted` checks it, then so is `endpoint_list_union(a, b)` for
every `b`, whatever `malloc` returns. -/
theorem endpoint_list_union_sorted (a b : List Eid) (heap : List Bool)
    (h : endpoint_list_sorted a = true) :
    endpoint_list_sorted (endpoint_list_union a b heap).1 = true := by
  rw [endpoint_list_sorted_iff] at h ⊢
  induction b generalizing a heap with
  | nil => exact h
  | cons e rest ih =>
    rw [endpoint_list_union]
    exact ih _ _ (endpoint_list_add_sorted a e heap h)

/-- C15 (counterexample to the claim as stated): `a` holds the string `"b"` at
address 100 and `b` holds `"a"` at address 200; the union appends the entry of
`b` behind that of `a`, so its strings are `"b", "a"`, not ascending. -/
theorem endpoint_list_union_not_sorted_by_string :
    ([(⟨100, "b"⟩ : Eid)].map Eid.str).Pairwise strcmp_le ∧
    (endpoint_list_union [⟨100, "b"⟩] [⟨200, "a"⟩] []).1.map Eid.str = ["b", "a"] ∧
    ¬ ((endpoint_list_union [⟨100, "b"⟩] [⟨200, "a"⟩] []).1.map Eid.str).Pairwise
      strcmp_le := by
  decide

/-! Difference. -/

theorem endpoint_list_remove_nodup (l : List Eid) (eid : Eid)
    (hn : (l.map Eid.str).Nodup) :
    (endpoint_list_remove l eid).1 = l.filter (fun x => decide (¬ x.str = eid.str)) := by
  induction l with
  | nil => rfl
  | cons x rest ih =>
    rw [List.map_cons, List.nodup_cons] at hn
    rw [endpoint_list_remove]
    by_cases hs : x.str = eid.str
    · rw [if_pos hs, List.filter_cons_of_neg (by simp [hs])]
      symm
      rw [List.filter_eq_self]
      intro y hy
      simp only [decide_not, Bool.not_eq_eq_eq_not, Bool.not_true, decide_eq_false_iff_not]
      intro hys
      exact hn.1 (by rw [hs, ← hys]; exact List.mem_map_of_mem _ hy)
    · rw [if_neg hs, List.filter_cons_of_pos (by simp [hs])]
      dsimp only
      rw [ih hn.2]

theorem filter_map_str_nodup (l : List Eid) (p : Eid → Bool) (hn : (l.map Eid.str).Nodup) :
    ((l.filter p).map Eid.str).Nodup :=
  hn.sublist ((List.filter_sublist l).map Eid.str)

theorem endpoint_list_difference_loop_nodup (a b : List Eid) (hn : (a.map Eid.str).Nodup) :
    endpoint_list_difference_loop a b = a.filter (fun x => decide (x.str ∉ b.map Eid.str)) := by
  induction b generalizing a with
  | nil => simp [endpoint_list_difference_loop]
  | cons e rest ih =>
    rw [endpoint_list_difference_loop, endpoint_list_remove_nodup a e hn,
      ih _ (filter_map_str_nodup a _ hn), List.filter_filter]
    apply List.filter_congr
    intro x _
    simp only [List.map_cons, List.mem_cons, not_or, decide_not, Bool.and_eq_true,
      Bool.not_eq_eq_eq_not, Bool.not_true, decide_eq_false_iff_not, decide_eq_true_eq,
      Bool.decide_and]
    rw [Bool.eq_iff_iff]
    simp only [Bool.and_eq_true, Bool.not_eq_eq_eq_not, Bool.not_true, decide_eq_false_iff_not]
    tauto

/-- C16 (as amended): for a list `a` in which no string occurs twice,
`endpoint_list_difference(a, b, free_b)` returns, for either value of `free_b`,
the entries of `a` whose string does not occur in `b`, in the order of `a`; so
no returned entry has the string of an entry of `b`. -/
theorem endpoint_list_difference_filter (a b : List Eid) (free_b : Int)
    (hn : (a.map Eid.str).Nodup) :
    (endpoint_list_difference a b free_b).1 =
      a.filter (fun x => decide (x.str ∉ b.map Eid.str)) ∧
    (∀ x ∈ (endpoint_list_difference a b free_b).1, ∀ y ∈ b, x.str ≠ y.str) := by
  have h : (endpoint_list_difference a b free_b).1 =
      a.filter (fun x => decide (x.str ∉ b.map Eid.str)) :=
    endpoint_list_difference_loop_nodup a b hn
  refine ⟨h, ?_⟩
  intro x hx y hy hxy
  rw [h] at hx
  have := (List.mem_filter.mp hx).2
  simp only [decide_not, Bool.not_eq_eq_eq_not, Bool.not_true, decide_eq_false_iff_not] at this
  exact this (by rw [hxy]; exact List.mem_map_of_mem _ hy)

/-- C16 (counterexample to the claim as stated): `a` holds the string `"x"`
twice and `b` holds it once; `endpoint_list_remove` unlinks the first match
only, and the returned list still holds an entry with the string `"x"`. -/
theorem endpoint_list_difference_keeps_duplicate :
    (endpoint_list_difference [⟨1, "x"⟩, ⟨2, "x"⟩] [⟨3, "x"⟩] 0).1 = [⟨2, "x"⟩] ∧
    (endpoint_list_difference [⟨1, "x"⟩, ⟨2, "x"⟩] [⟨3, "x"⟩] 1).1 = [⟨2, "x"⟩] := by
  decide

/-! Deduplication. -/

theorem strip_loop_strs (l : List Eid) (s : String) :
    s ∈ (strip_loop l).map Eid.str ↔ s ∈ l.map Eid.str := by
  induction l using strip_loop.induct with
  | case1 => simp [strip_loop]
  | case2 cur rest ih =>
    rw [strip_loop, List.map_cons, List.mem_cons, ih, List.map_cons, List.mem_cons]
    unfold strip_inner
    simp only [List.mem_map, List.mem_filter, decide_not, Bool.not_eq_eq_eq_not, Bool.not_true,
      decide_eq_false_iff_not]
    constructor
    · rintro (h | ⟨x, ⟨hx, _⟩, rfl⟩)
      · exact Or.inl h
      · exact Or.inr ⟨x, hx, rfl⟩
    · rintro (h | ⟨x, hx, rfl⟩)
      · exact Or.inl h
      · by_cases hc : x.str = cur.str
        · exact Or.inl hc
        · exact Or.inr ⟨x, ⟨hx, hc⟩, rfl⟩

/-- C17: `endpoint_list_strip_and_sort(el)` returns a list in which no string
occurs twice and whose strings are exactly those of `el`; it is a permutation
of the deduplicated list. -/
theorem endpoint_list_strip_and_sort_set (el : List Eid) :
    ((endpoint_list_strip_and_sort el).map Eid.str).Nodup ∧
    (∀ s, s ∈ (endpoint_list_strip_and_sort el).map Eid.str ↔ s ∈ el.map Eid.str) ∧
    (endpoint_list_strip_and_sort el).Perm (strip_loop el) := by
  have hperm := LLSORT_perm (fun e : Eid => e.ptr) (strip_loop el)
  refine ⟨endpoint_list_strip_and_sort_nodup el, ?_, hperm⟩
  intro s
  unfold endpoint_list_strip_and_sort
  rw [(hperm.map Eid.str).mem_iff, strip_loop_strs]

/-! ## Theorems: `validate_ipn_eid` -/

/-! Characters. -/

theorem is_digit_iff (c : Char) : is_digit c = true ↔ 48 ≤ c.toNat ∧ c.toNat ≤ 57 := by
  simp [is_digit]

theorem is_digit_not_space {c : Char} (h : is_digit c = true) : is_space c = false := by
  rw [is_digit_iff] at h
  simp only [is_space, Bool.or_eq_false_iff, decide_eq_false_iff_not, Bool.and_eq_false_imp,
    decide_eq_true_eq]
  omega

theorem is_digit_ne_of_toNat {c d : Char} (h : is_digit c = true)
    (hd : d.toNat < 48 ∨ 57 < d.toNat) : c ≠ d := by
  rw [is_digit_iff] at h
  rintro rfl
  omega

theorem not_is_digit_of_toNat {d : Char} (hd : d.toNat < 48 ∨ 57 < d.toNat) :
    is_digit d = false := by
  cases h : is_digit d with
  | false => rfl
  | true => rw [is_digit_iff] at h; omega

theorem deref_cons (c : Char) (l : List Char) : deref (c :: l) = c := rfl
theorem deref_nil : deref [] = NUL := rfl

/-! Splitting a string at the end of its leading digits. -/

theorem takeWhile_digits_append (D rest : List Char) (hD : ∀ c ∈ D, is_digit c = true)
    (hrest : is_digit (deref rest) = false) :
    (D ++ rest).takeWhile is_digit = D ∧ (D ++ rest).dropWhile is_digit = rest := by
  induction D with
  | nil =>
    cases rest with
    | nil => exact ⟨rfl, rfl⟩
    | cons c tl =>
      rw [deref_cons] at hrest
      simp [List.takeWhile_cons, List.dropWhile_cons, hrest]
  | cons d D ih =>
    have hd := hD d (List.mem_cons_self _ _)
    have := ih (fun c hc => hD c (List.mem_cons_of_mem _ hc))
    simp [List.takeWhile_cons, List.dropWhile_cons, hd, this.1, this.2]

theorem deref_dropWhile_not_digit (cur : List Char) :
    is_digit (deref (cur.dropWhile is_digit)) = false := by
  induction cur with
  | nil => decide
  | cons c tl ih =>
    rw [List.dropWhile_cons]
    split
    · exact ih
    · rename_i h
      rw [deref_cons]
      simpa using h

theorem mem_takeWhile_digit (cur : List Char) :
    ∀ c ∈ cur.takeWhile is_digit, is_digit c = true := by
  intro c hc
  exact (List.mem_takeWhile_imp hc)

/-! The value of a digit string. -/

theorem decimal_value_append_singleton (l : List Char) (c : Char) :
    decimal_value (l ++ [c]) = decimal_value l * 10 + (c.toNat - 48) := by
  simp [decimal_value, List.foldl_append]

/-! `strtoull` on the strings that reach it. -/

theorem strtoull_digits (D rest : List Char) (hne : D ≠ [])
    (hD : ∀ c ∈ D, is_digit c = true) (hrest : is_digit (deref rest) = false) :
    strtoull (D ++ rest) =
      if decimal_value D > ULLONG_MAX then ⟨ULLONG_MAX, rest, true⟩
      else ⟨decimal_value D, rest, false⟩ := by
  cases D with
  | nil => exact absurd rfl hne
  | cons d D' =>
    have hd := hD d (List.mem_cons_self _ _)
    have hsp : is_space d = false := is_digit_not_space hd
    have hminus : d ≠ '-' := is_digit_ne_of_toNat hd (Or.inl (by decide))
    have hplus : d ≠ '+' := is_digit_ne_of_toNat hd (Or.inl (by decide))
    have hsplit := takeWhile_digits_append (d :: D') rest hD hrest
    have hdrop : (d :: D' ++ rest).dropWhile is_space = d :: D' ++ rest := by
      simp [List.dropWhile_cons, hsp]
    unfold strtoull
    simp only [hdrop]
    have hderef : deref (d :: D' ++ rest) = d := rfl
    simp only [hderef, hminus, hplus, or_self, if_false, decide_False, hsplit.1, hsplit.2,
      reduceCtorEq, Bool.false_eq_true]

theorem strtoull_no_digit (cur : List Char) (hD : cur.takeWhile is_digit = [])
    (h : deref cur = '.' ∨ deref cur = NUL) : strtoull cur = ⟨0, cur, false⟩ := by
  have hsp : is_space (deref cur) = false := by
    rcases h with h | h <;> rw [h] <;> decide
  have hminus : deref cur ≠ '-' := by
    rcases h with h | h <;> rw [h] <;> decide
  have hplus : deref cur ≠ '+' := by
    rcases h with h | h <;> rw [h] <;> decide
  have hdrop : cur.dropWhile is_space = cur := by
    cases cur with
    | nil => rfl
    | cons c tl =>
      rw [deref_cons] at hsp
      simp [List.dropWhile_cons, hsp]
  unfold strtoull
  simp only [hdrop, hminus, hplus, or_self, if_false, hD, if_true]

theorem eq_zero_char_iff (D : List Char) (hne : D ≠ []) :
    D = ['0'] ↔ D.length = 1 ∧ deref D = '0' := by
  cases D with
  | nil => exact absurd rfl hne
  | cons d tl =>
    cases tl with
    | nil => simp [deref_cons]
    | cons e tl2 => simp

/-- `validate_ipn_ull` in closed form: it accepts exactly a leading number
followed by `'.'` or the end of the string, returns the pointer behind the
number and stores its value. -/
theorem validate_ipn_ull_eq (cur : List Char) (out : Option Nat) :
    validate_ipn_ull cur out =
      if (deref (cur.dropWhile is_digit) = '.' ∨ deref (cur.dropWhile is_digit) = NUL) ∧
          ipn_number (cur.takeWhile is_digit) then
        (some (cur.dropWhile is_digit),
          out.map (fun _ => decimal_value (cur.takeWhile is_digit)))
      else (none, out) := by
  have hcur : cur.takeWhile is_digit ++ cur.dropWhile is_digit = cur :=
    List.takeWhile_append_dropWhile is_digit cur
  have hnd := deref_dropWhile_not_digit cur
  have hdig := mem_takeWhile_digit cur
  generalize hD : cur.takeWhile is_digit = D at hcur hdig ⊢
  generalize hN : cur.dropWhile is_digit = next at hcur hnd ⊢
  unfold validate_ipn_ull
  simp only [hN]
  by_cases hterm : deref next = '.' ∨ deref next = NUL
  · have hfirst : ¬ (deref next ≠ '.' ∧ deref next ≠ NUL) := by tauto
    rw [if_neg hfirst]
    by_cases hDe : D = []
    · subst hDe
      have hcn : cur = next := by simpa using hcur.symm
      subst hcn
      rw [strtoull_no_digit cur hD hterm]
      simp [ipn_number]
    · have hst := strtoull_digits D next hDe hdig hnd
      rw [hcur] at hst
      have hlen : cur.length - next.length = D.length := by
        rw [← hcur, List.length_append]; omega
      have hderef : deref cur = deref D := by
        rw [← hcur]
        cases D with
        | nil => exact absurd rfl hDe
        | cons d tl => rfl
      rw [hst]
      by_cases hbig : decimal_value D > ULLONG_MAX
      · rw [if_pos hbig]
        have hnot : ¬ ipn_number D := by
          rintro ⟨_, _, h3, _⟩
          unfold ULLONG_MAX at hbig
          omega
        simp only [ne_eq, not_true_eq_false, if_false, and_true, if_true]
        rw [if_neg (by unfold ULLONG_MAX; intro h; omega)]
        rw [if_neg (by intro h; exact hnot h.2)]
      · rw [if_neg hbig]
        simp only [ne_eq, not_true_eq_false, if_false, Bool.false_eq_true, and_false, hlen,
          hderef]
        have hzero := eq_zero_char_iff D hDe
        by_cases hz : decimal_value D = 0 ∧ (¬ D.length = 1 ∨ ¬ deref D = '0')
        · rw [if_pos hz]
          have hnot : ¬ ipn_number D := by
            rintro ⟨_, _, _, h4⟩
            have := hzero.mp (h4 hz.1)
            tauto
          rw [if_neg (by intro h; exact hnot h.2)]
        · rw [if_neg hz]
          have hnum : ipn_number D := by
            refine ⟨hDe, hdig, ?_, ?_⟩
            · unfold ULLONG_MAX at hbig; omega
            · intro hv
              apply hzero.mpr
              by_contra hc
              exact hz ⟨hv, by tauto⟩
          rw [if_pos ⟨hterm, hnum⟩]
          have hmod : decimal_value D % 2 ^ 64 = decimal_value D :=
            Nat.mod_eq_of_lt (by unfold ULLONG_MAX at hbig; omega)
          rw [hmod]
  · have hfirst : deref next ≠ '.' ∧ deref next ≠ NUL := by tauto
    rw [if_pos hfirst, if_neg (by intro h; exact hterm h.1)]

theorem validate_ipn_ull_number (D rest : List Char) (out : Option Nat)
    (hD : ipn_number D) (hrest : deref rest = '.' ∨ deref rest = NUL) :
    validate_ipn_ull (D ++ rest) out = (some rest, out.map (fun _ => decimal_value D)) := by
  have hnd : is_digit (deref rest) = false := by
    rcases hrest with h | h <;> rw [h] <;> decide
  have hsplit := takeWhile_digits_append D rest hD.2.1 hnd
  rw [validate_ipn_ull_eq, hsplit.1, hsplit.2, if_pos ⟨hrest, hD⟩]

theorem get_eid_scheme_ipn_string (node service : List Char) :
    get_eid_scheme (ipn_string node service) = EID_SCHEME_IPN := by
  simp [get_eid_scheme, ipn_string]

theorem get_eid_scheme_ipn_iff (eid : List Char) :
    get_eid_scheme eid = EID_SCHEME_IPN ↔ ∃ tl, eid = ['i', 'p', 'n', ':'] ++ tl := by
  constructor
  · intro h
    unfold get_eid_scheme at h
    dsimp only at h
    split at h
    · exact absurd h (by decide)
    · split at h
      · rename_i h2
        refine ⟨eid.drop 4, ?_⟩
        rw [← h2.2, List.take_append_drop]
      · exact absurd h (by decide)
  · rintro ⟨tl, rfl⟩
    simp [get_eid_scheme]

/-- `validate_ipn_eid` accepts `"ipn:" D1 "." D2` for numbers `D1` and `D2` and
stores their values. -/
theorem validate_ipn_eid_numbers (D1 D2 : List Char) (node_out service_out : Option Nat)
    (h1 : ipn_number D1) (h2 : ipn_number D2) :
    validate_ipn_eid (ipn_string D1 D2) node_out service_out =
      ⟨UD3TN_OK, node_out.map (fun _ => decimal_value D1),
        service_out.map (fun _ => decimal_value D2)⟩ := by
  have hdrop : (ipn_string D1 D2).drop 4 = D1 ++ '.' :: D2 := by
    simp [ipn_string]
  have hv1 := validate_ipn_ull_number D1 ('.' :: D2) node_out h1 (Or.inl rfl)
  have hv2 := validate_ipn_ull_number D2 [] service_out h2 (Or.inr rfl)
  rw [List.append_nil] at hv2
  unfold validate_ipn_eid
  rw [if_neg (by rw [get_eid_scheme_ipn_string]; simp), hdrop]
  simp only [hv1, deref_cons, ne_eq, not_true_eq_false, if_false, List.drop_succ_cons,
    List.drop_zero, hv2, deref_nil]

/-- A string that `validate_ipn_eid` accepts is `"ipn:" D1 "." D2` for numbers
`D1` and `D2`, whose values are stored. -/
theorem validate_ipn_eid_ok (eid : List Char) (node_out service_out : Option Nat)
    (hnul : ∀ c ∈ eid, c ≠ NUL)
    (hok : (validate_ipn_eid eid node_out service_out).result = UD3TN_OK) :
    ∃ D1 D2, eid = ipn_string D1 D2 ∧ ipn_number D1 ∧ ipn_number D2 ∧
      validate_ipn_eid eid node_out service_out =
        ⟨UD3TN_OK, node_out.map (fun _ => decimal_value D1),
          service_out.map (fun _ => decimal_value D2)⟩ := by
  have hscheme : get_eid_scheme eid = EID_SCHEME_IPN := by
    by_contra hc
    unfold validate_ipn_eid at hok
    rw [if_pos hc] at hok
    cases hok
  obtain ⟨tl, rfl⟩ := (get_eid_scheme_ipn_iff eid).mp hscheme
  have hdrop : (['i', 'p', 'n', ':'] ++ tl).drop 4 = tl := by simp
  have hsplit1 := List.takeWhile_append_dropWhile is_digit tl
  unfold validate_ipn_eid at hok
  rw [if_neg (by rw [hscheme]; simp), hdrop, validate_ipn_ull_eq] at hok
  by_cases hc1 : (deref (tl.dropWhile is_digit) = '.' ∨ deref (tl.dropWhile is_digit) = NUL) ∧
      ipn_number (tl.takeWhile is_digit)
  · rw [if_pos hc1] at hok
    dsimp only at hok
    by_cases hdot : deref (tl.dropWhile is_digit) = '.'
    · rw [if_neg (not_not.mpr hdot)] at hok
      cases hnext : tl.dropWhile is_digit with
      | nil =>
        rw [hnext] at hdot
        exact absurd hdot (by decide)
      | cons c tl2 =>
        rw [hnext, deref_cons] at hdot
        subst hdot
        rw [hnext] at hok
        simp only [List.drop_succ_cons, List.drop_zero] at hok
        rw [validate_ipn_ull_eq] at hok
        by_cases hc2 : (deref (tl2.dropWhile is_digit) = '.' ∨
            deref (tl2.dropWhile is_digit) = NUL) ∧ ipn_number (tl2.takeWhile is_digit)
        · rw [if_pos hc2] at hok
          dsimp only at hok
          have hend : tl2.dropWhile is_digit = [] := by
            cases hrest : tl2.dropWhile is_digit with
            | nil => rfl
            | cons d tl3 =>
              rw [hrest, deref_cons] at hok
              by_cases hd : d = NUL
              · have hmem : d ∈ ['i', 'p', 'n', ':'] ++ tl := by
                  apply List.mem_append_right
                  rw [← hsplit1, hnext]
                  apply List.mem_append_right
                  apply List.mem_cons_of_mem
                  rw [← List.takeWhile_append_dropWhile is_digit tl2, hrest]
                  exact List.mem_append_right _ (List.mem_cons_self _ _)
                exact absurd hd (hnul d hmem)
              · rw [if_pos hd] at hok
                cases hok
          have htl2 : tl2.takeWhile is_digit = tl2 := by
            have := List.takeWhile_append_dropWhile is_digit tl2
            rw [hend, List.append_nil] at this
            exact this
          have heq : ['i', 'p', 'n', ':'] ++ tl =
              ipn_string (tl.takeWhile is_digit) (tl2.takeWhile is_digit) := by
            unfold ipn_string
            rw [htl2, ← hnext, List.append_assoc, hsplit1]
          refine ⟨tl.takeWhile is_digit, tl2.takeWhile is_digit, heq, hc1.2, hc2.2, ?_⟩
          rw [heq]
          exact validate_ipn_eid_numbers _ _ _ _ hc1.2 hc2.2
        · rw [if_neg hc2] at hok
          cases hok
    · rw [if_pos hdot] at hok
      cases hok
  · rw [if_neg hc1] at hok
    cases hok

/-! The canonical decimal rendering. -/

theorem digitChar_toNat (m : Nat) (h : m < 10) : (Nat.digitChar m).toNat = 48 + m := by
  interval_cases m <;> rfl

theorem toDigitsCore_append (fuel n : Nat) (ds : List Char) :
    Nat.toDigitsCore 10 fuel n ds = Nat.toDigitsCore 10 fuel n [] ++ ds := by
  induction fuel generalizing n ds with
  | zero => simp [Nat.toDigitsCore]
  | succ f ih =>
    simp only [Nat.toDigitsCore]
    split
    · simp
    · rw [ih (n / 10) (Nat.digitChar (n % 10) :: ds), ih (n / 10) [Nat.digitChar (n % 10)]]
      simp

theorem toDigitsCore_spec (fuel n : Nat) (h : n < fuel) :
    Nat.toDigitsCore 10 fuel n [] ≠ [] ∧
    (∀ c ∈ Nat.toDigitsCore 10 fuel n [], is_digit c = true) ∧
    decimal_value (Nat.toDigitsCore 10 fuel n []) = n := by
  induction fuel generalizing n with
  | zero => omega
  | succ f ih =>
    have hd : (Nat.digitChar (n % 10)).toNat = 48 + n % 10 :=
      digitChar_toNat _ (Nat.mod_lt _ (by norm_num))
    have hdig : is_digit (Nat.digitChar (n % 10)) = true := by
      rw [is_digit_iff, hd]
      omega
    simp only [Nat.toDigitsCore]
    split
    · rename_i h0
      refine ⟨by simp, ?_, ?_⟩
      · intro c hc
        rw [List.mem_singleton] at hc
        rw [hc]
        exact hdig
      · simp only [decimal_value, List.foldl_cons, List.foldl_nil, hd]
        omega
    · rename_i h0
      obtain ⟨_, i2, i3⟩ := ih (n / 10) (by omega)
      rw [toDigitsCore_append]
      refine ⟨by simp, ?_, ?_⟩
      · intro c hc
        rcases List.mem_append.mp hc with h1 | h1
        · exact i2 c h1
        · rw [List.mem_singleton] at h1
          rw [h1]
          exact hdig
      · rw [decimal_value_append_singleton, i3, hd]
        omega

/-- The canonical rendering of `n < 2^64` is a number that `validate_ipn_ull`
accepts, and its value is `n`. -/
theorem dec_spec (n : Nat) (h : n < 2 ^ 64) : ipn_number (dec n) ∧ decimal_value (dec n) = n := by
  obtain ⟨h1, h2, h3⟩ := toDigitsCore_spec (n + 1) n (Nat.lt_succ_self n)
  unfold dec Nat.toDigits
  refine ⟨⟨h1, h2, by rw [h3]; omega, ?_⟩, h3⟩
  intro hv
  rw [h3] at hv
  subst hv
  rfl

/-- C18: for all `n` and `s` below `2^64`, `validate_ipn_eid` applied to
`"ipn:" ++ dec(n) ++ "." ++ dec(s)`, `dec` being the canonical decimal
rendering, returns OK and stores `n` behind `node_out` and `s` behind
`service_out` (each when it is not `NULL`). -/
theorem validate_ipn_eid_round_trip (n s : Nat) (node_out service_out : Option Nat)
    (hn : n < 2 ^ 64) (hs : s < 2 ^ 64) :
    validate_ipn_eid (ipn_string (dec n) (dec s)) node_out service_out =
      ⟨UD3TN_OK, node_out.map (fun _ => n), service_out.map (fun _ => s)⟩ := by
  have h := validate_ipn_eid_numbers (dec n) (dec s) node_out service_out
    (dec_spec n hn).1 (dec_spec s hs).1
  rw [(dec_spec n hn).2, (dec_spec s hs).2] at h
  exact h

/-! Strings of zeros. -/

theorem decimal_value_zeros (k : Nat) : decimal_value (List.replicate k '0') = 0 := by
  unfold decimal_value
  induction k with
  | zero => rfl
  | succ k ih =>
    rw [List.replicate_succ, List.foldl_cons]
    exact ih

theorem not_ipn_number_zeros (k : Nat) (hk : 2 ≤ k) : ¬ ipn_number (List.replicate k '0') := by
  rintro ⟨_, _, _, h4⟩
  have h := congrArg List.length (h4 (decimal_value_zeros k))
  rw [List.length_replicate] at h
  simp at h
  omega

/-- Two splittings of a string at a character that the parts before it do not
hold are the same. -/
theorem append_cons_inj_left {c : Char} {A B X Y : List Char} (hA : c ∉ A) (hB : c ∉ B)
    (h : A ++ c :: X = B ++ c :: Y) : A = B ∧ X = Y := by
  induction A generalizing B with
  | nil =>
    cases B with
    | nil => simpa using h
    | cons b B' =>
      simp only [List.nil_append, List.cons_append, List.cons.injEq] at h
      exact absurd (h.1 ▸ List.mem_cons_self _ _) hB
  | cons a A' ih =>
    cases B with
    | nil =>
      simp only [List.nil_append, List.cons_append, List.cons.injEq] at h
      exact absurd (h.1 ▸ List.mem_cons_self _ _) hA
    | cons b B' =>
      simp only [List.cons_append, List.cons.injEq] at h
      obtain ⟨h1, h2⟩ := ih (fun hc => hA (List.mem_cons_of_mem _ hc))
        (fun hc => hB (List.mem_cons_of_mem _ hc)) h.2
      exact ⟨by rw [h.1, h1], h2⟩

theorem append_cons_inj_right {c : Char} {A B X Y : List Char} (hA : c ∉ A) (hB : c ∉ B)
    (h : X ++ c :: A = Y ++ c :: B) : A = B := by
  have hr := congrArg List.reverse h
  simp only [List.reverse_append, List.reverse_cons, List.append_assoc, List.singleton_append]
    at hr
  have := (append_cons_inj_left (by simpa using hA) (by simpa using hB) hr).1
  exact List.reverse_injective this

theorem dot_not_mem_of_digits {D : List Char} (h : ∀ c ∈ D, is_digit c = true) : '.' ∉ D := by
  intro hc
  have := h '.' hc
  exact absurd this (by decide)

theorem ipn_string_inj_left {A B X Y : List Char} (hA : '.' ∉ A) (hB : '.' ∉ B)
    (h : ipn_string A X = ipn_string B Y) : A = B := by
  unfold ipn_string at h
  rw [List.append_assoc, List.append_assoc] at h
  exact (append_cons_inj_left hA hB (List.append_cancel_left h)).1

theorem ipn_string_inj_right {A B X Y : List Char} (hA : '.' ∉ A) (hB : '.' ∉ B)
    (h : ipn_string X A = ipn_string Y B) : A = B := by
  unfold ipn_string at h
  exact append_cons_inj_right hA hB h

theorem result_cases (r : ud3tn_result) : r = UD3TN_OK ∨ r = UD3TN_FAIL := by
  cases r
  · exact Or.inl rfl
  · exact Or.inr rfl

theorem validate_eid_ipn_string (node service : List Char) :
    validate_eid (ipn_string node service) =
      (validate_ipn_eid (ipn_string node service) none none).result := by
  unfold validate_eid
  rw [get_eid_scheme_ipn_string]
  dsimp only
  rcases result_cases (validate_ipn_eid (ipn_string node service) none none).result with h | h
  · rw [h]; rfl
  · rw [h]; rfl

theorem ipn_string_nul_free (node service : List Char) (h1 : ∀ c ∈ node, c ≠ NUL)
    (h2 : ∀ c ∈ service, c ≠ NUL) : ∀ c ∈ ipn_string node service, c ≠ NUL := by
  intro c hc
  unfold ipn_string at hc
  simp only [List.mem_append, List.mem_cons, List.not_mem_nil, or_false] at hc
  rcases hc with ((h | h | h | h) | h) | h | h
  · rw [h]; decide
  · rw [h]; decide
  · rw [h]; decide
  · rw [h]; decide
  · exact h1 c h
  · rw [h]; decide
  · exact h2 c h

theorem zeros_nul_free (k : Nat) : ∀ c ∈ List.replicate k '0', c ≠ NUL := by
  intro c hc
  rw [(List.mem_replicate.mp hc).2]
  decide

theorem zeros_no_dot (k : Nat) : '.' ∉ List.replicate k '0' := by
  intro hc
  exact absurd (List.mem_replicate.mp hc).2 (by decide)

/-- C19 (as amended): `validate_ipn_eid`, and with it `validate_eid`, returns
FAIL for every string `"ipn:N.S"` in which the node part or the service part
is a string of two or more `'0'` digits, whatever the other part is. -/
theorem validate_ipn_eid_rejects_zeros (k : Nat) (other : List Char)
    (node_out service_out : Option Nat)
    (hk : 2 ≤ k) (hnul : ∀ c ∈ other, c ≠ NUL) :
    (validate_ipn_eid (ipn_string (List.replicate k '0') other) node_out service_out).result
      = UD3TN_FAIL ∧
    (validate_ipn_eid (ipn_string other (List.replicate k '0')) node_out service_out).result
      = UD3TN_FAIL ∧
    validate_eid (ipn_string (List.replicate k '0') other) = UD3TN_FAIL ∧
    validate_eid (ipn_string other (List.replicate k '0')) = UD3TN_FAIL := by
  have hleft : ∀ no so : Option Nat,
      (validate_ipn_eid (ipn_string (List.replicate k '0') other) no so).result
        = UD3TN_FAIL := by
    intro no so
    rcases result_cases
      (validate_ipn_eid (ipn_string (List.replicate k '0') other) no so).result with h | h
    · obtain ⟨D1, D2, heq, hn1, _, _⟩ := validate_ipn_eid_ok _ no so
        (ipn_string_nul_free _ _ (zeros_nul_free k) hnul) h
      have := ipn_string_inj_left (zeros_no_dot k) (dot_not_mem_of_digits hn1.2.1) heq
      rw [← this] at hn1
      exact absurd hn1 (not_ipn_number_zeros k hk)
    · exact h
  have hright : ∀ no so : Option Nat,
      (validate_ipn_eid (ipn_string other (List.replicate k '0')) no so).result
        = UD3TN_FAIL := by
    intro no so
    rcases result_cases
      (validate_ipn_eid (ipn_string other (List.replicate k '0')) no so).result with h | h
    · obtain ⟨D1, D2, heq, _, hn2, _⟩ := validate_ipn_eid_ok _ no so
        (ipn_string_nul_free _ _ hnul (zeros_nul_free k)) h
      have := ipn_string_inj_right (zeros_no_dot k) (dot_not_mem_of_digits hn2.2.1) heq
      rw [← this] at hn2
      exact absurd hn2 (not_ipn_number_zeros k hk)
    · exact h
  refine ⟨hleft _ _, hright _ _, ?_, ?_⟩
  · rw [validate_eid_ipn_string]
    exact hleft _ _
  · rw [validate_eid_ipn_string]
    exact hright _ _

/-- C19 (counterexample to the claim as stated): `"ipn:012.0"` and `"ipn:1.007"`
are accepted, with node 12 and with service 7. -/
theorem validate_ipn_eid_accepts_leading_zero :
    validate_ipn_eid "ipn:012.0".toList (some 0) (some 0) = ⟨UD3TN_OK, some 12, some 0⟩ ∧
    validate_eid "ipn:012.0".toList = UD3TN_OK ∧
    validate_ipn_eid "ipn:1.007".toList (some 0) (some 0) = ⟨UD3TN_OK, some 1, some 7⟩ ∧
    validate_eid "ipn:1.007".toList = UD3TN_OK := by
  decide

theorem validate_ipn_ull_fst (cur : List Char) (out : Option Nat) :
    (validate_ipn_ull cur out).1 = (validate_ipn_ull cur none).1 := by
  rw [validate_ipn_ull_eq, validate_ipn_ull_eq]
  split <;> rfl

/-- The result of `validate_ipn_eid` does not depend on the out-parameters. -/
theorem validate_ipn_eid_result (eid : List Char) (node_out service_out : Option Nat) :
    (validate_ipn_eid eid node_out service_out).result =
      (validate_ipn_eid eid none none).result := by
  unfold validate_ipn_eid
  by_cases hs : get_eid_scheme eid ≠ EID_SCHEME_IPN
  · rw [if_pos hs, if_pos hs]
  · rw [if_neg hs, if_neg hs]
    dsimp only
    rw [validate_ipn_ull_fst (eid.drop 4) node_out]
    cases (validate_ipn_ull (eid.drop 4) none).1 with
    | none => rfl
    | some cur =>
      dsimp only
      by_cases hd : deref cur ≠ '.'
      · rw [if_pos hd, if_pos hd]
      · rw [if_neg hd, if_neg hd, validate_ipn_ull_fst (cur.drop 1) service_out]
        cases (validate_ipn_ull (cur.drop 1) none).1 with
        | none => rfl
        | some cur2 =>
          dsimp only
          by_cases hn : deref cur2 ≠ NUL
          · rw [if_pos hn, if_pos hn]
          · rw [if_neg hn, if_neg hn]

/-- C20: a string that `validate_ipn_eid` accepts is `"ipn:" D1 "." D2` with `D1`
and `D2` non-empty strings of decimal digits whose values are at most
`2^64 - 1`; so the strings with a sign, a thousands separator, white space, an
empty number, a trailing dot, a third component or a number of `2^64` are
rejected. -/
theorem validate_ipn_eid_ok_form (eid : List Char) (node_out service_out : Option Nat)
    (hnul : ∀ c ∈ eid, c ≠ NUL)
    (hok : (validate_ipn_eid eid node_out service_out).result = UD3TN_OK) :
    (∃ D1 D2, eid = ['i', 'p', 'n', ':'] ++ D1 ++ '.' :: D2 ∧
      D1 ≠ [] ∧ D2 ≠ [] ∧
      (∀ c ∈ D1, '0' ≤ c ∧ c ≤ '9') ∧ (∀ c ∈ D2, '0' ≤ c ∧ c ≤ '9') ∧
      decimal_value D1 ≤ 2 ^ 64 - 1 ∧ decimal_value D2 ≤ 2 ^ 64 - 1) ∧
    (∀ e ∈ ["ipn:-1.0", "ipn:+1.0", "ipn:1,000.0", "ipn: 1.0", "ipn:1 .0", "ipn:.0", "ipn:1.",
        "ipn:1", "ipn:1.2.3", "ipn:18446744073709551616.0", "ipn:0.18446744073709551616"],
      (validate_ipn_eid e.toList node_out service_out).result = UD3TN_FAIL) := by
  constructor
  · obtain ⟨D1, D2, heq, h1, h2, _⟩ := validate_ipn_eid_ok eid node_out service_out hnul hok
    have hchar : ∀ D : List Char, (∀ c ∈ D, is_digit c = true) → ∀ c ∈ D, '0' ≤ c ∧ c ≤ '9' := by
      intro D hD c hc
      have := (is_digit_iff c).mp (hD c hc)
      exact ⟨Nat.le_trans (by decide : ('0' : Char).toNat ≤ 48) this.1,
        Nat.le_trans this.2 (by decide : 57 ≤ ('9' : Char).toNat)⟩
    exact ⟨D1, D2, heq, h1.1, h2.1, hchar D1 h1.2.1, hchar D2 h2.2.1, h1.2.2.1, h2.2.2.1⟩
  · intro e he
    simp only [List.mem_cons, List.mem_singleton, List.not_mem_nil, or_false] at he
    rw [validate_ipn_eid_result]
    rcases he with h | h | h | h | h | h | h | h | h | h | h <;> subst h <;> decide

/-! ## The theorems of the capacity, endpoint and EID operations at concrete inputs -/

/-- C11 at the contact `[0, 10)` with total capacity 1000 and residual 600, at
time 5. -/
theorem contact_get_cur_remaining_capacity_inside_witness :
    ((0 : Nat) < 5 ∧ (5 : Nat) < 10) ∧
    contact_get_cur_remaining_capacity 5
        ⟨some "A", 0, 10, 100, 1000, 600, 1000, 1000, [], 0⟩ 0 =
      min (600 : Int) ((1000 * (10 - 5) / (10 - 0) : Nat) : Int) :=
  ⟨by decide,
   (contact_get_cur_remaining_capacity_inside
      ⟨some "A", 0, 10, 100, 1000, 600, 1000, 1000, [], 0⟩ 0 5
      (by decide) (by decide) (by decide)).1 (by decide) (by decide)⟩

/-- C12 at the same contact, from time 2 to time 7. -/
theorem contact_get_cur_remaining_capacity_antitone_witness :
    (2 : Nat) ≤ 7 ∧
    contact_get_cur_remaining_capacity 7
        ⟨some "A", 0, 10, 100, 1000, 600, 1000, 1000, [], 0⟩ 0 ≤
      contact_get_cur_remaining_capacity 2
        ⟨some "A", 0, 10, 100, 1000, 600, 1000, 1000, [], 0⟩ 0 :=
  ⟨by decide,
   contact_get_cur_remaining_capacity_antitone
      ⟨some "A", 0, 10, 100, 1000, 600, 1000, 1000, [], 0⟩ 0 2 7
      (by decide) (by decide) (by decide) (by decide) (by decide) (by decide)⟩

/-- C13 at the contact `[0, 10)`: after its end at time 12, and before its start
at time 0 for priority 2. -/
theorem contact_get_cur_remaining_capacity_outside_witness :
    contact_get_cur_remaining_capacity 12
        ⟨some "A", 0, 10, 100, 1000, 600, 700, 800, [], 0⟩ 2 = 0 ∧
    contact_get_cur_remaining_capacity 0
        ⟨some "A", 0, 10, 100, 1000, 600, 700, 800, [], 0⟩ 2 = 800 :=
  ⟨(contact_get_cur_remaining_capacity_outside
      ⟨some "A", 0, 10, 100, 1000, 600, 700, 800, [], 0⟩ 2 12).1 (by decide),
   (contact_get_cur_remaining_capacity_outside
      ⟨some "A", 0, 10, 100, 1000, 600, 700, 800, [], 0⟩ 2 0).2 (by decide) (by decide)⟩

/-- C14 at `a = ["dtn://a/"]` and `b = ["dtn://b/", "dtn://a/"]`, the
allocation succeeding. -/
theorem endpoint_list_union_set_witness :
    buffers_consistent
      ([⟨100, "dtn://a/"⟩] ++ [⟨200, "dtn://b/"⟩, ⟨300, "dtn://a/"⟩]) ∧
    all_succeed [true] ∧
    (∀ s, s ∈ (endpoint_list_union [⟨100, "dtn://a/"⟩]
        [⟨200, "dtn://b/"⟩, ⟨300, "dtn://a/"⟩] [true]).1.map Eid.str ↔
      s ∈ ([⟨100, "dtn://a/"⟩] : List Eid).map Eid.str ∨
        s ∈ ([⟨200, "dtn://b/"⟩, ⟨300, "dtn://a/"⟩] : List Eid).map Eid.str) ∧
    ((endpoint_list_union [⟨100, "dtn://a/"⟩]
      [⟨200, "dtn://b/"⟩, ⟨300, "dtn://a/"⟩] [true]).1.map Eid.str).Nodup :=
  ⟨by decide, by decide,
   (endpoint_list_union_set [⟨100, "dtn://a/"⟩] [⟨200, "dtn://b/"⟩, ⟨300, "dtn://a/"⟩]
      [true] [] (by decide)).1 (by decide),
   (endpoint_list_union_set [⟨100, "dtn://a/"⟩] [⟨200, "dtn://b/"⟩, ⟨300, "dtn://a/"⟩]
      [true] [] (by decide)).2.2 (by decide)⟩

/-- C15 at `a` with the addresses 100 and 300 and `b` with the address 200. -/
theorem endpoint_list_union_sorted_witness :
    endpoint_list_sorted [⟨100, "b"⟩, ⟨300, "c"⟩] = true ∧
    endpoint_list_sorted
      (endpoint_list_union [⟨100, "b"⟩, ⟨300, "c"⟩] [⟨200, "a"⟩] []).1 = true :=
  ⟨by decide,
   endpoint_list_union_sorted [⟨100, "b"⟩, ⟨300, "c"⟩] [⟨200, "a"⟩] [] (by decide)⟩

/-- C16 at `a = ["x", "y"]` and `b = ["x"]`. -/
theorem endpoint_list_difference_filter_witness :
    (([⟨1, "x"⟩, ⟨2, "y"⟩] : List Eid).map Eid.str).Nodup ∧
    (endpoint_list_difference [⟨1, "x"⟩, ⟨2, "y"⟩] [⟨3, "x"⟩] 1).1 = [⟨2, "y"⟩] :=
  ⟨by decide,
   (endpoint_list_difference_filter [⟨1, "x"⟩, ⟨2, "y"⟩] [⟨3, "x"⟩] 1 (by decide)).1⟩

/-- C18 at scenario S1, `"ipn:12.0"`, and at `n = s = 2^64 - 1`. -/
theorem validate_ipn_eid_round_trip_witness :
    ((12 : Nat) < 2 ^ 64 ∧ (2 ^ 64 - 1 : Nat) < 2 ^ 64) ∧
    validate_ipn_eid "ipn:12.0".toList (some 7) (some 7) = ⟨UD3TN_OK, some 12, some 0⟩ ∧
    validate_ipn_eid (ipn_string (dec (2 ^ 64 - 1)) (dec (2 ^ 64 - 1))) (some 7) none =
      ⟨UD3TN_OK, some (2 ^ 64 - 1), none⟩ :=
  ⟨by decide,
   validate_ipn_eid_round_trip 12 0 (some 7) (some 7) (by decide) (by decide),
   validate_ipn_eid_round_trip (2 ^ 64 - 1) (2 ^ 64 - 1) (some 7) none (by decide)
     (by decide)⟩

/-- C19 at `"ipn:00.1"` and `"ipn:1.00"`. -/
theorem validate_ipn_eid_rejects_zeros_witness :
    (∀ c ∈ ['1'], c ≠ NUL) ∧
    (validate_ipn_eid "ipn:00.1".toList none none).result = UD3TN_FAIL ∧
    (validate_ipn_eid "ipn:1.00".toList none none).result = UD3TN_FAIL :=
  ⟨by decide,
   (validate_ipn_eid_rejects_zeros 2 ['1'] none none (by decide) (by decide)).1,
   (validate_ipn_eid_rejects_zeros 2 ['1'] none none (by decide) (by decide)).2.1⟩

/-- C20 at `"ipn:12.0"`. -/
theorem validate_ipn_eid_ok_form_witness :
    (validate_ipn_eid "ipn:12.0".toList none none).result = UD3TN_OK ∧
    (∃ D1 D2, "ipn:12.0".toList = ['i', 'p', 'n', ':'] ++ D1 ++ '.' :: D2 ∧
      D1 ≠ [] ∧ D2 ≠ [] ∧
      (∀ c ∈ D1, '0' ≤ c ∧ c ≤ '9') ∧ (∀ c ∈ D2, '0' ≤ c ∧ c ≤ '9') ∧
      decimal_value D1 ≤ 2 ^ 64 - 1 ∧ decimal_value D2 ≤ 2 ^ 64 - 1) :=
  ⟨by decide,
   (validate_ipn_eid_ok_form "ipn:12.0".toList none none (by decide) (by decide)).1⟩

/-! ## Theorems: `validate_eid` and `validate_local_eid` -/

theorem char_le_iff (a b : Char) : a ≤ b ↔ a.toNat ≤ b.toNat := Iff.rfl

theorem name_char_iff (c : Char) : name_char c = true ↔ node_name_char c := by
  simp only [name_char, is_alnum, is_digit, node_name_char, char_le_iff, Bool.or_eq_true,
    Bool.and_eq_true, decide_eq_true_eq]
  have hA : ('A' : Char).toNat = 65 := by decide
  have hZ : ('Z' : Char).toNat = 90 := by decide
  have ha : ('a' : Char).toNat = 97 := by decide
  have hz : ('z' : Char).toNat = 122 := by decide
  have h0 : ('0' : Char).toNat = 48 := by decide
  have h9 : ('9' : Char).toNat = 57 := by decide
  rw [hA, hZ, ha, hz, h0, h9]
  tauto

theorem validate_eid_dtn (e : List Char) (hs : get_eid_scheme e = EID_SCHEME_DTN) :
    validate_eid e =
      if e.length < 8 then UD3TN_FAIL
      else if e.length = 8 ∧ e.take 8 = ['d', 't', 'n', ':', 'n', 'o', 'n', 'e'] then UD3TN_OK
      else if e.take 6 ≠ ['d', 't', 'n', ':', '/', '/'] then UD3TN_FAIL
      else if ((e.drop 6).dropWhile name_char).length = (e.drop 6).length ∨
          deref ((e.drop 6).dropWhile name_char) ≠ '/' then UD3TN_FAIL
      else demux_loop ((e.drop 6).dropWhile name_char) := by
  unfold validate_eid
  rw [hs]
  rfl

/-- Splitting a string at the end of a leading run of characters that pass a
test. -/
theorem takeWhile_dropWhile_append (p : Char → Bool) (N : List Char) (d : Char) (D : List Char)
    (hN : ∀ c ∈ N, p c = true) (hd : p d = false) :
    (N ++ d :: D).takeWhile p = N ∧ (N ++ d :: D).dropWhile p = d :: D := by
  induction N with
  | nil => simp [List.takeWhile_cons, List.dropWhile_cons, hd]
  | cons c N ih =>
    have hc := hN c (List.mem_cons_self _ _)
    have := ih (fun x hx => hN x (List.mem_cons_of_mem _ hx))
    simp [List.takeWhile_cons, List.dropWhile_cons, hc, this.1, this.2]

theorem demux_loop_ok_iff (D : List Char) (hnul : ∀ c ∈ D, c ≠ NUL) :
    demux_loop D = UD3TN_OK ↔ ∀ c ∈ D, vchar c := by
  induction D with
  | nil => simp [demux_loop]
  | cons c D ih =>
    have hc := hnul c (List.mem_cons_self _ _)
    have := ih (fun x hx => hnul x (List.mem_cons_of_mem _ hx))
    unfold demux_loop
    rw [if_neg hc]
    by_cases hv : c.toNat < 0x21 ∨ c.toNat > 0x7E
    · rw [if_pos hv]
      simp only [List.mem_cons, forall_eq_or_imp, vchar]
      constructor
      · intro h; cases h
      · intro h; omega
    · rw [if_neg hv, this]
      simp only [List.mem_cons, forall_eq_or_imp, vchar]
      constructor
      · intro h; exact ⟨by omega, h⟩
      · intro h; exact h.2

theorem get_eid_scheme_dtn (r : List Char) :
    get_eid_scheme (['d', 't', 'n', ':'] ++ r) = EID_SCHEME_DTN := by
  simp [get_eid_scheme]

theorem validate_eid_dtn_name (N D : List Char) (hN : N ≠ [])
    (hname : ∀ c ∈ N, node_name_char c) :
    validate_eid (['d', 't', 'n', ':', '/', '/'] ++ N ++ '/' :: D) =
      demux_loop ('/' :: D) := by
  have hs : get_eid_scheme (['d', 't', 'n', ':', '/', '/'] ++ N ++ '/' :: D) = EID_SCHEME_DTN :=
    get_eid_scheme_dtn ('/' :: '/' :: (N ++ '/' :: D))
  have hsplit := takeWhile_dropWhile_append name_char N '/' D
    (fun c hc => (name_char_iff c).mpr (hname c hc)) (by decide)
  have hdrop : (['d', 't', 'n', ':', '/', '/'] ++ N ++ '/' :: D).drop 6 = N ++ '/' :: D := by
    simp
  have htake : (['d', 't', 'n', ':', '/', '/'] ++ N ++ '/' :: D).take 6 =
      ['d', 't', 'n', ':', '/', '/'] := by simp
  have htake8 : (['d', 't', 'n', ':', '/', '/'] ++ N ++ '/' :: D).take 8 ≠
      ['d', 't', 'n', ':', 'n', 'o', 'n', 'e'] := by
    simp only [List.append_assoc, List.cons_append, List.nil_append, List.take_succ_cons]
    intro h
    simp at h
  have hlen : (['d', 't', 'n', ':', '/', '/'] ++ N ++ '/' :: D).length =
      6 + N.length + (D.length + 1) := by simp; omega
  have hNlen : 0 < N.length := List.length_pos.mpr hN
  rw [validate_eid_dtn _ hs, if_neg (by omega), if_neg (fun h => htake8 h.2),
    if_neg (by rw [htake]; simp), hdrop, hsplit.2, if_neg]
  rw [deref_cons]
  simp only [List.length_cons, List.length_append, ne_eq, not_true_eq_false, or_false]
  omega


theorem get_eid_scheme_dtn_iff (e : List Char) :
    get_eid_scheme e = EID_SCHEME_DTN ↔ e.take 4 = ['d', 't', 'n', ':'] := by
  unfold get_eid_scheme
  dsimp only
  constructor
  · intro h
    split at h
    · rename_i h2; exact h2.2
    · split at h <;> cases h
  · intro h
    have hlen : e.length ≥ 4 := by
      have := congrArg List.length h
      simp only [List.length_take, List.length_cons, List.length_nil] at this
      omega
    rw [if_pos ⟨hlen, h⟩]

theorem get_eid_scheme_unknown (e : List Char) (hd : e.take 4 ≠ ['d', 't', 'n', ':'])
    (hi : e.take 4 ≠ ['i', 'p', 'n', ':']) : get_eid_scheme e = EID_SCHEME_UNKNOWN := by
  unfold get_eid_scheme
  dsimp only
  rw [if_neg (fun h => hd h.2), if_neg (fun h => hi h.2)]

/-- What an accepted string of the `dtn` scheme looks like. -/
theorem validate_eid_dtn_ok (e : List Char) (hnul : ∀ c ∈ e, c ≠ NUL)
    (hs : get_eid_scheme e = EID_SCHEME_DTN) (hok : validate_eid e = UD3TN_OK) :
    e = ['d', 't', 'n', ':', 'n', 'o', 'n', 'e'] ∨
    ∃ N D, e = ['d', 't', 'n', ':', '/', '/'] ++ N ++ '/' :: D ∧ N ≠ [] ∧
      (∀ c ∈ N, node_name_char c) ∧ ∀ c ∈ D, vchar c := by
  rw [validate_eid_dtn e hs] at hok
  by_cases h1 : e.length < 8
  · rw [if_pos h1] at hok; cases hok
  rw [if_neg h1] at hok
  by_cases h2 : e.length = 8 ∧ e.take 8 = ['d', 't', 'n', ':', 'n', 'o', 'n', 'e']
  · left
    rw [← h2.2, List.take_of_length_le (by omega)]
  rw [if_neg h2] at hok
  by_cases h3 : e.take 6 ≠ ['d', 't', 'n', ':', '/', '/']
  · rw [if_pos h3] at hok; cases hok
  rw [if_neg h3] at hok
  by_cases h4 : ((e.drop 6).dropWhile name_char).length = (e.drop 6).length ∨
      deref ((e.drop 6).dropWhile name_char) ≠ '/'
  · rw [if_pos h4] at hok; cases hok
  rw [if_neg h4] at hok
  right
  have h3 : e.take 6 = ['d', 't', 'n', ':', '/', '/'] := not_not.mp h3
  have he : e = ['d', 't', 'n', ':', '/', '/'] ++ e.drop 6 := by
    conv_lhs => rw [← List.take_append_drop 6 e, h3]
  have hrest : (e.drop 6).takeWhile name_char ++ (e.drop 6).dropWhile name_char = e.drop 6 :=
    List.takeWhile_append_dropWhile name_char (e.drop 6)
  have hmem : ∀ c ∈ (e.drop 6).takeWhile name_char, name_char c = true := by
    intro c hc
    exact (List.mem_takeWhile_imp hc)
  have hnulD : ∀ c ∈ (e.drop 6).dropWhile name_char, c ≠ NUL := by
    intro c hc
    exact hnul c (List.mem_of_mem_drop (hrest ▸ List.mem_append_right _ hc))
  generalize hNe : (e.drop 6).takeWhile name_char = N at hrest hmem
  generalize hDe : (e.drop 6).dropWhile name_char = D at hrest hok h4 hnulD
  have h4a : D.length ≠ (e.drop 6).length := fun h => h4 (Or.inl h)
  have h4b : deref D = '/' := not_not.mp (fun h => h4 (Or.inr h))
  cases D with
  | nil => exact absurd h4b (by decide)
  | cons d D' =>
    rw [deref_cons] at h4b
    subst h4b
    refine ⟨N, D', ?_, ?_, fun c hc => (name_char_iff c).mp (hmem c hc), ?_⟩
    · rw [List.append_assoc, hrest]; exact he
    · rintro rfl
      rw [List.nil_append] at hrest
      exact h4a (by rw [hrest])
    · have := (demux_loop_ok_iff _ hnulD).mp hok
      exact fun c hc => this c (List.mem_cons_of_mem _ hc)


/-- C21. For a NUL-free string `e` that begins with "dtn:", `validate_eid e`
is OK exactly when `e` is "dtn:none" or `"dtn://" ++ N ++ D` with `N` a non-empty
string over `[A-Za-z0-9._-]` and `D` a string that starts with '/' and holds
only characters in `0x21 .. 0x7E`; "dtn://host/" and "dtn:none" are accepted,
"dtn://" is rejected, and a string that begins with neither "dtn:" nor "ipn:"
is rejected. -/
theorem validate_eid_dtn_form :
    (∀ e : List Char, (∀ c ∈ e, c ≠ NUL) → e.take 4 = "dtn:".toList →
      (validate_eid e = UD3TN_OK ↔
        (e = "dtn:none".toList ∨
          ∃ N D, e = "dtn://".toList ++ N ++ D ∧ N ≠ [] ∧ (∀ c ∈ N, node_name_char c) ∧
            D.head? = some '/' ∧ ∀ c ∈ D, vchar c))) ∧
    validate_eid "dtn://host/".toList = UD3TN_OK ∧
    validate_eid "dtn:none".toList = UD3TN_OK ∧
    validate_eid "dtn://".toList = UD3TN_FAIL ∧
    (∀ e : List Char, e.take 4 ≠ "dtn:".toList → e.take 4 ≠ "ipn:".toList →
      validate_eid e = UD3TN_FAIL) := by
  refine ⟨?_, by decide, by decide, by decide, ?_⟩
  · intro e hnul hpre
    have hs : get_eid_scheme e = EID_SCHEME_DTN := (get_eid_scheme_dtn_iff e).mpr hpre
    constructor
    · intro hok
      rcases validate_eid_dtn_ok e hnul hs hok with h | ⟨N, D, he, hN, hname, hD⟩
      · exact Or.inl h
      · refine Or.inr ⟨N, '/' :: D, he, hN, hname, rfl, ?_⟩
        intro c hc
        rcases List.mem_cons.mp hc with h | h
        · rw [h]; exact ⟨by decide, by decide⟩
        · exact hD c h
    · rintro (h | ⟨N, D, he, hN, hname, hhead, hD⟩)
      · rw [h]; decide
      · cases D with
        | nil => cases hhead
        | cons d D' =>
          have hd : d = '/' := by
            simpa using hhead
          subst hd
          have hnulD : ∀ c ∈ '/' :: D', c ≠ NUL := by
            intro c hc
            apply hnul c
            rw [he]
            exact List.mem_append_right _ hc
          rw [he]
          exact (validate_eid_dtn_name N D' hN hname).trans
            ((demux_loop_ok_iff _ hnulD).mpr hD)
  · intro e hd hi
    unfold validate_eid
    rw [get_eid_scheme_unknown e hd hi]

/-! `validate_local_eid` -/

theorem append_cons_unique {c : Char} {A B X Y : List Char} (hA : c ∉ A) (hX : c ∉ X)
    (h : A ++ c :: X = B ++ c :: Y) : A = B ∧ X = Y := by
  induction A generalizing B with
  | nil =>
    cases B with
    | nil => simpa using h
    | cons b B' =>
      simp only [List.nil_append, List.cons_append, List.cons.injEq] at h
      exact absurd (h.2 ▸ List.mem_append_right _ (List.mem_cons_self _ _)) hX
  | cons a A' ih =>
    cases B with
    | nil =>
      simp only [List.nil_append, List.cons_append, List.cons.injEq] at h
      exact absurd (h.1 ▸ List.mem_cons_self _ _) hA
    | cons b B' =>
      simp only [List.cons_append, List.cons.injEq] at h
      obtain ⟨h1, h2⟩ := ih (fun hc => hA (List.mem_cons_of_mem _ hc)) h.2
      exact ⟨by rw [h.1, h1], h2⟩

theorem strchr_append (N D : List Char) (c : Char) (hN : c ∉ N) :
    strchr (N ++ c :: D) c = some (c :: D) := by
  have := takeWhile_dropWhile_append (fun x => decide (x ≠ c)) N c D
    (fun x hx => by
      have : x ≠ c := fun h => hN (h ▸ hx)
      simpa using this) (by simp)
  unfold strchr
  rw [this.2]

theorem slash_not_name {N : List Char} (hname : ∀ c ∈ N, node_name_char c) : '/' ∉ N :=
  fun h => absurd (hname '/' h) (by decide)

theorem validate_local_eid_dtn (e : List Char) (service : Nat)
    (hs : get_eid_scheme e = EID_SCHEME_DTN) (hok : validate_eid e = UD3TN_OK) :
    validate_local_eid e service =
      if e.length < 7 ∨ e.take 6 ≠ ['d', 't', 'n', ':', '/', '/'] then UD3TN_FAIL
      else
        match strchr (e.drop 6) '/' with
        | none => UD3TN_FAIL
        | some slash => if slash.length = 1 then UD3TN_OK else UD3TN_FAIL := by
  unfold validate_local_eid
  rw [if_neg (not_not.mpr hok), hs]

theorem validate_local_eid_ipn (e : List Char) (service : Nat)
    (hs : get_eid_scheme e = EID_SCHEME_IPN) (hok : validate_eid e = UD3TN_OK) :
    validate_local_eid e service =
      if (validate_ipn_eid e none (some service)).result = UD3TN_OK ∧
          (validate_ipn_eid e none (some service)).service_out = some 0 then UD3TN_OK
      else UD3TN_FAIL := by
  unfold validate_local_eid
  rw [if_neg (not_not.mpr hok), hs]

theorem validate_eid_ipn (e : List Char) (hs : get_eid_scheme e = EID_SCHEME_IPN) :
    validate_eid e = (validate_ipn_eid e none none).result := by
  unfold validate_eid
  rw [hs]
  dsimp only
  rcases result_cases (validate_ipn_eid e none none).result with h | h
  · rw [h]; rfl
  · rw [h]; rfl

theorem scheme_cases (s : eid_scheme) :
    s = EID_SCHEME_UNKNOWN ∨ s = EID_SCHEME_DTN ∨ s = EID_SCHEME_IPN := by
  cases s
  · exact Or.inl rfl
  · exact Or.inr (Or.inl rfl)
  · exact Or.inr (Or.inr rfl)

/-- C22. For a NUL-free string `e`, `validate_local_eid e` is OK exactly when
`validate_eid e` is OK and `e` is either "ipn:" node "." service with the
service number 0, or `"dtn://" ++ N ++ "/"` with `N` a node name, so that the
first '/' after the node name is the last character; "ipn:12.0" is accepted,
"ipn:12.3" is rejected, and "dtn://host/app", whose demux is not empty, is
rejected.  The outcome is the same for every initial content of the local
`service`. -/
theorem validate_local_eid_iff (e : List Char) (service : Nat) (hnul : ∀ c ∈ e, c ≠ NUL) :
    (validate_local_eid e service = UD3TN_OK ↔
      validate_eid e = UD3TN_OK ∧
        ((∃ node svc, e = ipn_string node svc ∧ decimal_value svc = 0) ∨
         (∃ N, (∀ c ∈ N, node_name_char c) ∧ e = "dtn://".toList ++ N ++ ['/']))) ∧
    validate_local_eid "ipn:12.0".toList service = UD3TN_OK ∧
    validate_local_eid "ipn:12.3".toList service = UD3TN_FAIL ∧
    validate_local_eid "dtn://host/".toList service = UD3TN_OK ∧
    validate_local_eid "dtn://host/app".toList service = UD3TN_FAIL := by
  refine ⟨?_, ?_, ?_, ?_, ?_⟩
  · constructor
    · intro h
      have hok : validate_eid e = UD3TN_OK := by
        by_contra hc
        unfold validate_local_eid at h
        rw [if_pos hc] at h
        cases h
      refine ⟨hok, ?_⟩
      rcases scheme_cases (get_eid_scheme e) with hs | hs | hs
      · unfold validate_eid at hok
        rw [hs] at hok
        cases hok
      · right
        rw [validate_local_eid_dtn e service hs hok] at h
        by_cases h1 : e.length < 7 ∨ e.take 6 ≠ ['d', 't', 'n', ':', '/', '/']
        · rw [if_pos h1] at h; cases h
        rw [if_neg h1] at h
        rcases validate_eid_dtn_ok e hnul hs hok with he | ⟨N, D, he, _, hname, _⟩
        · subst he
          exact absurd (Or.inr (by decide)) h1
        · have hdrop : e.drop 6 = N ++ '/' :: D := by
            rw [he]; simp
          rw [hdrop, strchr_append N D '/' (slash_not_name hname)] at h
          dsimp only at h
          by_cases hl : ('/' :: D).length = 1
          · have hD : D = [] := by
              cases D with
              | nil => rfl
              | cons d D' => simp at hl
            subst hD
            exact ⟨N, hname, he⟩
          · rw [if_neg hl] at h; cases h
      · left
        rw [validate_local_eid_ipn e service hs hok] at h
        by_cases h1 : (validate_ipn_eid e none (some service)).result = UD3TN_OK ∧
            (validate_ipn_eid e none (some service)).service_out = some 0
        · obtain ⟨D1, D2, he, _, _, hv⟩ := validate_ipn_eid_ok e none (some service) hnul h1.1
          have h0 := h1.2
          rw [hv] at h0
          simp only [Option.map_some', Option.some.injEq] at h0
          exact ⟨D1, D2, he, h0⟩
        · rw [if_neg h1] at h; cases h
    · rintro ⟨hok, ⟨node, svc, he, h0⟩ | ⟨N, hname, he⟩⟩
      · have hs : get_eid_scheme e = EID_SCHEME_IPN := by
          rw [he]; exact get_eid_scheme_ipn_string node svc
        have hres : (validate_ipn_eid e none (some service)).result = UD3TN_OK := by
          rw [validate_ipn_eid_result, ← validate_eid_ipn e hs]; exact hok
        obtain ⟨D1, D2, he2, hD1, hD2, hv⟩ :=
          validate_ipn_eid_ok e none (some service) hnul hres
        have heq : ipn_string D1 D2 = ipn_string node svc := he2.symm.trans he
        unfold ipn_string at heq
        rw [List.append_assoc, List.append_assoc] at heq
        have := append_cons_unique (dot_not_mem_of_digits hD1.2.1)
          (dot_not_mem_of_digits hD2.2.1) (List.append_cancel_left heq)
        rw [validate_local_eid_ipn e service hs hok, hv]
        simp only [Option.map_some', Option.some.injEq, true_and]
        rw [this.2, h0]
        rfl
      · have he2 : e = ['d', 't', 'n', ':', '/', '/'] ++ N ++ '/' :: [] := he
        have hs : get_eid_scheme e = EID_SCHEME_DTN := by
          rw [he2]; exact get_eid_scheme_dtn ('/' :: '/' :: (N ++ ['/']))
        have hlen : ¬ (e.length < 7 ∨ e.take 6 ≠ ['d', 't', 'n', ':', '/', '/']) := by
          rw [he2]
          simp
        have hdrop : e.drop 6 = N ++ '/' :: [] := by
          rw [he2]; simp
        rw [validate_local_eid_dtn e service hs hok, if_neg hlen, hdrop,
          strchr_append N [] '/' (slash_not_name hname)]
        rfl
  · have h := validate_ipn_eid_numbers "12".toList "0".toList none (some service)
      (by decide) (by decide)
    have hs : get_eid_scheme "ipn:12.0".toList = EID_SCHEME_IPN := by decide
    rw [validate_local_eid_ipn _ service hs (by decide)]
    have he : "ipn:12.0".toList = ipn_string "12".toList "0".toList := by decide
    rw [he, h]
    rfl
  · have h := validate_ipn_eid_numbers "12".toList "3".toList none (some service)
      (by decide) (by decide)
    have hs : get_eid_scheme "ipn:12.3".toList = EID_SCHEME_IPN := by decide
    rw [validate_local_eid_ipn _ service hs (by decide)]
    have he : "ipn:12.3".toList = ipn_string "12".toList "3".toList := by decide
    rw [he, h]
    rfl
  · rw [validate_local_eid_dtn _ service (by decide) (by decide)]
    decide
  · rw [validate_local_eid_dtn _ service (by decide) (by decide)]
    decide

/-! ## Theorems: what `validate_ipn_eid` writes -/

/-- The cells behind the out-parameters after `validate_ipn_eid`, case by
case. -/
theorem validate_ipn_eid_eq (e : List Char) (node_out service_out : Option Nat) :
    validate_ipn_eid e node_out service_out =
      if get_eid_scheme e ≠ EID_SCHEME_IPN then ⟨UD3TN_FAIL, node_out, service_out⟩
      else if ¬ ((deref ((e.drop 4).dropWhile is_digit) = '.' ∨
            deref ((e.drop 4).dropWhile is_digit) = NUL) ∧
          ipn_number ((e.drop 4).takeWhile is_digit)) then
        ⟨UD3TN_FAIL, node_out, service_out⟩
      else if deref ((e.drop 4).dropWhile is_digit) ≠ '.' then
        ⟨UD3TN_FAIL, node_out.map (fun _ => decimal_value ((e.drop 4).takeWhile is_digit)),
          service_out⟩
      else if ¬ ((deref ((((e.drop 4).dropWhile is_digit).drop 1).dropWhile is_digit) = '.' ∨
            deref ((((e.drop 4).dropWhile is_digit).drop 1).dropWhile is_digit) = NUL) ∧
          ipn_number ((((e.drop 4).dropWhile is_digit).drop 1).takeWhile is_digit)) then
        ⟨UD3TN_FAIL, node_out.map (fun _ => decimal_value ((e.drop 4).takeWhile is_digit)),
          service_out⟩
      else
        ⟨if deref ((((e.drop 4).dropWhile is_digit).drop 1).dropWhile is_digit) ≠ NUL
            then UD3TN_FAIL else UD3TN_OK,
          node_out.map (fun _ => decimal_value ((e.drop 4).takeWhile is_digit)),
          service_out.map (fun _ =>
            decimal_value ((((e.drop 4).dropWhile is_digit).drop 1).takeWhile is_digit))⟩ := by
  unfold validate_ipn_eid
  by_cases hs : get_eid_scheme e ≠ EID_SCHEME_IPN
  · rw [if_pos hs, if_pos hs]
  rw [if_neg hs, if_neg hs]
  dsimp only
  rw [validate_ipn_ull_eq]
  by_cases h1 : (deref ((e.drop 4).dropWhile is_digit) = '.' ∨
      deref ((e.drop 4).dropWhile is_digit) = NUL) ∧ ipn_number ((e.drop 4).takeWhile is_digit)
  · rw [if_pos h1, if_neg (not_not.mpr h1)]
    dsimp only
    by_cases h2 : deref ((e.drop 4).dropWhile is_digit) ≠ '.'
    · rw [if_pos h2, if_pos h2]
    rw [if_neg h2, if_neg h2, validate_ipn_ull_eq]
    by_cases h3 : (deref ((((e.drop 4).dropWhile is_digit).drop 1).dropWhile is_digit) = '.' ∨
        deref ((((e.drop 4).dropWhile is_digit).drop 1).dropWhile is_digit) = NUL) ∧
        ipn_number ((((e.drop 4).dropWhile is_digit).drop 1).takeWhile is_digit)
    · rw [if_pos h3, if_neg (not_not.mpr h3)]
      dsimp only
      by_cases h4 : deref ((((e.drop 4).dropWhile is_digit).drop 1).dropWhile is_digit) ≠ NUL
      · rw [if_pos h4, if_pos h4]
      · rw [if_neg h4, if_neg h4]
    · rw [if_neg h3, if_pos h3]
  · rw [if_neg h1, if_pos h1]


theorem deref_eq_nul_iff {l : List Char} (hnul : ∀ c ∈ l, c ≠ NUL) : deref l = NUL ↔ l = [] := by
  cases l with
  | nil => simp [deref_nil]
  | cons c tl =>
    rw [deref_cons]
    simp only [reduceCtorEq, iff_false]
    exact hnul c (List.mem_cons_self _ _)

theorem deref_eq_dot_iff (l : List Char) : deref l = '.' ↔ ∃ tl, l = '.' :: tl := by
  cases l with
  | nil => 
    rw [deref_nil]
    simp only [reduceCtorEq, exists_false, iff_false]
    decide
  | cons c tl =>
    rw [deref_cons]
    simp

theorem get_eid_scheme_ipn (r : List Char) :
    get_eid_scheme (['i', 'p', 'n', ':'] ++ r) = EID_SCHEME_IPN := by
  simp [get_eid_scheme]

theorem not_digit_of_end {rest : List Char} (h : rest = [] ∨ deref rest = '.') :
    is_digit (deref rest) = false := by
  rcases h with h | h
  · rw [h]; decide
  · rw [h]; decide

/-- C23 as amended. When `validate_ipn_eid` returns FAIL on a NUL-free string
`e`: the cell behind `node_out` holds the number `n` when `e` is "ipn:" followed
by a valid number `n` and then the end of the string or a '.', and is unchanged
otherwise; the cell behind `service_out` holds the number `s` when `e` is
"ipn:" n "." s "." and more with valid numbers `n` and `s`, and is unchanged
otherwise.  A `NULL` out-parameter (`none`) stays `none`. -/
theorem validate_ipn_eid_fail_outputs (e : List Char) (node_out service_out : Option Nat)
    (hnul : ∀ c ∈ e, c ≠ NUL)
    (hfail : (validate_ipn_eid e node_out service_out).result = UD3TN_FAIL) :
    ((∀ n rest, e = "ipn:".toList ++ n ++ rest → ipn_number n →
        (rest = [] ∨ deref rest = '.') →
        (validate_ipn_eid e node_out service_out).node_out =
          node_out.map (fun _ => decimal_value n)) ∧
      ((¬ ∃ n rest, e = "ipn:".toList ++ n ++ rest ∧ ipn_number n ∧
          (rest = [] ∨ deref rest = '.')) →
        (validate_ipn_eid e node_out service_out).node_out = node_out)) ∧
    ((∀ n s rest, e = ipn_string n (s ++ '.' :: rest) → ipn_number n → ipn_number s →
        (validate_ipn_eid e node_out service_out).service_out =
          service_out.map (fun _ => decimal_value s)) ∧
      ((¬ ∃ n s rest, e = ipn_string n (s ++ '.' :: rest) ∧ ipn_number n ∧ ipn_number s) →
        (validate_ipn_eid e node_out service_out).service_out = service_out)) := by
  have heq := validate_ipn_eid_eq e node_out service_out
  have hsplit := List.takeWhile_append_dropWhile is_digit (e.drop 4)
  have hsplit2 := List.takeWhile_append_dropWhile is_digit
    (((e.drop 4).dropWhile is_digit).drop 1)
  refine ⟨⟨?_, ?_⟩, ?_, ?_⟩
  · intro n rest he hn hrest
    have he2 : e = ['i', 'p', 'n', ':'] ++ (n ++ rest) := by
      rw [he, List.append_assoc]; rfl
    have hs : get_eid_scheme e = EID_SCHEME_IPN := by
      rw [he2]; exact get_eid_scheme_ipn _
    have hdrop : e.drop 4 = n ++ rest := by
      rw [he2]; rfl
    have hsp := takeWhile_digits_append n rest hn.2.1 (not_digit_of_end hrest)
    have hcond : (deref rest = '.' ∨ deref rest = NUL) ∧ ipn_number n := by
      refine ⟨?_, hn⟩
      rcases hrest with h | h
      · right; rw [h]; rfl
      · left; exact h
    rw [heq, if_neg (not_not.mpr hs), hdrop, hsp.1, hsp.2, if_neg (not_not.mpr hcond)]
    split
    · rfl
    · split <;> rfl
  · intro hno
    rw [heq]
    by_cases hs : get_eid_scheme e ≠ EID_SCHEME_IPN
    · rw [if_pos hs]
    rw [if_neg hs]
    by_cases h1 : (deref ((e.drop 4).dropWhile is_digit) = '.' ∨
        deref ((e.drop 4).dropWhile is_digit) = NUL) ∧ ipn_number ((e.drop 4).takeWhile is_digit)
    · exfalso
      apply hno
      obtain ⟨tl, htl⟩ := (get_eid_scheme_ipn_iff e).mp (not_not.mp hs)
      have hdrop : e.drop 4 = tl := by rw [htl]; rfl
      refine ⟨(e.drop 4).takeWhile is_digit, (e.drop 4).dropWhile is_digit, ?_, h1.2, ?_⟩
      · rw [List.append_assoc, hsplit, hdrop]; exact htl
      · rcases h1.1 with h | h
        · exact Or.inr h
        · left
          refine (deref_eq_nul_iff ?_).mp h
          intro c hc
          exact hnul c (List.mem_of_mem_drop (hsplit ▸ List.mem_append_right _ hc))
    · rw [if_pos h1]
  · intro n s rest he hn hs2
    have hs : get_eid_scheme e = EID_SCHEME_IPN := by
      rw [he]; exact get_eid_scheme_ipn_string _ _
    have hdrop : e.drop 4 = n ++ '.' :: (s ++ '.' :: rest) := by
      rw [he]; simp [ipn_string]
    have hdot : ∀ l : List Char, is_digit (deref ('.' :: l)) = false := fun l => by
      rw [deref_cons]; decide
    have hsp := takeWhile_digits_append n ('.' :: (s ++ '.' :: rest)) hn.2.1 (hdot _)
    have hsp2 := takeWhile_digits_append s ('.' :: rest) hs2.2.1 (hdot _)
    have hc1 : (deref ('.' :: (s ++ '.' :: rest)) = '.' ∨
        deref ('.' :: (s ++ '.' :: rest)) = NUL) ∧ ipn_number n := ⟨Or.inl rfl, hn⟩
    have hc2 : deref ('.' :: (s ++ '.' :: rest)) = '.' := rfl
    have hc3 : (deref ('.' :: rest) = '.' ∨ deref ('.' :: rest) = NUL) ∧ ipn_number s :=
      ⟨Or.inl rfl, hs2⟩
    rw [heq, if_neg (not_not.mpr hs), hdrop, hsp.1, hsp.2,
      if_neg (not_not.mpr hc1), if_neg (not_not.mpr hc2)]
    simp only [List.drop_succ_cons, List.drop_zero, hsp2.1, hsp2.2]
    rw [if_neg (not_not.mpr hc3)]
  · intro hno
    rw [heq] at hfail ⊢
    by_cases hs : get_eid_scheme e ≠ EID_SCHEME_IPN
    · rw [if_pos hs]
    rw [if_neg hs] at hfail ⊢
    by_cases h1 : (deref ((e.drop 4).dropWhile is_digit) = '.' ∨
        deref ((e.drop 4).dropWhile is_digit) = NUL) ∧ ipn_number ((e.drop 4).takeWhile is_digit)
    swap
    · rw [if_pos h1]
    rw [if_neg (not_not.mpr h1)] at hfail ⊢
    by_cases h2 : deref ((e.drop 4).dropWhile is_digit) ≠ '.'
    · rw [if_pos h2]
    rw [if_neg h2] at hfail ⊢
    by_cases h3 : (deref ((((e.drop 4).dropWhile is_digit).drop 1).dropWhile is_digit) = '.' ∨
        deref ((((e.drop 4).dropWhile is_digit).drop 1).dropWhile is_digit) = NUL) ∧
        ipn_number ((((e.drop 4).dropWhile is_digit).drop 1).takeWhile is_digit)
    swap
    · rw [if_pos h3]
    rw [if_neg (not_not.mpr h3)] at hfail
    dsimp only at hfail
    exfalso
    apply hno
    have h4 : deref ((((e.drop 4).dropWhile is_digit).drop 1).dropWhile is_digit) = '.' := by
      rcases h3.1 with h | h
      · exact h
      · rw [if_neg (not_not.mpr h)] at hfail; cases hfail
    obtain ⟨tl, htl⟩ := (get_eid_scheme_ipn_iff e).mp (not_not.mp hs)
    obtain ⟨r1, hr1⟩ := (deref_eq_dot_iff _).mp (not_not.mp h2)
    obtain ⟨r2, hr2⟩ := (deref_eq_dot_iff _).mp h4
    have hdrop : e.drop 4 = tl := by rw [htl]; rfl
    refine ⟨(e.drop 4).takeWhile is_digit,
      (((e.drop 4).dropWhile is_digit).drop 1).takeWhile is_digit, r2, ?_, h1.2, h3.2⟩
    have hd1 : ((e.drop 4).dropWhile is_digit).drop 1 = r1 := by rw [hr1]; rfl
    rw [← hr2, hsplit2, hd1]
    unfold ipn_string
    rw [← hr1, List.append_assoc, hsplit, hdrop]
    exact htl

/-- C23 as stated fails: on "ipn:12" the call returns FAIL and has written 12
behind `node_out`; on "ipn:1.2.3" it returns FAIL and has written both cells. -/
theorem validate_ipn_eid_writes_on_fail :
    ¬ ∀ (e : List Char) (node_out service_out : Option Nat),
      (validate_ipn_eid e node_out service_out).result = UD3TN_FAIL →
      (validate_ipn_eid e node_out service_out).node_out = node_out ∧
      (validate_ipn_eid e node_out service_out).service_out = service_out := by
  intro h
  have := h "ipn:12".toList (some 7) (some 9) (by decide)
  exact absurd this.1 (by decide)

/-! ## Theorems: the agent manager -/

/-! Searching the list of agents. -/

theorem agent_search_ptr_none_iff (l : List agent) (s : List Char) :
    agent_search_ptr l s = none ↔ ∀ a ∈ l, a.sink_identifier ≠ s := by
  induction l with
  | nil => simp [agent_search_ptr]
  | cons a next ih =>
    unfold agent_search_ptr
    by_cases h : a.sink_identifier = s
    · rw [if_pos h]
      simp [h]
    · rw [if_neg h]
      simp only [Option.map_eq_none', ih, List.mem_cons, forall_eq_or_imp]
      exact ⟨fun hn => ⟨h, hn⟩, fun hn => hn.2⟩

theorem agent_search_ptr_some (l : List agent) (s : List Char) (i : Nat)
    (h : agent_search_ptr l s = some i) :
    ∃ l1 a l2, l = l1 ++ a :: l2 ∧ l1.length = i ∧ a.sink_identifier = s ∧
      ∀ b ∈ l1, b.sink_identifier ≠ s := by
  induction l generalizing i with
  | nil => simp [agent_search_ptr] at h
  | cons a next ih =>
    unfold agent_search_ptr at h
    by_cases hs : a.sink_identifier = s
    · rw [if_pos hs] at h
      cases h
      exact ⟨[], a, next, rfl, rfl, hs, fun b hb => by cases hb⟩
    · rw [if_neg hs] at h
      cases hn : agent_search_ptr next s with
      | none => rw [hn] at h; cases h
      | some j =>
        rw [hn] at h
        cases h
        obtain ⟨l1, b, l2, hl, hlen, hb, hl1⟩ := ih j hn
        refine ⟨a :: l1, b, l2, by rw [hl]; rfl, by rw [List.length_cons, hlen], hb, ?_⟩
        intro c hc
        rcases List.mem_cons.mp hc with h1 | h1
        · rw [h1]; exact hs
        · exact hl1 c h1

theorem agent_search_ptr_split (l1 l2 : List agent) (a : agent)
    (hl1 : ∀ b ∈ l1, b.sink_identifier ≠ a.sink_identifier) :
    agent_search_ptr (l1 ++ a :: l2) a.sink_identifier = some l1.length := by
  induction l1 with
  | nil => simp [agent_search_ptr]
  | cons b l1 ih =>
    have hb := hl1 b (List.mem_cons_self _ _)
    have := ih (fun c hc => hl1 c (List.mem_cons_of_mem _ hc))
    rw [List.cons_append, agent_search_ptr, if_neg hb, this]
    rfl

theorem agent_search_none_iff (l : List agent) (s : List Char) :
    agent_search l s = none ↔ ∀ a ∈ l, a.sink_identifier ≠ s := by
  rw [← agent_search_ptr_none_iff]
  unfold agent_search
  cases h : agent_search_ptr l s with
  | none => simp
  | some i =>
    obtain ⟨l1, a, l2, hl, hlen, _, _⟩ := agent_search_ptr_some l s i h
    simp only [reduceCtorEq, iff_false]
    rw [hl, ← hlen]
    simp

theorem agent_search_split (l1 l2 : List agent) (a : agent)
    (hl1 : ∀ b ∈ l1, b.sink_identifier ≠ a.sink_identifier) :
    agent_search (l1 ++ a :: l2) a.sink_identifier = some a := by
  unfold agent_search
  rw [agent_search_ptr_split l1 l2 a hl1]
  dsimp only
  rw [List.getElem?_append_right (Nat.le_refl _)]
  simp

theorem agent_search_some (l : List agent) (s : List Char) (a : agent)
    (h : agent_search l s = some a) :
    ∃ l1 l2, l = l1 ++ a :: l2 ∧ a.sink_identifier = s ∧ ∀ b ∈ l1, b.sink_identifier ≠ s := by
  unfold agent_search at h
  cases hp : agent_search_ptr l s with
  | none => rw [hp] at h; cases h
  | some i =>
    rw [hp] at h
    obtain ⟨l1, b, l2, hl, hlen, hb, hl1⟩ := agent_search_ptr_some l s i hp
    dsimp only at h
    rw [hl, ← hlen] at h
    simp only [List.length_append, List.getElem?_append_right (Nat.le_refl _), Nat.sub_self,
      List.getElem?_cons_zero, Option.some.injEq] at h
    subst h
    exact ⟨l1, l2, hl, hb, hl1⟩

/-- In a list without two equal sink identifiers, the search finds every
agent of the list under its sink identifier. -/
theorem agent_search_of_mem (l : List agent) (a : agent)
    (hnd : (l.map (fun x => x.sink_identifier)).Nodup) (ha : a ∈ l) :
    agent_search l a.sink_identifier = some a := by
  obtain ⟨l1, l2, rfl⟩ := List.append_of_mem ha
  apply agent_search_split
  intro b hb heq
  rw [List.map_append, List.map_cons] at hnd
  have := (List.nodup_append.mp hnd).2.2
  exact this (List.mem_map_of_mem _ hb) (heq ▸ List.mem_cons_self _ _)

/-! Adding and removing a link. -/

theorem add_entry_loop_eq (obj : agent) (l : List agent) : add_entry_loop obj l = l ++ [obj] := by
  induction l with
  | nil => rfl
  | cons a l ih => rw [add_entry_loop, ih]; rfl

theorem agent_list_add_entry_absent (l : List agent) (obj : agent)
    (h : ∀ a ∈ l, a.sink_identifier ≠ obj.sink_identifier) :
    agent_list_add_entry l obj = (0, l ++ [obj]) := by
  unfold agent_list_add_entry
  rw [(agent_search_none_iff l obj.sink_identifier).mpr h]
  cases l with
  | nil => rfl
  | cons a l => simp [add_entry_loop_eq]

theorem agent_list_remove_entry_split (l1 l2 : List agent) (a : agent)
    (hl1 : ∀ b ∈ l1, b.sink_identifier ≠ a.sink_identifier) :
    agent_list_remove_entry (l1 ++ a :: l2) a = (0, l1 ++ l2) := by
  unfold agent_list_remove_entry
  rw [agent_search_ptr_split l1 l2 a hl1]
  dsimp only
  rw [if_neg (by simp)]
  congr 1
  induction l1 with
  | nil => rfl
  | cons b l1 ih =>
    simp only [List.cons_append, List.length_cons, List.eraseIdx_cons_succ]
    rw [ih (fun c hc => hl1 c (List.mem_cons_of_mem _ hc))]

/-! The three operations, case by case. -/

theorem agent_register_present (ext : SinkChecks) (st : agent_manager) (s : List Char)
    (cb : Option Nat) (p : Nat) (malloc_ok : Bool)
    (h : ∃ a ∈ st.agent_entry_node, a.sink_identifier = s) :
    agent_register ext st s cb p malloc_ok = (-1, st) := by
  have hsome : (agent_search st.agent_entry_node s).isSome = true := by
    cases hs : agent_search st.agent_entry_node s with
    | none =>
      obtain ⟨a, ha, has⟩ := h
      exact absurd has ((agent_search_none_iff _ _).mp hs a ha)
    | some a => rfl
  unfold agent_register
  by_cases hv : sink_identifier_valid ext st.local_eid s = false
  · rw [if_pos hv]
  · rw [if_neg hv, if_pos hsome]

theorem agent_register_absent (ext : SinkChecks) (st : agent_manager) (s : List Char)
    (cb : Option Nat) (p : Nat)
    (hv : sink_identifier_valid ext st.local_eid s = true)
    (h : ∀ a ∈ st.agent_entry_node, a.sink_identifier ≠ s) :
    agent_register ext st s cb p true =
      (0, { st with agent_entry_node := st.agent_entry_node ++ [⟨s, cb, p⟩] }) := by
  unfold agent_register
  rw [if_neg (by rw [hv]; simp), (agent_search_none_iff _ _).mpr h]
  simp only [Option.isSome_none, Bool.false_eq_true, if_false]
  rw [agent_list_add_entry_absent _ ⟨s, cb, p⟩ h]
  rfl

theorem agent_register_cases (ext : SinkChecks) (st : agent_manager) (s : List Char)
    (cb : Option Nat) (p : Nat) (malloc_ok : Bool) :
    agent_register ext st s cb p malloc_ok = (-1, st) ∨
    ((∀ a ∈ st.agent_entry_node, a.sink_identifier ≠ s) ∧
      agent_register ext st s cb p malloc_ok =
        (0, { st with agent_entry_node := st.agent_entry_node ++ [⟨s, cb, p⟩] })) := by
  by_cases hv : sink_identifier_valid ext st.local_eid s = false
  · left; unfold agent_register; rw [if_pos hv]
  by_cases hp : ∃ a ∈ st.agent_entry_node, a.sink_identifier = s
  · left; exact agent_register_present ext st s cb p malloc_ok hp
  cases malloc_ok with
  | false =>
    left
    unfold agent_register
    rw [if_neg hv]
    split
    · rfl
    · rfl
  | true =>
    right
    have hab : ∀ a ∈ st.agent_entry_node, a.sink_identifier ≠ s :=
      fun a ha has => hp ⟨a, ha, has⟩
    exact ⟨hab, agent_register_absent ext st s cb p (by simpa using hv) hab⟩

theorem agent_deregister_split (st : agent_manager) (l1 l2 : List agent) (a : agent)
    (hl : st.agent_entry_node = l1 ++ a :: l2)
    (hl1 : ∀ b ∈ l1, b.sink_identifier ≠ a.sink_identifier) :
    agent_deregister st a.sink_identifier = (0, { st with agent_entry_node := l1 ++ l2 }) := by
  unfold agent_deregister
  rw [hl, agent_search_split l1 l2 a hl1]
  dsimp only
  rw [agent_list_remove_entry_split l1 l2 a hl1]
  rfl

theorem agent_deregister_absent (st : agent_manager) (s : List Char)
    (h : ∀ a ∈ st.agent_entry_node, a.sink_identifier ≠ s) :
    agent_deregister st s = (-1, st) := by
  unfold agent_deregister
  rw [(agent_search_none_iff _ _).mpr h]

/-! No sink identifier twice. -/

theorem agent_register_nodup (ext : SinkChecks) (st : agent_manager) (s : List Char)
    (cb : Option Nat) (p : Nat) (malloc_ok : Bool)
    (hnd : (st.agent_entry_node.map (fun x => x.sink_identifier)).Nodup) :
    ((agent_register ext st s cb p malloc_ok).2.agent_entry_node.map
      (fun x => x.sink_identifier)).Nodup := by
  rcases agent_register_cases ext st s cb p malloc_ok with h | ⟨hab, h⟩
  · rw [h]; exact hnd
  · rw [h]
    simp only [List.map_append, List.map_cons, List.map_nil]
    refine List.Nodup.append hnd (List.nodup_singleton _) ?_
    intro x hx hx2
    rw [List.mem_singleton] at hx2
    obtain ⟨a, ha, rfl⟩ := List.mem_map.mp hx
    exact hab a ha hx2

theorem agent_deregister_nodup (st : agent_manager) (s : List Char)
    (hnd : (st.agent_entry_node.map (fun x => x.sink_identifier)).Nodup) :
    ((agent_deregister st s).2.agent_entry_node.map (fun x => x.sink_identifier)).Nodup := by
  cases hs : agent_search st.agent_entry_node s with
  | none =>
    rw [agent_deregister_absent st s ((agent_search_none_iff _ _).mp hs)]
    exact hnd
  | some a =>
    obtain ⟨l1, l2, hl, has, hl1⟩ := agent_search_some _ _ _ hs
    subst has
    rw [agent_deregister_split st l1 l2 a hl hl1]
    rw [hl] at hnd
    refine List.Nodup.sublist ?_ hnd
    exact List.Sublist.map _ (List.Sublist.append_left (List.sublist_cons_self a l2) l1)

theorem agent_forward_state (st : agent_manager) (s : List Char) (data : bundle_adu)
    (ctx : Nat) : (agent_forward st s data ctx).state = st := by
  unfold agent_forward
  split
  · rfl
  · split <;> rfl

theorem agent_manager_step_nodup (ext : SinkChecks) (st : agent_manager) (call : AgentCall)
    (hnd : (st.agent_entry_node.map (fun x => x.sink_identifier)).Nodup) :
    ((agent_manager_step ext st call).agent_entry_node.map
      (fun x => x.sink_identifier)).Nodup := by
  cases call with
  | init e => exact hnd
  | register s cb p m => exact agent_register_nodup ext st s cb p m hnd
  | deregister s => exact agent_deregister_nodup st s hnd
  | forward s d c =>
    show ((agent_forward st s d c).state.agent_entry_node.map _).Nodup
    rw [agent_forward_state]; exact hnd

theorem agent_manager_run_nodup (ext : SinkChecks) (calls : List AgentCall) :
    ((agent_manager_run ext calls).agent_entry_node.map (fun x => x.sink_identifier)).Nodup := by
  unfold agent_manager_run
  have hgen : ∀ (cs : List AgentCall) (st : agent_manager),
      (st.agent_entry_node.map (fun x => x.sink_identifier)).Nodup →
      ((cs.foldl (agent_manager_step ext) st).agent_entry_node.map
        (fun x => x.sink_identifier)).Nodup := by
    intro cs
    induction cs with
    | nil => intro st h; exact h
    | cons c cs ih =>
      intro st h
      exact ih _ (agent_manager_step_nodup ext st c h)
  exact hgen calls agent_manager_start List.nodup_nil


/-- C24. When an agent with sink identifier `s` is registered,
`agent_register(s, cb, p)` returns -1 for every callback and parameter, whether
or not the sink identifier passes the check and memory is available, and the
registry is the same afterwards. -/
theorem agent_register_duplicate (ext : SinkChecks) (st : agent_manager) (s : List Char)
    (cb : Option Nat) (p : Nat) (malloc_ok : Bool)
    (h : ∃ a ∈ st.agent_entry_node, a.sink_identifier = s) :
    (agent_register ext st s cb p malloc_ok).1 = -1 ∧
    (agent_register ext st s cb p malloc_ok).2 = st := by
  rw [agent_register_present ext st s cb p malloc_ok h]
  exact ⟨rfl, rfl⟩

/-- C25. In a state reached from program start in which sink `s` is registered
and passes the check against the local scheme: `agent_deregister(s)` returns 0
and takes exactly one agent, the one with sink `s`, out of the list, keeping
the others in order; the following `agent_register(s, cb, p)` with memory
available returns 0, and then `agent_search(s)` yields the agent with `cb` and
`p`. -/
theorem agent_deregister_then_register (ext : SinkChecks) (calls : List AgentCall)
    (st : agent_manager) (hst : st = agent_manager_run ext calls)
    (s : List Char) (cb : Option Nat) (p : Nat)
    (hreg : ∃ a ∈ st.agent_entry_node, a.sink_identifier = s)
    (hvalid : sink_identifier_valid ext st.local_eid s = true) :
    (agent_deregister st s).1 = 0 ∧
    (∃ l1 a l2, st.agent_entry_node = l1 ++ a :: l2 ∧ a.sink_identifier = s ∧
      (agent_deregister st s).2.agent_entry_node = l1 ++ l2 ∧
      ∀ b ∈ l1 ++ l2, b.sink_identifier ≠ s) ∧
    (agent_deregister st s).2.local_eid = st.local_eid ∧
    (agent_register ext (agent_deregister st s).2 s cb p true).1 = 0 ∧
    agent_search (agent_register ext (agent_deregister st s).2 s cb p true).2.agent_entry_node s =
      some ⟨s, cb, p⟩ := by
  have hnd : (st.agent_entry_node.map (fun x => x.sink_identifier)).Nodup := by
    rw [hst]; exact agent_manager_run_nodup ext calls
  obtain ⟨a, ha, has⟩ := hreg
  obtain ⟨l1, l2, hl⟩ := List.append_of_mem ha
  have hnd2 := hnd
  rw [hl, List.map_append, List.map_cons] at hnd2
  have hl1 : ∀ b ∈ l1, b.sink_identifier ≠ a.sink_identifier := by
    intro b hb heq
    exact (List.nodup_append.mp hnd2).2.2 (List.mem_map_of_mem _ hb)
      (heq ▸ List.mem_cons_self _ _)
  have hl2 : ∀ b ∈ l2, b.sink_identifier ≠ a.sink_identifier := by
    intro b hb heq
    have := (List.nodup_cons.mp (List.nodup_append.mp hnd2).2.1).1
    exact this (heq ▸ List.mem_map_of_mem _ hb)
  have hrest : ∀ b ∈ l1 ++ l2, b.sink_identifier ≠ a.sink_identifier := by
    intro b hb
    rcases List.mem_append.mp hb with h | h
    · exact hl1 b h
    · exact hl2 b h
  subst has
  have hd := agent_deregister_split st l1 l2 a hl hl1
  rw [hd]
  have hr := agent_register_absent ext { st with agent_entry_node := l1 ++ l2 }
    a.sink_identifier cb p hvalid hrest
  refine ⟨rfl, ⟨l1, a, l2, hl, rfl, rfl, hrest⟩, rfl, ?_, ?_⟩
  · rw [hr]
  · rw [hr]
    exact agent_search_split (l1 ++ l2) [] ⟨a.sink_identifier, cb, p⟩ hrest

/-- C26. After every sequence of calls of `agent_manager_init`,
`agent_register`, `agent_deregister` and `agent_forward` from program start, no
two agents of the list have equal sink identifier strings. -/
theorem agent_manager_sinks_unique (ext : SinkChecks) (calls : List AgentCall) :
    (agent_manager_run ext calls).agent_entry_node.Pairwise
      (fun a b => a.sink_identifier ≠ b.sink_identifier) := by
  have := agent_manager_run_nodup ext calls
  exact List.pairwise_map.mp this

/-- C27. In a state reached from program start in which an agent with sink
`s`, callback `cb` (not `NULL`) and parameter `p` is registered,
`agent_forward(s, adu, ctx)` returns 0, leaves the registry as it is, and the
only call it makes is the one call of `cb` with `(adu, p, ctx)`. -/
theorem agent_forward_registered (ext : SinkChecks) (calls : List AgentCall)
    (st : agent_manager) (hst : st = agent_manager_run ext calls)
    (s : List Char) (cb : Nat) (p : Nat) (adu : bundle_adu) (ctx : Nat)
    (h : (⟨s, some cb, p⟩ : agent) ∈ st.agent_entry_node) :
    agent_forward st s adu ctx = ⟨0, st, [Effect.callback cb adu p ctx]⟩ := by
  have hnd : (st.agent_entry_node.map (fun x => x.sink_identifier)).Nodup := by
    rw [hst]; exact agent_manager_run_nodup ext calls
  have := agent_search_of_mem st.agent_entry_node ⟨s, some cb, p⟩ hnd h
  unfold agent_forward
  rw [this]

/-- C28. In a state reached from program start in which no agent is registered
for sink `s`, or the agent registered for `s` has a `NULL` callback,
`agent_forward(s, adu, ctx)` returns -1, leaves the registry as it is, and the
only call it makes is the one call of `bundle_adu_free_members(adu)`. -/
theorem agent_forward_unregistered (ext : SinkChecks) (calls : List AgentCall)
    (st : agent_manager) (hst : st = agent_manager_run ext calls)
    (s : List Char) (adu : bundle_adu) (ctx : Nat)
    (h : (∀ a ∈ st.agent_entry_node, a.sink_identifier ≠ s) ∨
      ∃ p, (⟨s, none, p⟩ : agent) ∈ st.agent_entry_node) :
    agent_forward st s adu ctx = ⟨-1, st, [Effect.bundle_adu_free_members adu]⟩ := by
  rcases h with h | ⟨p, h⟩
  · unfold agent_forward
    rw [(agent_search_none_iff _ _).mpr h]
  · have hnd : (st.agent_entry_node.map (fun x => x.sink_identifier)).Nodup := by
      rw [hst]; exact agent_manager_run_nodup ext calls
    have := agent_search_of_mem st.agent_entry_node ⟨s, none, p⟩ hnd h
    unfold agent_forward
    rw [this]

/-! ## Theorems: the management agent -/

/-! The origin check. -/

theorem char_eq_of_toNat_eq {c d : Char} (h : c.toNat = d.toNat) : c = d := by
  rw [← Char.ofNat_toNat c, ← Char.ofNat_toNat d, h]

theorem strncmp_eq_zero_iff (s t : List Char) (hnul : ∀ c ∈ s, c ≠ NUL) :
    strncmp s t s.length = 0 ↔ ∃ r, t = s ++ r := by
  induction s generalizing t with
  | nil => exact ⟨fun _ => ⟨t, rfl⟩, fun _ => rfl⟩
  | cons c s ih =>
    have hc : c ≠ NUL := hnul c (List.mem_cons_self _ _)
    have ih2 := fun t => ih t (fun x hx => hnul x (List.mem_cons_of_mem _ hx))
    rw [List.length_cons, strncmp, deref_cons]
    by_cases hd : c ≠ deref t
    · rw [if_pos hd]
      constructor
      · intro h
        exact absurd (char_eq_of_toNat_eq (by omega)) hd
      · rintro ⟨r, rfl⟩
        exact absurd rfl hd
    · rw [if_neg hd, if_neg hc]
      have hd2 : c = deref t := not_not.mp hd
      cases t with
      | nil => exact absurd hd2 hc
      | cons d t =>
        rw [deref_cons] at hd2
        subst hd2
        simp only [List.drop_succ_cons, List.drop_zero, ih2 t, List.cons_append,
          List.cons.injEq, true_and]

theorem origin_check_foreign (get_node_id : List Char → Option (List Char)) (data : bundle_adu)
    (local_eid : List Char) (hnul : ∀ c ∈ local_eid, c ≠ NUL)
    (h : get_node_id data.source = none ∨
      ∃ node_id, get_node_id data.source = some node_id ∧ ¬ ∃ r, node_id = local_eid ++ r) :
    origin_check get_node_id data ⟨local_eid, false⟩ = false := by
  unfold origin_check
  rw [if_pos rfl]
  rcases h with h | ⟨node_id, h, hpre⟩
  · rw [h]
  · rw [h]
    dsimp only
    rw [if_pos]
    rw [Ne, strncmp_eq_zero_iff local_eid node_id hnul]
    exact hpre

theorem origin_check_pass (get_node_id : List Char → Option (List Char)) (data : bundle_adu)
    (ma_param : management_agent_params)
    (h : ma_param.allow_remote_configuration = true ∨
      ∃ node_id, get_node_id data.source = some node_id ∧
        ∃ r, node_id = ma_param.local_eid ++ r) :
    origin_check get_node_id data ma_param = true := by
  have hpre : ∀ (s r : List Char), strncmp s (s ++ r) s.length = 0 := by
    intro s r
    induction s with
    | nil => rfl
    | cons c s ih =>
      rw [List.length_cons, List.cons_append, strncmp, deref_cons, deref_cons,
        if_neg (not_not.mpr rfl)]
      split
      · rfl
      · exact ih
  unfold origin_check
  by_cases ha : ma_param.allow_remote_configuration = false
  · rw [if_pos ha]
    rcases h with h | ⟨node_id, h, r, hr⟩
    · rw [ha] at h; cases h
    · rw [h]
      dsimp only
      rw [hr, hpre, if_neg (not_not.mpr rfl)]
  · rw [if_neg ha]

/-! The timestamp. -/

theorem or_eq_add_of_dvd {x y : Nat} (i : Nat) (hx : 2 ^ i ∣ x) (hy : y < 2 ^ i) :
    x ||| y = x + y := by
  obtain ⟨a, rfl⟩ := hx
  exact (Nat.mul_add_lt_is_or hy a).symm

theorem be64_or (b1 b2 b3 b4 b5 b6 b7 b8 : Nat) (h1 : b1 < 256) (h2 : b2 < 256)
    (h3 : b3 < 256) (h4 : b4 < 256) (h5 : b5 < 256) (h6 : b6 < 256) (h7 : b7 < 256)
    (h8 : b8 < 256) :
    (b1 <<< 56) % 2 ^ 64 ||| (b2 <<< 48) % 2 ^ 64 ||| (b3 <<< 40) % 2 ^ 64 |||
      (b4 <<< 32) % 2 ^ 64 ||| (b5 <<< 24) % 2 ^ 64 ||| (b6 <<< 16) % 2 ^ 64 |||
      (b7 <<< 8) % 2 ^ 64 ||| b8 =
    b1 * 256 ^ 7 + b2 * 256 ^ 6 + b3 * 256 ^ 5 + b4 * 256 ^ 4 + b5 * 256 ^ 3 + b6 * 256 ^ 2 +
      b7 * 256 ^ 1 + b8 * 256 ^ 0 := by
  simp only [Nat.shiftLeft_eq]
  rw [Nat.mod_eq_of_lt (by omega : b1 * 2 ^ 56 < 2 ^ 64),
    Nat.mod_eq_of_lt (by omega : b2 * 2 ^ 48 < 2 ^ 64),
    Nat.mod_eq_of_lt (by omega : b3 * 2 ^ 40 < 2 ^ 64),
    Nat.mod_eq_of_lt (by omega : b4 * 2 ^ 32 < 2 ^ 64),
    Nat.mod_eq_of_lt (by omega : b5 * 2 ^ 24 < 2 ^ 64),
    Nat.mod_eq_of_lt (by omega : b6 * 2 ^ 16 < 2 ^ 64),
    Nat.mod_eq_of_lt (by omega : b7 * 2 ^ 8 < 2 ^ 64)]
  rw [or_eq_add_of_dvd 56 (by omega) (by omega : b2 * 2 ^ 48 < 2 ^ 56),
    or_eq_add_of_dvd 48 (by omega) (by omega : b3 * 2 ^ 40 < 2 ^ 48),
    or_eq_add_of_dvd 40 (by omega) (by omega : b4 * 2 ^ 32 < 2 ^ 40),
    or_eq_add_of_dvd 32 (by omega) (by omega : b5 * 2 ^ 24 < 2 ^ 32),
    or_eq_add_of_dvd 24 (by omega) (by omega : b6 * 2 ^ 16 < 2 ^ 24),
    or_eq_add_of_dvd 16 (by omega) (by omega : b7 * 2 ^ 8 < 2 ^ 16),
    or_eq_add_of_dvd 8 (by omega) (by omega : b8 < 2 ^ 8)]
  omega

theorem payload_at_eq (data : bundle_adu) (hbytes : ∀ b ∈ data.payload, b < 256) (i : Nat) :
    payload_at data i = data.payload.getD i 0 ∧ data.payload.getD i 0 < 256 := by
  have hlt : data.payload.getD i 0 < 256 := by
    rw [List.getD_eq_getElem?_getD]
    cases h : data.payload[i]? with
    | none => simp
    | some b => exact hbytes b (List.getElem?_mem h)
  exact ⟨Nat.mod_eq_of_lt hlt, hlt⟩

theorem set_time_value_eq (data : bundle_adu) (hbytes : ∀ b ∈ data.payload, b < 256) :
    set_time_value data =
      ∑ i ∈ Finset.range 8, data.payload.getD (1 + i) 0 * 256 ^ (7 - i) := by
  have h := payload_at_eq data hbytes
  unfold set_time_value u64_shl
  rw [be64_or _ _ _ _ _ _ _ _ ((h 1).1 ▸ (h 1).2) ((h 2).1 ▸ (h 2).2) ((h 3).1 ▸ (h 3).2)
    ((h 4).1 ▸ (h 4).2) ((h 5).1 ▸ (h 5).2) ((h 6).1 ▸ (h 6).2) ((h 7).1 ▸ (h 7).2)
    ((h 8).1 ▸ (h 8).2)]
  rw [(h 1).1, (h 2).1, (h 3).1, (h 4).1, (h 5).1, (h 6).1, (h 7).1, (h 8).1]
  simp [Finset.sum_range_succ]

/-- C29. With `allow_remote_configuration = false`, for every payload: when
`get_node_id` returns `NULL` for the source, or the local EID is not a prefix of
the node id it returns, the management callback does not call
`hal_time_init`. -/
theorem callback_foreign_origin (get_node_id : List Char → Option (List Char))
    (data : bundle_adu) (local_eid : List Char) (bp_context : Nat)
    (hnul : ∀ c ∈ local_eid, c ≠ NUL)
    (h : get_node_id data.source = none ∨
      ∃ node_id, get_node_id data.source = some node_id ∧ ¬ ∃ r, node_id = local_eid ++ r) :
    hal_time_init_calls (callback get_node_id data ⟨local_eid, false⟩ bp_context) = [] := by
  unfold callback
  rw [if_pos (origin_check_foreign get_node_id data local_eid hnul h)]
  rfl

/-- C30. When `allow_remote_configuration` is true or the local EID is a prefix
of the node id of the source, and the payload has length 9 and starts with the
code 1 of `SET_TIME`, the management callback calls `hal_time_init` exactly once,
with the big-endian value of the bytes 1 .. 8 of the payload. -/
theorem callback_set_time (get_node_id : List Char → Option (List Char))
    (data : bundle_adu) (ma_param : management_agent_params) (bp_context : Nat)
    (horigin : ma_param.allow_remote_configuration = true ∨
      ∃ node_id, get_node_id data.source = some node_id ∧
        ∃ r, node_id = ma_param.local_eid ++ r)
    (hlen : data.length = 9) (hbytes : ∀ b ∈ data.payload, b < 256)
    (hcmd : data.payload[0]? = some 1) :
    hal_time_init_calls (callback get_node_id data ma_param bp_context) =
      [∑ i ∈ Finset.range 8, data.payload.getD (1 + i) 0 * 256 ^ (7 - i)] := by
  have h0 : payload_at data 0 = MGMT_CMD_SET_TIME := by
    rw [(payload_at_eq data hbytes 0).1, List.getD_eq_getElem?_getD, hcmd]
    rfl
  unfold callback
  rw [origin_check_pass get_node_id data ma_param horigin, if_neg (by simp),
    if_neg (by omega), if_pos h0, if_pos hlen, ← set_time_value_eq data hbytes]
  rfl

/-! ## The theorems of the EID validators, the agent manager and the management agent
at concrete inputs -/

/-- C21 at "dtn://host/app". -/
theorem validate_eid_dtn_form_witness :
    validate_eid "dtn://host/app".toList = UD3TN_OK ∧
    validate_eid "http://host/".toList = UD3TN_FAIL :=
  ⟨(validate_eid_dtn_form.1 "dtn://host/app".toList (by decide) (by decide)).mpr
      (Or.inr ⟨"host".toList, "/app".toList, by decide, by decide, by decide, by decide,
        by decide⟩),
   validate_eid_dtn_form.2.2.2.2 "http://host/".toList (by decide) (by decide)⟩


/-- C22 at "dtn://node-1.example/" with the local `service` holding 7 before the
call. -/
theorem validate_local_eid_iff_witness :
    validate_local_eid "dtn://node-1.example/".toList 7 = UD3TN_OK :=
  (validate_local_eid_iff "dtn://node-1.example/".toList 7 (by decide)).1.mpr
    ⟨by decide, Or.inr ⟨"node-1.example".toList, by decide, by decide⟩⟩

/-- C23 as amended, at "ipn:1.2.3" with 7 and 9 behind the out-parameters. -/
theorem validate_ipn_eid_fail_outputs_witness :
    (validate_ipn_eid "ipn:1.2.3".toList (some 7) (some 9)).result = UD3TN_FAIL ∧
    (validate_ipn_eid "ipn:1.2.3".toList (some 7) (some 9)).node_out = some 1 ∧
    (validate_ipn_eid "ipn:1.2.3".toList (some 7) (some 9)).service_out = some 2 :=
  ⟨by decide,
   (validate_ipn_eid_fail_outputs "ipn:1.2.3".toList (some 7) (some 9) (by decide)
      (by decide)).1.1 "1".toList ".2.3".toList (by decide) (by decide) (by decide),
   (validate_ipn_eid_fail_outputs "ipn:1.2.3".toList (some 7) (some 9) (by decide)
      (by decide)).2.1 "1".toList "2".toList "3".toList (by decide) (by decide) (by decide)⟩

/-- C24 at the registry that holds "app": a second registration of "app"
fails. -/
theorem agent_register_duplicate_witness :
    (agent_register sink_checks ⟨[⟨"app".toList, some 1, 5⟩], some "dtn://me/".toList⟩
      "app".toList (some 2) 6 true).1 = -1 ∧
    (agent_register sink_checks ⟨[⟨"app".toList, some 1, 5⟩], some "dtn://me/".toList⟩
      "app".toList (some 2) 6 true).2 =
      ⟨[⟨"app".toList, some 1, 5⟩], some "dtn://me/".toList⟩ :=
  agent_register_duplicate sink_checks ⟨[⟨"app".toList, some 1, 5⟩], some "dtn://me/".toList⟩
    "app".toList (some 2) 6 true ⟨⟨"app".toList, some 1, 5⟩, by decide, rfl⟩


/-- C25 after `agent_manager_init("dtn://me/")` and the registration of "app" and
"log": "app" is deregistered and registered again with another callback. -/
theorem agent_deregister_then_register_witness :
    (agent_deregister
      (agent_manager_run sink_checks
        [.init (some "dtn://me/".toList), .register "app".toList (some 1) 5 true,
          .register "log".toList none 6 true]) "app".toList).1 = 0 ∧
    agent_search
      (agent_register sink_checks
        (agent_deregister
          (agent_manager_run sink_checks
            [.init (some "dtn://me/".toList), .register "app".toList (some 1) 5 true,
              .register "log".toList none 6 true]) "app".toList).2
        "app".toList (some 2) 9 true).2.agent_entry_node "app".toList =
      some ⟨"app".toList, some 2, 9⟩ :=
  ⟨(agent_deregister_then_register sink_checks
      [.init (some "dtn://me/".toList), .register "app".toList (some 1) 5 true,
        .register "log".toList none 6 true] _ rfl "app".toList (some 2) 9
      ⟨⟨"app".toList, some 1, 5⟩, by decide, rfl⟩ (by decide)).1,
   (agent_deregister_then_register sink_checks
      [.init (some "dtn://me/".toList), .register "app".toList (some 1) 5 true,
        .register "log".toList none 6 true] _ rfl "app".toList (some 2) 9
      ⟨⟨"app".toList, some 1, 5⟩, by decide, rfl⟩ (by decide)).2.2.2.2⟩

/-- C27 after the registration of "app" with callback 1 and parameter 5. -/
theorem agent_forward_registered_witness :
    agent_forward
      (agent_manager_run sink_checks
        [.init (some "dtn://me/".toList), .register "app".toList (some 1) 5 true,
          .register "log".toList none 6 true])
      "app".toList ⟨"dtn://peer/x".toList, [1, 2], 2⟩ 3 =
    ⟨0, ⟨[⟨"app".toList, some 1, 5⟩, ⟨"log".toList, none, 6⟩], some "dtn://me/".toList⟩,
      [Effect.callback 1 ⟨"dtn://peer/x".toList, [1, 2], 2⟩ 5 3]⟩ :=
  agent_forward_registered sink_checks
    [.init (some "dtn://me/".toList), .register "app".toList (some 1) 5 true,
      .register "log".toList none 6 true] _ rfl "app".toList 1 5
    ⟨"dtn://peer/x".toList, [1, 2], 2⟩ 3 (by decide)

/-- C28 in the same state: "app2" is not registered, and "log" is registered
with a `NULL` callback. -/
theorem agent_forward_unregistered_witness :
    agent_forward
      (agent_manager_run sink_checks
        [.init (some "dtn://me/".toList), .register "app".toList (some 1) 5 true,
          .register "log".toList none 6 true])
      "app2".toList ⟨"dtn://peer/x".toList, [1, 2], 2⟩ 3 =
    ⟨-1, ⟨[⟨"app".toList, some 1, 5⟩, ⟨"log".toList, none, 6⟩], some "dtn://me/".toList⟩,
      [Effect.bundle_adu_free_members ⟨"dtn://peer/x".toList, [1, 2], 2⟩]⟩ ∧
    (agent_forward
      (agent_manager_run sink_checks
        [.init (some "dtn://me/".toList), .register "app".toList (some 1) 5 true,
          .register "log".toList none 6 true])
      "log".toList ⟨"dtn://peer/x".toList, [1, 2], 2⟩ 3).effects =
      [Effect.bundle_adu_free_members ⟨"dtn://peer/x".toList, [1, 2], 2⟩] :=
  ⟨agent_forward_unregistered sink_checks
    [.init (some "dtn://me/".toList), .register "app".toList (some 1) 5 true,
      .register "log".toList none 6 true] _ rfl "app2".toList
    ⟨"dtn://peer/x".toList, [1, 2], 2⟩ 3 (Or.inl (by decide)),
   congrArg Forwarded.effects (agent_forward_unregistered sink_checks
    [.init (some "dtn://me/".toList), .register "app".toList (some 1) 5 true,
      .register "log".toList none 6 true] _ rfl "log".toList
    ⟨"dtn://peer/x".toList, [1, 2], 2⟩ 3 (Or.inr ⟨6, by decide⟩))⟩

/-- C29 at the local EID "dtn://me/" and a `SET_TIME` payload from
"dtn://other/mgmt". -/
theorem callback_foreign_origin_witness :
    hal_time_init_calls
      (callback get_node_id_spec ⟨"dtn://other/mgmt".toList, [1, 0, 0, 0, 0, 0, 0, 0, 0x2A], 9⟩
        ⟨"dtn://me/".toList, false⟩ 0) = [] :=
  callback_foreign_origin get_node_id_spec
    ⟨"dtn://other/mgmt".toList, [1, 0, 0, 0, 0, 0, 0, 0, 0x2A], 9⟩ "dtn://me/".toList 0
    (by decide)
    (Or.inr ⟨"dtn://other/".toList, by decide, by
      rintro ⟨r, hr⟩
      have h6 : 'o' = 'm' := congrArg (fun l => l.getD 6 'x') hr
      exact absurd h6 (by decide)⟩)

/-- C30 at the local EID "dtn://me/" and the payload `01 00 00 00 00 00 00 00 2A`
from "dtn://me/mgmt": the clock is set to 42. -/
theorem callback_set_time_witness :
    hal_time_init_calls
      (callback get_node_id_spec ⟨"dtn://me/mgmt".toList, [1, 0, 0, 0, 0, 0, 0, 0, 0x2A], 9⟩
        ⟨"dtn://me/".toList, false⟩ 0) = [42] :=
  callback_set_time get_node_id_spec
    ⟨"dtn://me/mgmt".toList, [1, 0, 0, 0, 0, 0, 0, 0, 0x2A], 9⟩ ⟨"dtn://me/".toList, false⟩ 0
    (Or.inr ⟨"dtn://me/".toList, by decide, [], by decide⟩) rfl (by decide) rfl

/-! ## Theorems: the management agent, invalid commands and the ADU -/

/-- The management callback, case by case. -/
theorem callback_cases (get_node_id : List Char → Option (List Char)) (data : bundle_adu)
    (ma_param : management_agent_params) (bp_context : Nat) :
    callback get_node_id data ma_param bp_context = [] ∨
    callback get_node_id data ma_param bp_context = [Effect.bundle_adu_free_members data] ∧
      data.length < 1 ∨
    callback get_node_id data ma_param bp_context =
        [Effect.read_payload 0, Effect.bundle_adu_free_members data] ∧
      1 ≤ data.length ∧ ¬ (payload_at data 0 = MGMT_CMD_SET_TIME ∧ data.length = 9) ∨
    callback get_node_id data ma_param bp_context =
        [Effect.read_payload 0, Effect.read_payload 1, Effect.read_payload 2,
          Effect.read_payload 3, Effect.read_payload 4, Effect.read_payload 5,
          Effect.read_payload 6, Effect.read_payload 7, Effect.read_payload 8,
          Effect.hal_time_init (set_time_value data), Effect.bundle_adu_free_members data] ∧
      payload_at data 0 = MGMT_CMD_SET_TIME ∧ data.length = 9 := by
  unfold callback
  by_cases h0 : origin_check get_node_id data ma_param = false
  · left; rw [if_pos h0]
  rw [if_neg h0]
  by_cases h1 : data.length < 1
  · right; left; rw [if_pos h1]; exact ⟨rfl, h1⟩
  rw [if_neg h1]
  by_cases h2 : payload_at data 0 = MGMT_CMD_SET_TIME
  · rw [if_pos h2]
    by_cases h3 : data.length = 9
    · right; right; right; rw [if_pos h3]; exact ⟨rfl, h2, h3⟩
    · right; right; left; rw [if_neg h3]; exact ⟨rfl, by omega, fun h => h3 h.2⟩
  · right; right; left; rw [if_neg h2]; exact ⟨rfl, by omega, fun h => h2 h.1⟩

/-- C31. For a payload that is empty, or whose first byte is not the code of
`SET_TIME`, or whose first byte is that code while the length is not 9, the
management callback, whatever the origin and `allow_remote_configuration`, does
not call `hal_time_init`, and every index at which it reads the payload is
below the length of the payload. -/
theorem callback_invalid_command (get_node_id : List Char → Option (List Char))
    (data : bundle_adu) (ma_param : management_agent_params) (bp_context : Nat)
    (h : data.length = 0 ∨ payload_at data 0 ≠ MGMT_CMD_SET_TIME ∨
      (payload_at data 0 = MGMT_CMD_SET_TIME ∧ data.length ≠ 9)) :
    hal_time_init_calls (callback get_node_id data ma_param bp_context) = [] ∧
    ∀ i, Effect.read_payload i ∈ callback get_node_id data ma_param bp_context →
      i < data.length := by
  rcases callback_cases get_node_id data ma_param bp_context with
    hc | ⟨hc, _⟩ | ⟨hc, hlen, _⟩ | ⟨_, hcmd, hlen⟩
  · rw [hc]; exact ⟨rfl, fun i hi => by cases hi⟩
  · rw [hc]; exact ⟨rfl, fun i hi => by simp at hi⟩
  · rw [hc]
    refine ⟨rfl, fun i hi => ?_⟩
    simp only [List.mem_cons, Effect.read_payload.injEq, reduceCtorEq, List.not_mem_nil,
      or_false] at hi
    omega
  · exfalso
    rcases h with h | h | h
    · omega
    · exact h hcmd
    · exact h.2 hlen

/-- C37 fails on the code: with `allow_remote_configuration = false`, the local
EID "dtn://me/" and an ADU from "dtn://other/mgmt", the management callback
returns from the origin check without any call, so `bundle_adu_free_members` is
not called, while on the path of an empty payload from "dtn://me/mgmt" it is
called once. -/
theorem callback_drop_keeps_adu :
    callback get_node_id_spec ⟨"dtn://other/mgmt".toList, [1, 0, 0, 0, 0, 0, 0, 0, 0x2A], 9⟩
      ⟨"dtn://me/".toList, false⟩ 0 = [] ∧
    callback get_node_id_spec ⟨"dtn://me/mgmt".toList, [], 0⟩ ⟨"dtn://me/".toList, false⟩ 0 =
      [Effect.bundle_adu_free_members ⟨"dtn://me/mgmt".toList, [], 0⟩] := by
  constructor <;> decide

/-! ## Theorems: `merge_contacts` -/

/-- C34 (as amended). `merge_contacts(old, new)` sets `old.from` to the smaller
`from` and `old.to` to the greater `to`; when the allocations succeed it makes
the set of endpoint strings of `old` the union of both sets (equal addresses
holding equal strings); and it returns true exactly when the bitrates differ
or the duration `to - from` of the merged interval, as the `uint64_t` the code
computes, differs from the one `old` had; in that case the bitrate of `old`
becomes that of `new` and the result is what `recalculate_contact_capacity`
makes of it, otherwise the bitrate and the four capacity fields are the ones
`old` had.  For intervals with `from <= to` below `2^64` the durations are the
plain differences.  All but the endpoint set holds whatever `malloc`
returns. -/
theorem merge_contacts_spec (old new : Contact) (heap : List Bool)
    (hc : buffers_consistent (old.contact_endpoints ++ new.contact_endpoints)) :
    (merge_contacts old new heap).1.from_ = min old.from_ new.from_ ∧
    (merge_contacts old new heap).1.to_ = max old.to_ new.to_ ∧
    (all_succeed heap →
      ∀ s, s ∈ (merge_contacts old new heap).1.contact_endpoints.map Eid.str ↔
        s ∈ old.contact_endpoints.map Eid.str ∨ s ∈ new.contact_endpoints.map Eid.str) ∧
    ((merge_contacts old new heap).2.1 = true ↔
      old.bitrate ≠ new.bitrate ∨
        u64_sub (merge_contacts old new heap).1.to_ (merge_contacts old new heap).1.from_ ≠
          u64_sub old.to_ old.from_) ∧
    ((merge_contacts old new heap).2.1 = true →
      (merge_contacts old new heap).1.bitrate = new.bitrate ∧
      (merge_contacts old new heap).1 =
        recalculate_contact_capacity
          { old with
            from_ := min old.from_ new.from_
            to_ := max old.to_ new.to_
            contact_endpoints :=
              (endpoint_list_union old.contact_endpoints new.contact_endpoints heap).1
            bitrate := new.bitrate }) ∧
    ((merge_contacts old new heap).2.1 = false →
      (merge_contacts old new heap).1.bitrate = old.bitrate ∧
      (merge_contacts old new heap).1.total_capacity = old.total_capacity ∧
      (merge_contacts old new heap).1.remaining_capacity_p0 = old.remaining_capacity_p0 ∧
      (merge_contacts old new heap).1.remaining_capacity_p1 = old.remaining_capacity_p1 ∧
      (merge_contacts old new heap).1.remaining_capacity_p2 = old.remaining_capacity_p2) ∧
    (old.from_ ≤ old.to_ → old.to_ < 2 ^ 64 → new.to_ < 2 ^ 64 →
      ((merge_contacts old new heap).2.1 = true ↔
        old.bitrate ≠ new.bitrate ∨
          max old.to_ new.to_ - min old.from_ new.from_ ≠ old.to_ - old.from_)) := by
  have hfrom := merge_contacts_from old new heap
  have hto := merge_contacts_to old new heap
  have hflag := merge_contacts_flag old new heap
  rw [MIN_eq] at hfrom
  rw [MAX_eq] at hto
  rw [MIN_eq, MAX_eq] at hflag
  refine ⟨hfrom, hto, ?_, ?_, ?_, ?_, ?_⟩
  · intro hheap s
    have hend : (merge_contacts old new heap).1.contact_endpoints =
        (endpoint_list_union old.contact_endpoints new.contact_endpoints heap).1 := by
      unfold merge_contacts
      dsimp only
      split
      · rw [recalculate_endpoints]
      · rfl
    rw [hend]
    exact endpoint_list_union_strs _ _ hheap hc s
  · rw [hfrom, hto]; exact hflag
  · intro h
    have hcond := (merge_contacts_flag old new heap).mp h
    unfold merge_contacts
    dsimp only
    rw [if_pos hcond]
    dsimp only
    refine ⟨by rw [recalculate_bitrate], ?_⟩
    rw [MIN_eq, MAX_eq]
  · intro h
    have hcond : ¬ (old.bitrate ≠ new.bitrate ∨
        u64_sub (MAX old.to_ new.to_) (MIN old.from_ new.from_) ≠ u64_sub old.to_ old.from_) := by
      intro hc2
      rw [(merge_contacts_flag old new heap).mpr hc2] at h
      cases h
    unfold merge_contacts
    dsimp only
    rw [if_neg hcond]
    exact ⟨rfl, rfl, rfl, rfl, rfl⟩
  · intro h1 h2 h3
    rw [hflag, u64_sub_of_le h1 h2, u64_sub_of_le (by omega) (by omega)]

/-- C34 (counterexample to the claim as stated): `old` is `[10,20)` without
endpoints and `new` is `[15,30)` with the endpoint `"dtn://x/"`; when `malloc`
returns `NULL` in `endpoint_list_add` the merge widens `old` to `[10,30)` and
leaves its endpoint list empty, so the endpoint of `new` is not in it. -/
theorem merge_contacts_drops_endpoint_on_null :
    buffers_consistent ((contact_at "A" 10 20 1000).contact_endpoints ++
      (contact_with "A" 15 30 1000 [⟨100, "dtn://x/"⟩]).contact_endpoints) ∧
    (merge_contacts (contact_at "A" 10 20 1000)
      (contact_with "A" 15 30 1000 [⟨100, "dtn://x/"⟩]) [false]).1 =
        ⟨some "A", 10, 30, 1000, 20000, 20000, 20000, 20000, [], 0⟩ ∧
    "dtn://x/" ∈ (contact_with "A" 15 30 1000 [⟨100, "dtn://x/"⟩]).contact_endpoints.map
      Eid.str ∧
    "dtn://x/" ∉ (merge_contacts (contact_at "A" 10 20 1000)
      (contact_with "A" 15 30 1000 [⟨100, "dtn://x/"⟩]) [false]).1.contact_endpoints.map
        Eid.str := by
  decide

/-! ## Theorems: time coverage of `contact_list_union` -/

/-! Time coverage of `contact_list_union`. -/

theorem covered_nil (x : Nat) : ¬ covered [] x := by
  simp [covered]

theorem covered_cons (c : Contact) (l : List Contact) (x : Nat) :
    covered (c :: l) x ↔ c.covers x ∨ covered l x := by
  simp [covered]

theorem covered_append (l1 l2 : List Contact) (x : Nat) :
    covered (l1 ++ l2) x ↔ covered l1 x ∨ covered l2 x := by
  simp only [covered, List.mem_append]
  constructor
  · rintro ⟨c, h | h, hx⟩
    · exact Or.inl ⟨c, h, hx⟩
    · exact Or.inr ⟨c, h, hx⟩
  · rintro (⟨c, h, hx⟩ | ⟨c, h, hx⟩)
    · exact ⟨c, Or.inl h, hx⟩
    · exact ⟨c, Or.inr h, hx⟩

/-- Merging two intervals that overlap covers what the two cover. -/
theorem merged_covers (slot can : Contact) (heap : List Bool) (h1 : can.from_ < slot.to_)
    (h2 : slot.from_ < can.to_) (x : Nat) :
    (merge_contacts slot can heap).1.covers x ↔ slot.covers x ∨ can.covers x := by
  unfold Contact.covers
  rw [merge_contacts_from, merge_contacts_to, MIN_eq, MAX_eq]
  omega

theorem merged_bounds (slot can : Contact) (heap : List Bool) (hs : slot.from_ < slot.to_) :
    (merge_contacts slot can heap).1.from_ < (merge_contacts slot can heap).1.to_ ∧
    (merge_contacts slot can heap).1.from_ ≤ slot.from_ ∧
    slot.to_ ≤ (merge_contacts slot can heap).1.to_ := by
  rw [merge_contacts_from, merge_contacts_to, MIN_eq, MAX_eq]
  omega

theorem union_first_loop_covers (cur_from : Nat) (slot : Contact) (cans : List Contact)
    (modf : Option (List ContactPtr)) (heap : List Bool) (hs : slot.from_ < slot.to_)
    (hc : ∀ c ∈ cans, c.from_ < c.to_) :
    (∀ x, covered ((union_first_loop cur_from slot cans modf heap).inserted ++
        (union_first_loop cur_from slot cans modf heap).slot ::
        (union_first_loop cur_from slot cans modf heap).cur_can) x ↔ covered (slot :: cans) x) ∧
    (union_first_loop cur_from slot cans modf heap).slot.from_ <
      (union_first_loop cur_from slot cans modf heap).slot.to_ ∧
    (union_first_loop cur_from slot cans modf heap).slot.from_ ≤ slot.from_ ∧
    slot.to_ ≤ (union_first_loop cur_from slot cans modf heap).slot.to_ ∧
    List.Sublist (union_first_loop cur_from slot cans modf heap).cur_can cans ∧
    (∀ c, (union_first_loop cur_from slot cans modf heap).cur_can.head? = some c →
      cur_from < c.from_) := by
  induction cans generalizing slot modf heap with
  | nil =>
    simp only [union_first_loop, List.nil_append, List.head?_nil, reduceCtorEq, false_implies,
      implies_true, and_true, List.Sublist.refl, le_refl, true_and]
    exact hs
  | cons can next ih =>
    have hcan : can.from_ < can.to_ := hc can (List.mem_cons_self _ _)
    have hnext : ∀ c ∈ next, c.from_ < c.to_ := fun c h => hc c (List.mem_cons_of_mem _ h)
    rw [union_first_loop]
    by_cases h1 : can.from_ ≤ cur_from
    swap
    · rw [if_neg h1]
      refine ⟨fun x => by rw [List.nil_append], hs, le_refl _, le_refl _, List.Sublist.refl _, ?_⟩
      intro c hcq
      simp only [List.head?_cons, Option.some.injEq] at hcq
      subst hcq
      omega
    rw [if_pos h1]
    have hins : ∀ (r : UnionFirst),
        ((∀ x, covered (r.inserted ++ r.slot :: r.cur_can) x ↔ covered (slot :: next) x) ∧
          r.slot.from_ < r.slot.to_ ∧ r.slot.from_ ≤ slot.from_ ∧ slot.to_ ≤ r.slot.to_ ∧
          List.Sublist r.cur_can next ∧ (∀ c, r.cur_can.head? = some c → cur_from < c.from_)) →
        ((∀ x, covered ((can :: r.inserted) ++ r.slot :: r.cur_can) x ↔
            covered (slot :: can :: next) x) ∧
          r.slot.from_ < r.slot.to_ ∧ r.slot.from_ ≤ slot.from_ ∧ slot.to_ ≤ r.slot.to_ ∧
          List.Sublist r.cur_can (can :: next) ∧
          (∀ c, r.cur_can.head? = some c → cur_from < c.from_)) := by
      intro r ⟨hcov, hv, hf, ht, hsub, hhead⟩
      refine ⟨fun x => ?_, hv, hf, ht, List.Sublist.cons _ hsub, hhead⟩
      rw [List.cons_append, covered_cons, hcov x, covered_cons, covered_cons, covered_cons]
      tauto
    by_cases h2 : same_node can slot = true
    · rw [if_pos h2]
      by_cases h3 : ¬ contacts_overlap can slot = true
      · rw [if_pos h3]
        exact hins _ (ih slot modf heap hs hnext)
      · rw [if_neg h3]
        have hov : contacts_overlap can slot = true := not_not.mp h3
        unfold contacts_overlap at hov
        simp only [Bool.and_eq_true, decide_eq_true_eq] at hov
        have hb : (merge_into_slot slot can modf heap).1.from_ < (merge_into_slot slot can modf heap).1.to_ ∧
            (merge_into_slot slot can modf heap).1.from_ ≤ slot.from_ ∧
            slot.to_ ≤ (merge_into_slot slot can modf heap).1.to_ := by
          rw [merge_into_slot_fst]; exact merged_bounds slot can heap hs
        have hm : ∀ x, (merge_into_slot slot can modf heap).1.covers x ↔
            slot.covers x ∨ can.covers x := by
          rw [merge_into_slot_fst]; exact merged_covers slot can heap hov.1 hov.2
        obtain ⟨hcov, hv, hf, ht, hsub, hhead⟩ :=
          ih (merge_into_slot slot can modf heap).1 (merge_into_slot slot can modf heap).2.1
            (merge_into_slot slot can modf heap).2.2 hb.1 hnext
        refine ⟨fun x => ?_, hv, le_trans hf hb.2.1, le_trans hb.2.2 ht,
          List.Sublist.cons _ hsub, hhead⟩
        dsimp only
        rw [hcov x, covered_cons, hm x, covered_cons, covered_cons]
        tauto
    · rw [if_neg h2]
      exact hins _ (ih slot modf heap hs hnext)


theorem union_second_loop_covers (cur_to : Nat) (slot : Contact) (cans : List Contact)
    (modf : Option (List ContactPtr)) (heap : List Bool) (hs : slot.from_ < slot.to_) (hto : cur_to ≤ slot.to_)
    (hc : ∀ c ∈ cans, slot.from_ < c.to_) :
    (∀ x, covered ((union_second_loop cur_to slot cans modf heap).slot ::
        (union_second_loop cur_to slot cans modf heap).cur_can) x ↔ covered (slot :: cans) x) ∧
    (union_second_loop cur_to slot cans modf heap).slot.from_ <
      (union_second_loop cur_to slot cans modf heap).slot.to_ ∧
    List.Sublist (union_second_loop cur_to slot cans modf heap).cur_can cans := by
  induction cans generalizing slot modf heap with
  | nil =>
    simp only [union_second_loop, List.Sublist.refl, and_true, implies_true, true_and]
    exact hs
  | cons can rest ih =>
    have hcan : slot.from_ < can.to_ := hc can (List.mem_cons_self _ _)
    have hrest : ∀ c ∈ rest, slot.from_ < c.to_ := fun c h => hc c (List.mem_cons_of_mem _ h)
    rw [union_second_loop]
    by_cases h1 : can.from_ < cur_to ∧ same_node can slot = true
    · rw [if_pos h1]
      have hb : (merge_into_slot slot can modf heap).1.from_ < (merge_into_slot slot can modf heap).1.to_ ∧
          (merge_into_slot slot can modf heap).1.from_ ≤ slot.from_ ∧
          slot.to_ ≤ (merge_into_slot slot can modf heap).1.to_ := by
          rw [merge_into_slot_fst]; exact merged_bounds slot can heap hs
      have hm : ∀ x, (merge_into_slot slot can modf heap).1.covers x ↔
          slot.covers x ∨ can.covers x := by
        rw [merge_into_slot_fst]; exact merged_covers slot can heap (by omega) hcan
      obtain ⟨hcov, hv, hsub⟩ :=
        ih (merge_into_slot slot can modf heap).1 (merge_into_slot slot can modf heap).2.1
          (merge_into_slot slot can modf heap).2.2 hb.1
          (by omega) (fun c h => lt_of_le_of_lt hb.2.1 (hrest c h))
      refine ⟨fun x => ?_, hv, List.Sublist.cons _ hsub⟩
      dsimp only
      rw [hcov x, covered_cons, hm x, covered_cons, covered_cons]
      tauto
    · rw [if_neg h1]
      obtain ⟨hcov, hv, hsub⟩ := ih slot modf heap hs hto hrest
      refine ⟨fun x => ?_, hv, List.Sublist.cons₂ _ hsub⟩
      dsimp only
      rw [covered_cons, covered_cons, covered_cons, covered_cons]
      have := hcov x
      rw [covered_cons, covered_cons] at this
      tauto

theorem head_le_of_pairwise {l : List Contact} (hp : l.Pairwise (fun x y => x.from_ ≤ y.from_))
    {h c : Contact} (hh : l.head? = some h) (hc : c ∈ l) : h.from_ ≤ c.from_ := by
  cases l with
  | nil => cases hh
  | cons d tl =>
    simp only [List.head?_cons, Option.some.injEq] at hh
    subst hh
    rcases List.mem_cons.mp hc with rfl | h2
    · exact le_refl _
    · exact (List.pairwise_cons.mp hp).1 c h2

theorem coverage_step {I S1 C1 S C S2 C2 R : Prop} (h1 : I ∨ S1 ∨ C1 ↔ S ∨ C)
    (h2 : S2 ∨ C2 ↔ S1 ∨ C1) : (I ∨ S2 ∨ R ∨ C2) ↔ (S ∨ R ∨ C) := by
  tauto

theorem union_outer_loop_covers (a cans : List Contact) (modf : Option (List Contact))
    (heap : List Bool)
    (ha : ∀ s ∈ a, s.from_ < s.to_) (hc : ∀ c ∈ cans, c.from_ < c.to_)
    (hsorted : cans.Pairwise (fun x y => x.from_ ≤ y.from_)) (x : Nat) :
    covered (union_outer_loop a cans modf heap).list x ↔ covered (a ++ cans) x := by
  induction a generalizing cans modf heap with
  | nil => simp [union_outer_loop]
  | cons slot rest ih =>
    have hslot := ha slot (List.mem_cons_self _ _)
    have hrest : ∀ s ∈ rest, s.from_ < s.to_ := fun s h => ha s (List.mem_cons_of_mem _ h)
    rw [union_outer_loop]
    dsimp only
    have f := union_first_loop_covers slot.from_ slot cans
      (modf.map (List.map ContactPtr.other)) heap hslot hc
    generalize union_first_loop slot.from_ slot cans
      (modf.map (List.map ContactPtr.other)) heap = r1 at f ⊢
    obtain ⟨hcov1, hv1, hf1, ht1, hsub1, hhead1⟩ := f
    have hsorted1 := List.Pairwise.sublist hsub1 hsorted
    have hc1 : ∀ c ∈ r1.cur_can, c.from_ < c.to_ := fun c h => hc c (hsub1.subset h)
    have hlt1 : ∀ c ∈ r1.cur_can, r1.slot.from_ < c.to_ := by
      intro c hcm
      cases hh : r1.cur_can.head? with
      | none =>
        rw [List.head?_eq_none_iff] at hh
        rw [hh] at hcm
        cases hcm
      | some h =>
        have h1 := hhead1 h hh
        have h2 := head_le_of_pairwise hsorted1 hh hcm
        have h3 := hc1 c hcm
        omega
    have s := union_second_loop_covers slot.to_ r1.slot r1.cur_can r1.modf r1.heap hv1 ht1 hlt1
    generalize union_second_loop slot.to_ r1.slot r1.cur_can r1.modf r1.heap = r2 at s ⊢
    obtain ⟨hcov2, _, hsub2⟩ := s
    have hih := ih r2.cur_can (r2.modf.map (List.map (ContactPtr.contact r2.slot))) r2.heap hrest
      (fun c h => hc1 c (hsub2.subset h)) (List.Pairwise.sublist hsub2 hsorted1)
    have h1 := hcov1 x
    have h2 := hcov2 x
    rw [covered_append, covered_cons] at h1
    rw [covered_cons] at h2
    rw [covered_append, covered_cons, hih, covered_append, List.cons_append, covered_cons,
      covered_append]
    rw [covered_cons] at h1 h2
    exact coverage_step h1 h2

/-- C35. For contact lists `a` and `b` whose contacts all have `from < to`, `b`
sorted by `from`: a time lies in the interval `[from, to)` of some contact of
`contact_list_union(a, b, modf)` exactly when it lies in the interval of some
contact of `a` or of `b`.  Neither the order of `a`, nor the nodes of the
contacts, nor what `malloc` returns matter for this. -/
theorem contact_list_union_coverage (a b : List Contact) (modf : Option (List Contact))
    (heap : List Bool)
    (ha : ∀ c ∈ a, c.from_ < c.to_) (hb : ∀ c ∈ b, c.from_ < c.to_)
    (hsorted : contact_list_sorted b 1 = true) (x : Nat) :
    (∃ c ∈ (contact_list_union a b modf heap).1, c.from_ ≤ x ∧ x < c.to_) ↔
      (∃ c ∈ a, c.from_ ≤ x ∧ x < c.to_) ∨ (∃ c ∈ b, c.from_ ≤ x ∧ x < c.to_) := by
  have hmain : covered (contact_list_union a b modf heap).1 x ↔ covered a x ∨ covered b x := by
    unfold contact_list_union contact_list_union_run
    dsimp only
    by_cases h1 : a = []
    · rw [if_pos h1, h1]
      simp [covered_nil]
    rw [if_neg h1]
    by_cases h2 : b = []
    · rw [if_pos h2, h2]
      simp [covered_nil]
    rw [if_neg h2, union_outer_loop_covers a b modf heap ha hb
      ((contact_list_sorted_iff b).mp hsorted) x, covered_append]
  unfold covered Contact.covers at hmain
  exact hmain

/-! ## Theorems: the BIBE link management task and `bibe_get_tx_queue` -/

/-! The retry loop. -/

/-- The effects of `k` failed attempts that are retried and a last one that is
not. -/
theorem connect_calls_retries (addr : List Char) (ms k : Nat) (tl : List LinkEffect)
    (htl : connect_calls tl = 0 ∧ delay_calls tl = 0) :
    connect_calls ((List.replicate k [LinkEffect.ASSERT true,
        LinkEffect.cla_tcp_connect_to_cla_addr addr, LinkEffect.hal_task_delay ms]).flatten ++
      [LinkEffect.ASSERT true, LinkEffect.cla_tcp_connect_to_cla_addr addr] ++ tl) = k + 1 ∧
    delay_calls ((List.replicate k [LinkEffect.ASSERT true,
        LinkEffect.cla_tcp_connect_to_cla_addr addr, LinkEffect.hal_task_delay ms]).flatten ++
      [LinkEffect.ASSERT true, LinkEffect.cla_tcp_connect_to_cla_addr addr] ++ tl) = k := by
  have h1 := htl.1
  have h2 := htl.2
  unfold connect_calls at h1 ⊢
  unfold delay_calls at h2 ⊢
  induction k with
  | zero =>
    simp only [List.replicate_zero, List.flatten_nil, List.nil_append, List.cons_append,
      List.countP_cons, h1, h2]
    simp
  | succ k ih =>
    simp only [List.replicate_succ, List.flatten_cons, List.append_assoc, List.cons_append,
      List.nil_append, List.countP_cons] at ih ⊢
    simp only [Bool.false_eq_true, if_false, if_true, Nat.add_zero] at ih ⊢
    omega

theorem bibe_link_management_body_fail (M : Int) (ms : Nat) (ev : LinkEvents)
    (param : bibe_contact_parameters) (hconn : param.connected = false)
    (haddr : deref param.cla_sock_addr ≠ NUL) (hfail : ev.connect < 0) :
    bibe_link_management_body M ms ev param =
      retry_or_give_up M ms { param with socket := ev.connect }
        [LinkEffect.ASSERT (decide (param.socket < 0)),
          LinkEffect.cla_tcp_connect_to_cla_addr param.cla_sock_addr] := by
  unfold bibe_link_management_body
  rw [if_neg (by rw [hconn]; simp), if_neg haddr]
  dsimp only
  rw [if_pos hfail]

theorem bibe_link_management_loop_fail (M : Int) (ms : Nat) (k : Nat) :
    ∀ (events : List LinkEvents) (param : bibe_contact_parameters),
      param.connected = false → deref param.cla_sock_addr ≠ NUL → param.socket < 0 →
      0 ≤ param.connect_attempt → param.connect_attempt + k = M → M < 2 ^ 31 - 1 →
      (∀ ev ∈ events, ev.connect < 0 ∧ ev.in_contact = true) → k + 1 ≤ events.length →
      ∃ r, bibe_link_management_loop M ms events param = some r ∧
        r.param.cla_sock_addr = param.cla_sock_addr ∧
        r.effects = (List.replicate k [LinkEffect.ASSERT true,
            LinkEffect.cla_tcp_connect_to_cla_addr param.cla_sock_addr,
            LinkEffect.hal_task_delay ms]).flatten ++
          [LinkEffect.ASSERT true, LinkEffect.cla_tcp_connect_to_cla_addr param.cla_sock_addr] ∧
        r.starts.length = k + 1 := by
  induction k with
  | zero =>
    intro events param hconn haddr hsock h0 hM hlt hev hlen
    cases events with
    | nil => simp at hlen
    | cons ev rest =>
      have hfail := (hev ev (List.mem_cons_self _ _)).1
      have hatt : to_int32 (param.connect_attempt + 1) = param.connect_attempt + 1 :=
        to_int32_of_range (by omega) (by omega)
      rw [bibe_link_management_loop, bibe_link_management_body_fail M ms ev param hconn haddr
        hfail]
      unfold retry_or_give_up
      dsimp only
      rw [hatt, if_pos (show param.connect_attempt + 1 > M by omega)]
      dsimp only
      rw [if_pos rfl]
      refine ⟨_, rfl, rfl, ?_, rfl⟩
      simp [hsock]
  | succ k ih =>
    intro events param hconn haddr hsock h0 hM hlt hev hlen
    cases events with
    | nil => simp at hlen
    | cons ev rest =>
      have hfail := (hev ev (List.mem_cons_self _ _)).1
      have hin := (hev ev (List.mem_cons_self _ _)).2
      have hatt : to_int32 (param.connect_attempt + 1) = param.connect_attempt + 1 :=
        to_int32_of_range (by omega) (by omega)
      rw [bibe_link_management_loop, bibe_link_management_body_fail M ms ev param hconn haddr
        hfail]
      unfold retry_or_give_up
      dsimp only
      rw [hatt, if_neg (show ¬ param.connect_attempt + 1 > M by push_cast at hM; omega)]
      dsimp only
      rw [if_neg (by simp), if_pos hin]
      obtain ⟨r, hr, haddr2, heff, hst⟩ := ih rest
        { link := param.link, cla_sock_addr := param.cla_sock_addr,
          partner_eid := param.partner_eid, in_contact := ev.in_contact,
          connected := param.connected, connect_attempt := param.connect_attempt + 1,
          socket := ev.connect }
        hconn haddr hfail (by dsimp only; omega) (by dsimp only; push_cast at hM; omega) hlt
        (fun e he => hev e (List.mem_cons_of_mem _ he))
        (by simp only [List.length_cons] at hlen; omega)
      rw [hr]
      refine ⟨_, rfl, haddr2, ?_, ?_⟩
      · dsimp only
        rw [heff]
        simp [hsock, List.replicate_succ]
      · dsimp only
        rw [List.length_cons, hst]

theorem htab_get_remove (htab : List (List Char × bibe_contact_parameters)) (key : List Char) :
    htab_get (htab_remove htab key) key = none := by
  unfold htab_get htab_remove
  induction htab with
  | nil => rfl
  | cons e tl ih =>
    by_cases h : e.1 = key
    · simp only [List.filter_cons, h, ne_eq, not_true_eq_false, decide_False,
        Bool.false_eq_true, if_false]
      exact ih
    · simp only [List.filter_cons, h, ne_eq, not_false_eq_true, decide_True, if_true,
        List.find?_cons, decide_False]
      exact ih

/-- C32. For a peer as `launch_connection_management_task` sets it up (not
connected, no attempt counted, socket -1) with a non-empty socket address, when
every connect fails and `in_contact` stays true: the task calls
`cla_tcp_connect_to_cla_addr` exactly `CLA_TCP_MAX_RETRY_ATTEMPTS + 1` times, with
one `hal_task_delay` after each call but the last, then leaves the loop and
removes the entry of the socket address from the table. -/
theorem bibe_link_management_retry_bound (M ms : Nat) (events : List LinkEvents)
    (config : bibe_config) (param : bibe_contact_parameters)
    (hM : (M : Int) < 2 ^ 31 - 1)
    (hconn : param.connected = false) (hatt : param.connect_attempt = 0)
    (hsock : param.socket = -1) (haddr : param.cla_sock_addr ≠ [])
    (hnul : ∀ c ∈ param.cla_sock_addr, c ≠ NUL)
    (hev : ∀ ev ∈ events, ev.connect < 0 ∧ ev.in_contact = true)
    (hlen : M + 1 ≤ events.length) :
    ∃ r, bibe_link_management_task M ms events config param = some r ∧
      r.effects = (List.replicate M [LinkEffect.ASSERT true,
          LinkEffect.cla_tcp_connect_to_cla_addr param.cla_sock_addr,
          LinkEffect.hal_task_delay ms]).flatten ++
        [LinkEffect.ASSERT true, LinkEffect.cla_tcp_connect_to_cla_addr param.cla_sock_addr] ++
        [LinkEffect.htab_remove param.cla_sock_addr] ∧
      connect_calls r.effects = M + 1 ∧ delay_calls r.effects = M ∧
      r.starts.length = M + 1 ∧
      r.config.param_htab = htab_remove config.param_htab param.cla_sock_addr ∧
      htab_get r.config.param_htab param.cla_sock_addr = none := by
  have hd : deref param.cla_sock_addr ≠ NUL := by
    cases hc : param.cla_sock_addr with
    | nil => exact absurd hc haddr
    | cons c tl =>
      rw [deref_cons]
      exact hnul c (by rw [hc]; exact List.mem_cons_self _ _)
  obtain ⟨r, hr, haddr2, heff, hst⟩ := bibe_link_management_loop_fail M ms M events param
    hconn hd (by rw [hsock]; decide) (by rw [hatt]) (by rw [hatt]; simp) hM hev hlen
  unfold bibe_link_management_task
  rw [hr]
  refine ⟨_, rfl, ?_, ?_, ?_, hst, ?_, ?_⟩
  · dsimp only
    rw [heff, haddr2]
  · dsimp only
    rw [heff, haddr2]
    exact (connect_calls_retries param.cla_sock_addr ms M
      [LinkEffect.htab_remove param.cla_sock_addr] ⟨rfl, rfl⟩).1
  · dsimp only
    rw [heff, haddr2]
    exact (connect_calls_retries param.cla_sock_addr ms M
      [LinkEffect.htab_remove param.cla_sock_addr] ⟨rfl, rfl⟩).2
  · dsimp only
    rw [haddr2]
  · dsimp only
    rw [haddr2]
    exact htab_get_remove _ _


/-! `bibe_get_tx_queue` -/

theorem strchr_some (s : List Char) (c : Char) (d : List Char) (h : strchr s c = some d) :
    ∃ pre e, s = pre ++ c :: e ∧ c ∉ pre ∧ d = c :: e := by
  unfold strchr at h
  have hsplit := List.takeWhile_append_dropWhile (fun x => decide (x ≠ c)) s
  have hpre : c ∉ s.takeWhile (fun x => decide (x ≠ c)) := by
    intro hc
    have := List.mem_takeWhile_imp hc
    simp at this
  cases hd : s.dropWhile (fun x => decide (x ≠ c)) with
  | nil => rw [hd] at h; cases h
  | cons x r =>
    rw [hd] at h hsplit
    simp only [Option.some.injEq] at h
    have hx : x = c := by
      have := List.head_dropWhile_not (fun x => decide (x ≠ c)) s (by rw [hd]; simp)
      simp only [hd, List.head_cons] at this
      simpa using this
    subst hx
    exact ⟨_, r, hsplit.symm, hpre, h.symm⟩

/-- Whether `dest_eid_is_valid` holds in `bibe_get_tx_queue`. -/
theorem dest_eid_is_valid_iff (cla_addr : List Char) :
    (match strchr cla_addr '#' with
      | none => false
      | some d => decide (deref d ≠ NUL) && decide (validate_eid (d.drop 1) = UD3TN_OK)) = true ↔
    ∃ pre e, cla_addr = pre ++ '#' :: e ∧ '#' ∉ pre ∧ validate_eid e = UD3TN_OK := by
  constructor
  · intro h
    cases hs : strchr cla_addr '#' with
    | none => rw [hs] at h; cases h
    | some d =>
      rw [hs] at h
      obtain ⟨pre, e, he, hpre, hd⟩ := strchr_some cla_addr '#' d hs
      subst hd
      simp only [deref_cons, List.drop_succ_cons, List.drop_zero, Bool.and_eq_true,
        decide_eq_true_eq] at h
      exact ⟨pre, e, he, hpre, h.2⟩
  · rintro ⟨pre, e, he, hpre, hv⟩
    rw [he, strchr_append pre e '#' hpre]
    simp only [deref_cons, List.drop_succ_cons, List.drop_zero, Bool.and_eq_true,
      decide_eq_true_eq]
    exact ⟨by decide, hv⟩

/-- C33 as amended. When `cla_get_connect_addr` returns the string
`cla_sock_addr` for `cla_addr`: `bibe_get_tx_queue` returns the `tx_queue_handle`
and `tx_queue_sem` of the link when the table holds an entry for `cla_sock_addr`
cut at its first '#', the entry is connected, its `tx_queue_handle` is not `NULL`
and `cla_addr` holds a '#' that is followed by a valid EID; it returns
`{NULL, NULL}` otherwise. -/
theorem bibe_get_tx_queue_spec (cla_get_connect_addr : List Char → Option (List Char))
    (config : bibe_config) (eid cla_addr cla_sock_addr : List Char)
    (haddr : cla_get_connect_addr cla_addr = some cla_sock_addr) :
    (∀ p, htab_get config.param_htab (cla_sock_addr.takeWhile (fun c => decide (c ≠ '#'))) =
          some p →
        p.connected = true → p.link.tx_queue_handle ≠ none →
        (∃ pre e, cla_addr = pre ++ '#' :: e ∧ '#' ∉ pre ∧ validate_eid e = UD3TN_OK) →
        bibe_get_tx_queue cla_get_connect_addr config eid cla_addr =
          some ⟨p.link.tx_queue_handle, p.link.tx_queue_sem⟩) ∧
    ((¬ ∃ p, htab_get config.param_htab
            (cla_sock_addr.takeWhile (fun c => decide (c ≠ '#'))) = some p ∧
          p.connected = true ∧ p.link.tx_queue_handle ≠ none ∧
          ∃ pre e, cla_addr = pre ++ '#' :: e ∧ '#' ∉ pre ∧ validate_eid e = UD3TN_OK) →
      bibe_get_tx_queue cla_get_connect_addr config eid cla_addr = some ⟨none, none⟩) := by
  have hget : get_contact_parameters cla_get_connect_addr config cla_addr =
      some (htab_get config.param_htab
        (cla_sock_addr.takeWhile (fun c => decide (c ≠ '#')))) := by
    unfold get_contact_parameters
    rw [haddr]
  constructor
  · intro p hp hconn hq hdest
    unfold bibe_get_tx_queue
    rw [hget, hp]
    dsimp only
    rw [if_pos ⟨hconn, (dest_eid_is_valid_iff cla_addr).mpr hdest⟩, if_neg hq]
  · intro hno
    unfold bibe_get_tx_queue
    rw [hget]
    dsimp only
    cases hp : htab_get config.param_htab
        (cla_sock_addr.takeWhile (fun c => decide (c ≠ '#'))) with
    | none => rfl
    | some p =>
      dsimp only
      split
      · rename_i hc
        split
        · rfl
        · rename_i hq
          exact absurd ⟨p, hp, hc.1, hq, (dest_eid_is_valid_iff cla_addr).mp hc.2⟩ hno
      · rfl

/-- C33 as stated fails: the table holds a connected entry with a queue for
"127.0.0.1:9999", and for the address "bibe:127.0.0.1:9999", which names no lower
EID, `bibe_get_tx_queue` returns `{NULL, NULL}`. -/
theorem bibe_get_tx_queue_needs_eid :
    htab_get [("127.0.0.1:9999".toList,
        (⟨⟨some 7, some 8⟩, "127.0.0.1:9999".toList, some "dtn://peer/".toList, true, true, 0,
          5⟩ : bibe_contact_parameters))] "127.0.0.1:9999".toList =
      some ⟨⟨some 7, some 8⟩, "127.0.0.1:9999".toList, some "dtn://peer/".toList, true, true, 0,
        5⟩ ∧
    bibe_get_tx_queue cla_get_connect_addr_spec
      ⟨[("127.0.0.1:9999".toList,
        ⟨⟨some 7, some 8⟩, "127.0.0.1:9999".toList, some "dtn://peer/".toList, true, true, 0,
          5⟩)]⟩ "dtn://peer/".toList "bibe:127.0.0.1:9999".toList = some ⟨none, none⟩ := by
  constructor <;> decide

/-- C36 fails on the code: with `CLA_TCP_MAX_RETRY_ATTEMPTS = 3`, from the state
`socket = -1`, `connected = false`, a first pass in which connect returns the
descriptor 5 and the `REGISTER` message cannot be written (`errno_` 32) is
followed by a pass that starts with `socket = 5` and `connected = false`, and
in which `ASSERT(param->socket < 0)` is evaluated to false. -/
theorem bibe_link_management_stale_socket :
    (bibe_link_management_loop 3 10
        [⟨5, 32, UD3TN_OK, true⟩, ⟨-1, 0, UD3TN_OK, false⟩]
        ⟨⟨none, none⟩, "127.0.0.1:9999".toList, some "dtn://peer/".toList, true, false, 0,
          -1⟩).map (fun r => r.starts) =
      some [⟨⟨none, none⟩, "127.0.0.1:9999".toList, some "dtn://peer/".toList, true, false, 0,
          -1⟩,
        ⟨⟨none, none⟩, "127.0.0.1:9999".toList, some "dtn://peer/".toList, true, false, 1,
          5⟩] ∧
    (bibe_link_management_loop 3 10
        [⟨5, 32, UD3TN_OK, true⟩, ⟨-1, 0, UD3TN_OK, false⟩]
        ⟨⟨none, none⟩, "127.0.0.1:9999".toList, some "dtn://peer/".toList, true, false, 0,
          -1⟩).map (fun r => r.effects) =
      some [LinkEffect.ASSERT true,
        LinkEffect.cla_tcp_connect_to_cla_addr "127.0.0.1:9999".toList,
        LinkEffect.aap_serialize "bibe".toList 5, LinkEffect.close 5,
        LinkEffect.hal_task_delay 10, LinkEffect.ASSERT false,
        LinkEffect.cla_tcp_connect_to_cla_addr "127.0.0.1:9999".toList,
        LinkEffect.hal_task_delay 10] := by
  constructor <;> decide

/-! ## The theorems of the management callback, the contact merge and the BIBE layer at
concrete inputs -/

/-- C31 at the two-byte payload `01 05` from "dtn://me/mgmt". -/
theorem callback_invalid_command_witness :
    hal_time_init_calls
      (callback get_node_id_spec ⟨"dtn://me/mgmt".toList, [1, 5], 2⟩
        ⟨"dtn://me/".toList, false⟩ 0) = [] :=
  (callback_invalid_command get_node_id_spec ⟨"dtn://me/mgmt".toList, [1, 5], 2⟩
    ⟨"dtn://me/".toList, false⟩ 0 (Or.inr (Or.inr ⟨by decide, by decide⟩))).1

/-- C34 at `old = [10, 20)` and `new = [18, 35)` with the bitrate 1000 and the
endpoints "dtn://a/" and "dtn://b/", the allocation succeeding. -/
theorem merge_contacts_spec_witness :
    buffers_consistent
      (([⟨100, "dtn://a/"⟩] : List Eid) ++ ([⟨200, "dtn://b/"⟩] : List Eid)) ∧
    all_succeed [true] ∧
    (merge_contacts ⟨some "A", 10, 20, 1000, 10000, 10000, 10000, 10000, [⟨100, "dtn://a/"⟩], 0⟩
      ⟨some "A", 18, 35, 1000, 17000, 17000, 17000, 17000, [⟨200, "dtn://b/"⟩], 0⟩
      [true]).2.1 = true ∧
    (merge_contacts ⟨some "A", 10, 20, 1000, 10000, 10000, 10000, 10000, [⟨100, "dtn://a/"⟩], 0⟩
      ⟨some "A", 18, 35, 1000, 17000, 17000, 17000, 17000, [⟨200, "dtn://b/"⟩], 0⟩
      [true]).1.to_ = 35 ∧
    "dtn://b/" ∈ (merge_contacts
      ⟨some "A", 10, 20, 1000, 10000, 10000, 10000, 10000, [⟨100, "dtn://a/"⟩], 0⟩
      ⟨some "A", 18, 35, 1000, 17000, 17000, 17000, 17000, [⟨200, "dtn://b/"⟩], 0⟩
      [true]).1.contact_endpoints.map Eid.str :=
  ⟨by decide, by decide,
   ((merge_contacts_spec
      ⟨some "A", 10, 20, 1000, 10000, 10000, 10000, 10000, [⟨100, "dtn://a/"⟩], 0⟩
      ⟨some "A", 18, 35, 1000, 17000, 17000, 17000, 17000, [⟨200, "dtn://b/"⟩], 0⟩
      [true] (by decide)).2.2.2.2.2.2 (by decide) (by decide) (by decide)).mpr
        (Or.inr (by decide)),
   (merge_contacts_spec
      ⟨some "A", 10, 20, 1000, 10000, 10000, 10000, 10000, [⟨100, "dtn://a/"⟩], 0⟩
      ⟨some "A", 18, 35, 1000, 17000, 17000, 17000, 17000, [⟨200, "dtn://b/"⟩], 0⟩
      [true] (by decide)).2.1,
   ((merge_contacts_spec
      ⟨some "A", 10, 20, 1000, 10000, 10000, 10000, 10000, [⟨100, "dtn://a/"⟩], 0⟩
      ⟨some "A", 18, 35, 1000, 17000, 17000, 17000, 17000, [⟨200, "dtn://b/"⟩], 0⟩
      [true] (by decide)).2.2.1 (by decide) "dtn://b/").mpr (Or.inr (by decide))⟩

/-- C35 at S3: `a = [10, 20), [30, 40)`, `b = [18, 35)` and the time 25, which only
the contact of `b` covers; the one allocation of the call fails. -/
theorem contact_list_union_coverage_witness :
    ∃ c ∈ (contact_list_union
        [⟨some "A", 10, 20, 1000, 10000, 10000, 10000, 10000, [], 0⟩,
          ⟨some "A", 30, 40, 1000, 10000, 10000, 10000, 10000, [], 0⟩]
        [⟨some "A", 18, 35, 1000, 17000, 17000, 17000, 17000, [], 0⟩] (some []) [false]).1,
      c.from_ ≤ 25 ∧ 25 < c.to_ :=
  (contact_list_union_coverage
    [⟨some "A", 10, 20, 1000, 10000, 10000, 10000, 10000, [], 0⟩,
      ⟨some "A", 30, 40, 1000, 10000, 10000, 10000, 10000, [], 0⟩]
    [⟨some "A", 18, 35, 1000, 17000, 17000, 17000, 17000, [], 0⟩] (some []) [false]
    (by decide) (by decide) (by decide) 25).mpr
    (Or.inr ⟨⟨some "A", 18, 35, 1000, 17000, 17000, 17000, 17000, [], 0⟩, by decide,
      by decide⟩)

/-- C32 at S5: the peer at "127.0.0.1:9999" refuses every connect, with at most 3
retries 10 ms apart: 4 calls of connect, 3 delays, and the entry is gone. -/
theorem bibe_link_management_retry_bound_witness :
    ∃ r, bibe_link_management_task 3 10 (List.replicate 4 ⟨-1, 0, UD3TN_OK, true⟩)
        ⟨[("127.0.0.1:9999".toList,
          ⟨⟨none, none⟩, "127.0.0.1:9999".toList, some "dtn://peer/".toList, true, false, 0,
            -1⟩)]⟩
        ⟨⟨none, none⟩, "127.0.0.1:9999".toList, some "dtn://peer/".toList, true, false, 0,
          -1⟩ = some r ∧
      connect_calls r.effects = 4 ∧ delay_calls r.effects = 3 ∧
      htab_get r.config.param_htab "127.0.0.1:9999".toList = none := by
  obtain ⟨r, hr, _, hc, hd, _, _, hg⟩ := bibe_link_management_retry_bound 3 10
    (List.replicate 4 ⟨-1, 0, UD3TN_OK, true⟩)
    ⟨[("127.0.0.1:9999".toList,
      ⟨⟨none, none⟩, "127.0.0.1:9999".toList, some "dtn://peer/".toList, true, false, 0,
        -1⟩)]⟩
    ⟨⟨none, none⟩, "127.0.0.1:9999".toList, some "dtn://peer/".toList, true, false, 0, -1⟩
    (by decide) rfl rfl rfl (by decide) (by decide) (by decide) (by decide)
  exact ⟨r, hr, hc, hd, hg⟩

/-- C33 at the address "bibe:127.0.0.1:9999#dtn://lower/" and a table that holds a
connected entry with a queue for "127.0.0.1:9999". -/
theorem bibe_get_tx_queue_spec_witness :
    bibe_get_tx_queue cla_get_connect_addr_spec
      ⟨[("127.0.0.1:9999".toList,
        ⟨⟨some 7, some 8⟩, "127.0.0.1:9999".toList, some "dtn://peer/".toList, true, true, 0,
          5⟩)]⟩ "dtn://peer/".toList "bibe:127.0.0.1:9999#dtn://lower/".toList =
      some ⟨some 7, some 8⟩ :=
  (bibe_get_tx_queue_spec cla_get_connect_addr_spec
    ⟨[("127.0.0.1:9999".toList,
      ⟨⟨some 7, some 8⟩, "127.0.0.1:9999".toList, some "dtn://peer/".toList, true, true, 0,
        5⟩)]⟩ "dtn://peer/".toList "bibe:127.0.0.1:9999#dtn://lower/".toList
    "127.0.0.1:9999#dtn://lower/".toList (by decide)).1
    ⟨⟨some 7, some 8⟩, "127.0.0.1:9999".toList, some "dtn://peer/".toList, true, true, 0, 5⟩
    (by decide) rfl (by decide)
    ⟨"bibe:127.0.0.1:9999".toList, "dtn://lower/".toList, by decide, by decide, by decide⟩

end Ud3tn
